import Mathlib

/-!
# Process control of the live patcher (`patcher/process.c`)

A shallow embedding of the thread seize / cure / suspend state machine and of
the session `link` code, followed by theorems about it.

The program talks to the outside world (the traced target, the debugger
library, the allocator, the clock) through calls whose answers the program
cannot predict.  Every such call is answered by an `Env` oracle that sees the
whole history of earlier calls, and is recorded in a chronological `trace`, so
a statement quantified over every `Env` speaks about every behaviour of the
target.
-/

namespace Nsb

/-! ## Constants of the platform headers (Linux, x86-64) -/

def EPERM : Int := 1
def ESRCH : Int := 3
def EAGAIN : Int := 11
def ENOMEM : Int := 12
def EBUSY : Int := 16
def EINVAL : Int := 22
def ENOSYS : Int := 38
def ETIME : Int := 62

def PAGE_SIZE : Nat := 4096
def MAP_PRIVATE : Nat := 0x02
def MAP_ANONYMOUS : Nat := 0x20
def PROT_READ : Nat := 0x1
def PROT_WRITE : Nat := 0x2
def PROT_EXEC : Nat := 0x4

/-- The bit pattern of a signed value in a 64-bit register (`unsigned long`,
`uint64_t`, `void *`). -/
def toU64 (v : Int) : Nat := (v % (2 : Int) ^ 64).toNat

/-- The value of a `long` after conversion to a 32-bit `int`. -/
def toI32 (v : Int) : Int := (v + (2 : Int) ^ 31) % (2 : Int) ^ 32 - (2 : Int) ^ 31

/-- The constant `MAP_FAILED`, that is `(void *) -1`. -/
def MAP_FAILED : Nat := 2 ^ 64 - 1

/-! ## Data model -/

/-- An entry of the thread list: `struct thread_s` without the list links. -/
structure thread_s where
  pid : Int
  seized : Bool
deriving DecidableEq, Repr

/-- What `compel_stop_task` returned: one of the four task states the source
switches on, or any other value (the `default:` label), in which case `errno`
is the value the global `errno` holds when the call returns. -/
inductive stop_result where
  | COMPEL_TASK_ALIVE
  | COMPEL_TASK_STOPPED
  | COMPEL_TASK_ZOMBIE
  | COMPEL_TASK_DEAD
  | other (errno : Int)
deriving DecidableEq, Repr

/-- The system calls the gateway injects (`__NR(mmap, false)` and so on). -/
inductive Sysno where
  | mmap | munmap | open_ | close
deriving DecidableEq, Repr

/-- One observable interaction with the outside world, with its answer. -/
inductive Event where
  /-- The line `= Infecting process` logged on entry of `process_infect`. -/
  | infecting
  /-- One directory enumeration of the task directory. -/
  | iterate_dir (entries : List Int) (ret : Int)
  | malloc (ok : Bool)
  /-- A call `compel_stop_task(pid)`; `seized` is the flag of the list entry at
  the time of the call (not an argument of the call, kept for stating
  properties). -/
  | stop (pid : Int) (seized : Bool) (r : stop_result)
  | resume (pid : Int) (ret : Int)
  | backtrace (pid : Int) (ret : Int)
  | check (pid : Int) (ret : Int)
  | destroy_backtrace (pid : Int)
  | usleep (usec : Nat)
  | prepare (pid : Int) (ctl : Option Nat)
  | syscall (nr : Sysno) (args : List Nat) (ret sret : Int)
  | cure (ctl : Nat) (ret : Int)
  /-- A call `ptrace_poke_area(pid, data, addr, size)` with its result. -/
  | poke (pid : Int) (addr size : Nat) (ret : Int)
deriving DecidableEq, Repr

/-- The outside world.  Every field answers one external call from the history
of all earlier events. -/
structure Env where
  /-- The task directory listing: the thread ids of the entries in directory
  order (`atoi` of each name), and the status of the enumeration itself. -/
  readdir : List Event → List Int × Int
  malloc : List Event → Bool
  compel_stop_task : List Event → Int → stop_result
  compel_resume_task : List Event → Int → Int
  pid_backtrace : List Event → Int → Int
  /-- The predicate `ctx->ops->check_backtrace`. -/
  check_backtrace : List Event → Int → Int
  compel_prepare : List Event → Int → Option Nat
  /-- The transport: returns `(ret, sret)`, the status of the injection and
  the value left in `sret`. -/
  compel_syscall : List Event → Sysno → List Nat → Int × Int
  compel_cure : List Event → Nat → Int
  /-- The transfer of a word-aligned write into the target (process id,
  address, size): `none` when it succeeds, `some e` when it fails leaving
  `errno = e`. -/
  ptrace_poke : List Event → Int → Nat → Nat → Option Int

/-- The mutable state outside the context: the global `errno` and the history. -/
structure World where
  errno : Int
  trace : List Event
deriving DecidableEq, Repr

/-- The fields of `struct process_ctx_s` the process-control code uses.  The
declaration (`include/context.h`) is not among the sources; `remote_map` is
held as a 64-bit pattern, `ctl = none` is the null handle. -/
structure process_ctx_s where
  pid : Int
  ctl : Option Nat
  remote_map : Nat
  remote_map_size : Nat
  threads : List thread_s
deriving DecidableEq, Repr

/-- Append an event to the history. -/
def World.emit (w : World) (e : Event) : World :=
  { w with trace := w.trace ++ [e] }

/-! ## Remote syscall gateway -/

/-- The function `process_syscall`: `ret` is the status of the injection,
`sret` the result of the system call in the target. -/
def process_syscall (env : Env) (_ctx : process_ctx_s) (nr : Sysno) (args : List Nat)
    (w : World) : Int × World :=
  let r := env.compel_syscall w.trace nr args
  let w := w.emit (.syscall nr args r.1 r.2)
  if r.1 < 0 then (r.1, w)
  else if r.2 < 0 then (-1, { w with errno := toI32 (-r.2) })
  else (r.2, w)

/-- The function `process_map`. -/
def process_map (env : Env) (ctx : process_ctx_s) (fd : Int) (offset : Int) (addr : Nat)
    (size : Nat) (flags : Nat) (prot : Nat) (w : World) : Int × World :=
  let r := process_syscall env ctx .mmap
    [addr, size, prot, flags, toU64 fd, toU64 offset] w
  if r.1 < 0 then (-r.2.errno, r.2)
  else (r.1, r.2)

/-- The function `process_unmap`; the result of `process_syscall` is stored
in an `int`. -/
def process_unmap (env : Env) (ctx : process_ctx_s) (addr : Nat) (size : Nat)
    (w : World) : Int × World :=
  let r := process_syscall env ctx .munmap [addr, size, 0, 0, 0, 0] w
  if toI32 r.1 < 0 then (-r.2.errno, r.2)
  else (0, r.2)

/-- The debugger library's `ptrace_poke_area`, by the adapter contract `write`
of the specification: a size that is not a multiple of the word size (8 bytes)
is rejected with `-1` before anything is written; otherwise the words are
transferred, with result 0, or `-2` and `errno` set when the transfer fails. -/
def ptrace_poke_area (env : Env) (pid : Int) (addr : Nat) (size : Nat) (w : World) :
    Int × World :=
  if size % 8 ≠ 0 then (-1, w.emit (.poke pid addr size (-1)))
  else
    match env.ptrace_poke w.trace pid addr size with
    | none => (0, w.emit (.poke pid addr size 0))
    | some e => (-2, { errno := e, trace := w.trace ++ [.poke pid addr size (-2)] })

/-- The function `process_write_data`; `data` are the bytes at the source
address. -/
def process_write_data (env : Env) (pid : Int) (addr : Nat) (_data : List Nat) (size : Nat)
    (w : World) : Int × World :=
  let r := ptrace_poke_area env pid addr size w
  if r.1 ≠ 0 then
    if r.1 = -1 then (-EINVAL, r.2)
    else (-r.2.errno, r.2)
  else (0, r.2)

/-- Modelled from the spec: the macro `round_up` (its definition is not among
the sources) pads `x` up to the next boundary of `y` bytes: the least multiple
of `y` that is at least `x`. -/
def round_up (x y : Nat) : Nat := (x + y - 1) / y * y

/-- The function `process_close_file`; the result of `process_syscall` is
stored in an `int`. -/
def process_close_file (env : Env) (ctx : process_ctx_s) (fd : Int) (w : World) :
    Int × World :=
  let r := process_syscall env ctx .close [toU64 fd, 0, 0, 0, 0, 0] w
  if toI32 r.1 < 0 then (-r.2.errno, r.2)
  else (0, r.2)

/-- The function `process_do_open_file`; `path` are the bytes of the path
before its terminating NUL, so `strlen(path)` is `path.length`, and the size
is a 64-bit `size_t`. -/
def process_do_open_file (env : Env) (ctx : process_ctx_s) (path : List Nat)
    (flags mode : Nat) (w : World) : Int × World :=
  let r := process_write_data env ctx.pid ctx.remote_map path
    (round_up ((path.length + 1) % 2 ^ 64) 8 % 2 ^ 64) w
  if r.1 ≠ 0 then r
  else
    let s := process_syscall env ctx .open_ [ctx.remote_map, flags, mode, 0, 0, 0] r.2
    if toI32 s.1 < 0 then (-s.2.errno, s.2)
    else (toI32 s.1, s.2)

/-- The function `process_open_file`. -/
def process_open_file (env : Env) (ctx : process_ctx_s) (path : List Nat)
    (flags mode : Nat) (w : World) : Int × World :=
  process_do_open_file env ctx path flags mode w

/-! ## Cure -/

/-- The function `task_cure`. -/
def task_cure (env : Env) (t : thread_s) (w : World) : Int × World :=
  if !t.seized then (0, w)
  else
    let r := env.compel_resume_task w.trace t.pid
    let w := w.emit (.resume t.pid r)
    if r ≠ 0 then (-1, w) else (0, w)

/-- The `list_for_each_entry_safe` walk of `process_cure_threads` over the
entries not yet visited; returns the status and what is left of the list. -/
def process_cure_threads_walk (env : Env) :
    List thread_s → World → Int × List thread_s × World
  | [], w => (0, [], w)
  | t :: rest, w =>
    let r := task_cure env t w
    if r.1 ≠ 0 then (r.1, t :: rest, r.2)
    else process_cure_threads_walk env rest r.2

/-- The function `process_cure_threads`. -/
def process_cure_threads (env : Env) (ctx : process_ctx_s) (w : World) :
    Int × process_ctx_s × World :=
  let r := process_cure_threads_walk env ctx.threads w
  (r.1, { ctx with threads := r.2.1 }, r.2.2)

/-- The function `process_cure`. -/
def process_cure (env : Env) (ctx : process_ctx_s) (w : World) :
    Int × process_ctx_s × World :=
  process_cure_threads env ctx w

/-! ## Session lifecycle -/

/-- The function `process_unlink`. -/
def process_unlink (env : Env) (ctx : process_ctx_s) (w : World) :
    Int × process_ctx_s × World :=
  match ctx.ctl with
  | none => (0, ctx, w)
  | some h =>
    let r := process_unmap env ctx ctx.remote_map ctx.remote_map_size w
    if r.1 ≠ 0 then (r.1, ctx, r.2)
    else
      let err := env.compel_cure r.2.trace h
      (err, ctx, r.2.emit (.cure h err))

/-- The function `process_link`. -/
def process_link (env : Env) (ctx : process_ctx_s) (w : World) :
    Int × process_ctx_s × World :=
  let ctl := env.compel_prepare w.trace ctx.pid
  let w := w.emit (.prepare ctx.pid ctl)
  let ctx := { ctx with ctl := ctl }
  match ctl with
  | none => (-1, ctx, w)
  | some h =>
    let ctx := { ctx with remote_map_size := PAGE_SIZE }
    let r := process_map env ctx (-1) 0 0 ctx.remote_map_size
      (MAP_ANONYMOUS ||| MAP_PRIVATE) (PROT_READ ||| PROT_WRITE ||| PROT_EXEC) w
    let ctx := { ctx with remote_map := toU64 r.1 }
    if ctx.remote_map = MAP_FAILED then
      let c := env.compel_cure r.2.trace h
      (-1, { ctx with ctl := none }, r.2.emit (.cure h c))
    else (0, ctx, r.2)

/-! ## Seize -/

/-- The function `task_infect`.  The second component is what became of the
entry: `some t` when it stays in the list, `none` when `thread_destroy`
unlinked it. -/
def task_infect (env : Env) (t : thread_s) (w : World) : Int × Option thread_s × World :=
  let r := env.compel_stop_task w.trace t.pid
  let w := w.emit (.stop t.pid t.seized r)
  match r with
  | .COMPEL_TASK_ALIVE => (0, some { t with seized := true }, w)
  | .COMPEL_TASK_STOPPED => (-EBUSY, some t, w)
  | .COMPEL_TASK_ZOMBIE => (0, none, w)
  | .COMPEL_TASK_DEAD => (0, none, w)
  | .other e =>
    let w := { w with errno := e }
    if e ≠ -ESRCH then (-e, some t, w)
    else (0, none, w)

/-- The function `collect_thread`; `pid` is `atoi(dentry)` and `threads` the
list passed as `data`.  A `malloc` that fails returns the null pointer and
leaves `errno = ENOMEM`; one that succeeds leaves `errno` as it was. -/
def collect_thread (env : Env) (pid : Int) (threads : List thread_s) (w : World) :
    Int × List thread_s × World :=
  if threads.any (fun t => t.pid == pid) then (0, threads, w)
  else
    let ok := env.malloc w.trace
    let w := w.emit (.malloc ok)
    if !ok then (-ENOMEM, threads, { w with errno := ENOMEM })
    else (0, threads ++ [{ pid := pid, seized := false }], w)

/-- The callback loop of the directory enumeration over the entries read. -/
def iterate_entries (env : Env) (ret : Int) :
    List Int → List thread_s → World → Int × List thread_s × World
  | [], threads, w => (ret, threads, w)
  | e :: es, threads, w =>
    let r := collect_thread env e threads w
    if r.1 ≠ 0 then r
    else iterate_entries env ret es r.2.1 r.2.2

/-- Modelled from the spec: `iterate_dir_name` (declared in `include/util.h`,
its body is not among the sources) enumerates the directory and hands every
entry to the callback, here `collect_thread`, in directory order; a non-zero
callback result ends the enumeration and is returned, otherwise the status of
the enumeration itself is. -/
def iterate_dir_name (env : Env) (threads : List thread_s) (w : World) :
    Int × List thread_s × World :=
  let d := env.readdir w.trace
  iterate_entries env d.2 d.1 threads (w.emit (.iterate_dir d.1 d.2))

/-- The function `process_collect_threads`. -/
def process_collect_threads (env : Env) (ctx : process_ctx_s) (w : World) :
    Int × process_ctx_s × World :=
  let r := iterate_dir_name env ctx.threads w
  (r.1, { ctx with threads := r.2.1 }, r.2.2)

/-- The `list_for_each_entry_safe` walk of `process_infect_threads`: `done` are
the entries already visited (as they now stand in the list), the second list
the entries still to visit. -/
def process_infect_threads_walk (env : Env) :
    List thread_s → List thread_s → World → Int × List thread_s × World
  | done, [], w => (0, done, w)
  | done, t :: rest, w =>
    let r := task_infect env t w
    if r.1 ≠ 0 then (r.1, done ++ r.2.1.toList ++ rest, r.2.2)
    else process_infect_threads_walk env (done ++ r.2.1.toList) rest r.2.2

/-- The function `process_infect_threads`. -/
def process_infect_threads (env : Env) (ctx : process_ctx_s) (w : World) :
    Int × process_ctx_s × World :=
  let r := process_infect_threads_walk env [] ctx.threads w
  (r.1, { ctx with threads := r.2.1 }, r.2.2)

/-- The function `process_needs_seize`. -/
def process_needs_seize (ctx : process_ctx_s) : Bool :=
  match ctx.threads.getLast? with
  | none => true
  | some t => !t.seized

/-- The `while (1)` loop of `process_infect`, with a bound on the number of
iterations; `none` when the bound is reached before the loop ends. -/
def process_infect_loop (env : Env) :
    Nat → process_ctx_s → World → Option (Int × process_ctx_s × World)
  | 0, _, _ => none
  | fuel + 1, ctx, w =>
    let c := process_collect_threads env ctx w
    if c.1 ≠ 0 then
      let k := process_cure_threads env c.2.1 c.2.2
      some (c.1, k.2.1, k.2.2)
    else if !process_needs_seize c.2.1 then
      if c.2.1.threads.isEmpty then some (-ESRCH, c.2.1, c.2.2)
      else some (0, c.2.1, c.2.2)
    else
      let i := process_infect_threads env c.2.1 c.2.2
      if i.1 ≠ 0 then
        let k := process_cure_threads env i.2.1 i.2.2
        some (i.1, k.2.1, k.2.2)
      else process_infect_loop env fuel i.2.1 i.2.2

/-- The function `process_infect`. -/
def process_infect (env : Env) (fuel : Nat) (ctx : process_ctx_s) (w : World) :
    Option (Int × process_ctx_s × World) :=
  process_infect_loop env fuel ctx (w.emit .infecting)

/-! ## Stack inspection -/

/-- The function `task_check_stack`. -/
def task_check_stack (env : Env) (t : thread_s) (w : World) : Int × World :=
  let err := env.pid_backtrace w.trace t.pid
  let w := w.emit (.backtrace t.pid err)
  if err ≠ 0 then (err, w)
  else
    let err := env.check_backtrace w.trace t.pid
    let w := w.emit (.check t.pid err)
    (err, w.emit (.destroy_backtrace t.pid))

/-- The `list_for_each_entry` walk of `process_check_stack`. -/
def process_check_stack_walk (env : Env) : List thread_s → World → Int × World
  | [], w => (0, w)
  | t :: rest, w =>
    let r := task_check_stack env t w
    if r.1 ≠ 0 then r
    else process_check_stack_walk env rest r.2

/-- The function `process_check_stack`. -/
def process_check_stack (env : Env) (ctx : process_ctx_s) (w : World) : Int × World :=
  process_check_stack_walk env ctx.threads w

/-! ## Suspend -/

/-- The function `process_catch`. -/
def process_catch (env : Env) (fuel : Nat) (ctx : process_ctx_s) (w : World) :
    Option (Int × process_ctx_s × World) :=
  match process_infect env fuel ctx w with
  | none => none
  | some (err, ctx, w) =>
    if err ≠ 0 then some (err, ctx, w)
    else
      let r := process_check_stack env ctx w
      if r.1 ≠ 0 then
        let k := process_cure env ctx r.2
        some (if r.1 ≠ 0 then r.1 else k.1, k.2.1, k.2.2)
      else some (0, ctx, r.2)

/-- The function `increase_timeout` on 32-bit `unsigned`. -/
def increase_timeout (current_msec : Nat) : Nat :=
  let max_msec_timeout := 1000
  if current_msec < max_msec_timeout then
    min ((current_msec <<< 1) % 2 ^ 32) max_msec_timeout
  else current_msec

/-- The local `tries` of `process_suspend`. -/
def tries : Nat := 25

/-- The `do ... while (++try < tries)` loop of `process_suspend` from the
state `(try, timeout_msec)`.  The first argument bounds the number of
iterations. -/
def process_suspend_loop (env : Env) (fuel : Nat) :
    Nat → Nat → Nat → process_ctx_s → World → Option (Int × process_ctx_s × World)
  | 0, _, _, _, _ => none
  | n + 1, try_, timeout_msec, ctx, w =>
    let w1 := if try_ ≠ 0 then w.emit (.usleep ((timeout_msec * 1000) % 2 ^ 32)) else w
    let timeout_msec := if try_ ≠ 0 then increase_timeout timeout_msec else timeout_msec
    match process_catch env fuel ctx w1 with
    | none => none
    | some (err, ctx, w) =>
      if err ≠ -EAGAIN then some (err, ctx, w)
      else if try_ + 1 < tries then
        process_suspend_loop env fuel n (try_ + 1) timeout_msec ctx w
      else some (err, ctx, w)

/-- The function `process_suspend`.  `fuel` bounds every `while (1)` loop of
`process_infect`; the retry loop itself runs at most `tries` times. -/
def process_suspend (env : Env) (fuel : Nat) (ctx : process_ctx_s) (w : World) :
    Option (Int × process_ctx_s × World) :=
  match process_suspend_loop env fuel tries 0 1 ctx w with
  | none => none
  | some (err, ctx, w) => some (if err = -EAGAIN then -ETIME else err, ctx, w)

/-! ## Observations on a history -/

/-- The durations, in microseconds, of the sleeps of a history. -/
def sleeps : List Event → List Nat
  | [] => []
  | .usleep u :: es => u :: sleeps es
  | _ :: es => sleeps es

/-- The number of seize attempts of a history: `process_infect` is entered once
by every call of `process_catch`. -/
def attempts (tr : List Event) : Nat := tr.count .infecting

/-! ## Specification vocabulary -/

/-- The sleeps, in microseconds, of `k` further rounds of the retry loop of
`process_suspend` from the state `(try, timeout_msec)` when every round asks
for a retry. -/
def backoff : Nat → Nat → Nat → List Nat
  | 0, _, _ => []
  | k + 1, try_, timeout_msec =>
    (if try_ ≠ 0 then [(timeout_msec * 1000) % 2 ^ 32] else []) ++
      backoff k (try_ + 1) (if try_ ≠ 0 then increase_timeout timeout_msec else timeout_msec)

/-- Is the event a stop of thread `id` that returned `COMPEL_TASK_ALIVE`? -/
def Event.alive_stop_of (id : Int) : Event → Bool
  | .stop p _ .COMPEL_TASK_ALIVE => p == id
  | _ => false

/-- Is the event a resume call on thread `id`? -/
def Event.resume_of (id : Int) : Event → Bool
  | .resume p _ => p == id
  | _ => false

/-- The number of stop calls on `id` that returned `COMPEL_TASK_ALIVE`. -/
def alive_stops (id : Int) (tr : List Event) : Nat := tr.countP (Event.alive_stop_of id)

/-- The number of resume calls on `id`. -/
def resumes (id : Int) (tr : List Event) : Nat := tr.countP (Event.resume_of id)

/-- The number of seized entries for `id` in a thread list. -/
def held (id : Int) (l : List thread_s) : Nat := l.countP (fun t => t.seized && t.pid == id)

/-- An event is regular unless it is a stop issued on an entry that is already
seized or a resume that failed. -/
def Event.regular : Event → Bool
  | .stop _ seized _ => !seized
  | .resume _ ret => ret == 0
  | _ => true

/-- Modelled from the spec: the path `suspend` → (success | failure) → cleanup
of the pair-balance property; the caller of `process_suspend` and
`process_cure` (`patch.c`) is not among the sources.  After a successful
`process_suspend` the caller releases the threads with `process_cure`; after a
failed one nothing more is done. -/
def suspend_then_cure (env : Env) (fuel : Nat) (ctx : process_ctx_s) (w : World) :
    Option (Int × process_ctx_s × World) :=
  match process_suspend env fuel ctx w with
  | none => none
  | some (err, ctx, w) =>
    if err = 0 then some (process_cure env ctx w) else some (err, ctx, w)

/-- Pair balance of a state: in a regular history every thread id has as many
live stops as resumes plus seized entries. -/
def balanced (l : List thread_s) (w : World) : Prop :=
  (∀ e ∈ w.trace, e.regular = true) →
    ∀ id, alive_stops id w.trace = resumes id w.trace + held id l

/-- A property of (thread list, world) that every primitive step of the seize,
inspection and cure code preserves: recording an enumeration, `collect_thread`,
`task_infect` on any entry, `task_cure` on the head entry followed by its
destruction on success, and `task_check_stack`. -/
structure ThreadInv (env : Env) (I : List thread_s → World → Prop) : Prop where
  enumerate : ∀ l w es ret, I l w → I l (w.emit (.iterate_dir es ret))
  collect : ∀ pid l w, I l w →
    I (collect_thread env pid l w).2.1 (collect_thread env pid l w).2.2
  infect : ∀ a t b w, I (a ++ t :: b) w →
    I (a ++ (task_infect env t w).2.1.toList ++ b) (task_infect env t w).2.2
  cure : ∀ t b w, I (t :: b) w →
    I (if (task_cure env t w).1 ≠ 0 then t :: b else b) (task_cure env t w).2
  check : ∀ t l w, t ∈ l → I l w → I l (task_check_stack env t w).2

/-- The history of `w` has `k` attempts and the sleeps `s`. -/
def frame (k : Nat) (s : List Nat) (_l : List thread_s) (w : World) : Prop :=
  attempts w.trace = k ∧ sleeps w.trace = s

/-- A target on which every primitive of the seize / cure cycle succeeds, whose
task directory is never empty and whose thread ids all come from the finite
list `U`; the set of threads listed may change from one enumeration to the
next. -/
structure Cooperative (env : Env) (U : List Int) : Prop where
  readdir_ok : ∀ h, (env.readdir h).2 = 0
  readdir_ne : ∀ h, (env.readdir h).1 ≠ []
  readdir_sub : ∀ h, ∀ pid ∈ (env.readdir h).1, pid ∈ U
  malloc : ∀ h, env.malloc h = true
  stop : ∀ h pid, env.compel_stop_task h pid = .COMPEL_TASK_ALIVE
  resume : ∀ h pid, env.compel_resume_task h pid = 0
  unwind : ∀ h pid, env.pid_backtrace h pid = 0

/-! ## Concrete targets -/

/-- A fresh context for process 100: no handle, no scratch page, no thread. -/
def ctx0 : process_ctx_s := ⟨100, none, 0, 0, []⟩

/-- The initial world: `errno` clear, empty history. -/
def w0 : World := ⟨0, []⟩

/-- A target with the two threads 1 and 2 on which every primitive of the
seize / cure cycle succeeds and whose predicate always asks for a retry; the
injected system calls fail in the target's kernel with `ENOMEM`. -/
def target_again : Env where
  readdir := fun _ => ([1, 2], 0)
  malloc := fun _ => true
  compel_stop_task := fun _ _ => .COMPEL_TASK_ALIVE
  compel_resume_task := fun _ _ => 0
  pid_backtrace := fun _ _ => 0
  check_backtrace := fun _ _ => -EAGAIN
  compel_prepare := fun _ _ => some 7
  compel_syscall := fun _ _ _ => (0, -ENOMEM)
  compel_cure := fun _ _ => 0
  ptrace_poke := fun _ _ _ _ => none

/-- As `target_again`, with a predicate that accepts every stack. -/
def target_quiet : Env :=
  { target_again with check_backtrace := fun _ _ => 0 }

/-- As `target_again`, with a predicate that rejects with `-EINVAL`. -/
def target_fatal : Env :=
  { target_again with check_backtrace := fun _ _ => -EINVAL }

/-- As `target_fatal`, but `compel_resume_task` fails. -/
def target_stuck : Env :=
  { target_fatal with compel_resume_task := fun _ _ => -1 }

/-- A target that shows thread 1 at the first enumeration and threads 1 and 2
from the second on; every stop returns `COMPEL_TASK_ALIVE` and the predicate
accepts. -/
def target_grow : Env :=
  { target_quiet with
    readdir := fun h => if h.count (.iterate_dir [1] 0) = 0 then ([1], 0) else ([1, 2], 0) }

/-- A target whose thread 1 has vanished: stopping it returns an error with
`errno = ESRCH`. -/
def target_vanish : Env :=
  { target_quiet with
    compel_stop_task := fun _ pid =>
      if pid = 1 then .other ESRCH else .COMPEL_TASK_ALIVE }

/-- A target whose task directory is always empty. -/
def target_empty : Env :=
  { target_quiet with readdir := fun _ => ([], 0) }

/-- A target where stopping thread 1 returns an unknown value while `errno`
is 0. -/
def target_errno0 : Env :=
  { target_quiet with
    compel_stop_task := fun _ pid =>
      if pid = 1 then .other 0 else .COMPEL_TASK_ALIVE }

/-- A target for a whole session: `compel_prepare` gives the handle 7, the
injected `mmap` returns the address `0x7f0000000000` and every other injected
system call returns 0. -/
def target_session : Env :=
  { target_quiet with
    compel_syscall := fun _ nr _ =>
      match nr with
      | .mmap => (0, 0x7f0000000000)
      | _ => (0, 0) }

/-- A target on which `compel_prepare` fails. -/
def target_noprep : Env :=
  { target_quiet with compel_prepare := fun _ _ => none }

/-- A target on which the transport of every injected system call fails. -/
def target_transport : Env :=
  { target_quiet with compel_syscall := fun _ _ _ => (-1, -ENOSYS) }

/-- The context of process 100 after a successful `process_link` against
`target_session`. -/
def ctx_linked : process_ctx_s := ⟨100, some 7, 0x7f0000000000, 4096, []⟩

/-- The events of the inspection of a thread that unwinds and whose stack the
predicate accepts: the backtrace is obtained, the predicate returns 0, the
backtrace is destroyed. -/
def passed (t : thread_s) : List Event :=
  [.backtrace t.pid 0, .check t.pid 0, .destroy_backtrace t.pid]

/-- A target on which the allocation of a thread entry fails. -/
def target_nomem : Env :=
  { target_quiet with malloc := fun _ => false }

/-! ## Threads under seize according to a history -/

/-- How one event changes whether thread `id` is under seize: a stop that
returns `COMPEL_TASK_ALIVE` puts it under seize, a successful resume releases
it, and a stop that finds it zombie, dead or vanished means it is gone. -/
def seize_step (id : Int) (b : Bool) : Event → Bool
  | .stop pid _ .COMPEL_TASK_ALIVE => if pid = id then true else b
  | .stop pid _ .COMPEL_TASK_ZOMBIE => if pid = id then false else b
  | .stop pid _ .COMPEL_TASK_DEAD => if pid = id then false else b
  | .stop pid _ (.other e) => if pid = id ∧ e = -ESRCH then false else b
  | .resume pid ret => if pid = id ∧ ret = 0 then false else b
  | _ => b

/-- Is thread `id` under seize after the history `tr`? -/
def under_seize (id : Int) (tr : List Event) : Bool :=
  tr.foldl (seize_step id) false

/-- Does the list hold a seized entry for thread `id`? -/
def holds (id : Int) (l : List thread_s) : Bool :=
  l.any (fun t => t.seized && t.pid == id)

/-- The thread list and the history agree: the ids of the list are distinct
and a thread is under seize according to the history exactly when the list
holds a seized entry for it. -/
def tracks (l : List thread_s) (w : World) : Prop :=
  (l.map (fun t => t.pid)).Nodup ∧ ∀ id, under_seize id w.trace = holds id l

/-- Is the event a stop that returned `COMPEL_TASK_STOPPED`? -/
def Event.is_stopped : Event → Bool
  | .stop _ _ .COMPEL_TASK_STOPPED => true
  | _ => false

/-- Is the event a resume call? -/
def Event.is_resume : Event → Bool
  | .resume _ _ => true
  | _ => false

/-- An event other than a failed resume. -/
def Event.resume_ok : Event → Bool
  | .resume _ ret => ret == 0
  | _ => true

/-- As `target_quiet`, but the predicate asks for a retry during the first `n`
attempts of the history and accepts from attempt `n + 1` on. -/
def target_retry (n : Nat) : Env :=
  { target_quiet with
    check_backtrace := fun h _ => if attempts h ≤ n then -EAGAIN else 0 }

/-- As `target_retry 1`, but `compel_resume_task` fails. -/
def target_retry_stuck : Env :=
  { target_retry 1 with compel_resume_task := fun _ _ => -1 }

/-- A target with the threads 1, 2 and 3 of which thread 3 is already stopped
by another tracer; `compel_resume_task` fails. -/
def target_busy_stuck : Env :=
  { target_quiet with
    readdir := fun _ => ([1, 2, 3], 0)
    compel_stop_task := fun _ pid =>
      if pid = 3 then .COMPEL_TASK_STOPPED else .COMPEL_TASK_ALIVE
    compel_resume_task := fun _ _ => -1 }

/-- The trailing run of resume calls of a history: the calls of the cure that
ended it (empty when the history does not end with a resume). -/
def last_cure (tr : List Event) : List Event :=
  (tr.reverse.takeWhile Event.is_resume).reverse

/-- At every sleep that follows a cure in which no resume failed, no thread is
under seize: for every position `i` that holds a `usleep`, if the resumes that
immediately precede it all succeeded, no thread is under seize after the first
`i` events. -/
def released_when_cured (tr : List Event) : Prop :=
  ∀ i u, tr[i]? = some (Event.usleep u) →
    (∀ e ∈ last_cure (tr.take i), e.resume_ok = true) →
      ∀ id, under_seize id (tr.take i) = false

/-- A list of seized entries with distinct ids from `U`: what a completed
seize, or a cure that ended early on such a list, leaves behind. -/
def seized_within (U : List Int) (l : List thread_s) : Prop :=
  (∀ t ∈ l, t.seized = true) ∧ (l.map (fun t => t.pid)).Nodup ∧ ∀ t ∈ l, t.pid ∈ U

/-- A target on which enumeration, allocation, stop and unwinding always
succeed, whose task directory is never empty and whose thread ids all come from
the finite list `U`.  Nothing is assumed of `compel_resume_task` nor of the
predicate. -/
structure Seizable (env : Env) (U : List Int) : Prop where
  readdir_ok : ∀ h, (env.readdir h).2 = 0
  readdir_ne : ∀ h, (env.readdir h).1 ≠ []
  readdir_sub : ∀ h, ∀ pid ∈ (env.readdir h).1, pid ∈ U
  malloc : ∀ h, env.malloc h = true
  stop : ∀ h pid, env.compel_stop_task h pid = .COMPEL_TASK_ALIVE
  unwind : ∀ h pid, env.pid_backtrace h pid = 0

/-- A target on which the seize loop comes to an end: the task directory is
never empty, its thread ids all come from the finite list `U`, and a stop
answers `COMPEL_TASK_ALIVE` or `COMPEL_TASK_STOPPED`.  Nothing is assumed of
the status of the enumeration, of the allocation, of the resume, of the
unwinding nor of the predicate. -/
structure Convergent (env : Env) (U : List Int) : Prop where
  readdir_ne : ∀ h, (env.readdir h).1 ≠ []
  readdir_sub : ∀ h, ∀ pid ∈ (env.readdir h).1, pid ∈ U
  stop : ∀ h pid, env.compel_stop_task h pid = .COMPEL_TASK_ALIVE ∨
    env.compel_stop_task h pid = .COMPEL_TASK_STOPPED

/-- The number of ids of `U` for which the list has no entry. -/
def missing (U : List Int) (l : List thread_s) : Nat :=
  U.countP (fun u => !l.any (fun t => t.pid == u))

/-- The run ended on a stop that returned `COMPEL_TASK_STOPPED`: the result is
`-EBUSY`, the only calls after that stop are the resumes of the cure, and if
none of them failed the thread list `l` is empty. -/
def busy_end (err : Int) (l : List thread_s) (tr : List Event) : Prop :=
  err = -EBUSY ∧
    (∃ pre pid s, tr = pre ++ Event.stop pid s .COMPEL_TASK_STOPPED :: last_cure tr) ∧
    ((∀ e ∈ last_cure tr, e.resume_ok = true) → l = [])

/-- A target whose first attempt seizes the threads 1 and 2, is asked to retry
and fails to resume thread 1; from the second attempt on the listing shows a
third thread, already stopped by another tracer, and the resumes succeed. -/
def target_busy_late : Env :=
  { target_quiet with
    readdir := fun h => if attempts h ≤ 1 then ([1, 2], 0) else ([1, 2, 3], 0)
    compel_stop_task := fun _ pid =>
      if pid = 3 then .COMPEL_TASK_STOPPED else .COMPEL_TASK_ALIVE
    check_backtrace := fun h _ => if attempts h ≤ 1 then -EAGAIN else 0
    compel_resume_task := fun h _ => if attempts h ≤ 1 then -1 else 0 }

/-! ## Invariants carried through the walks and loops -/

theorem iterate_entries_inv {env : Env} {I : List thread_s → World → Prop}
    (hI : ThreadInv env I) (ret : Int) (es : List Int) :
    ∀ (l : List thread_s) (w : World), I l w →
      I (iterate_entries env ret es l w).2.1 (iterate_entries env ret es l w).2.2 := by
  induction es with
  | nil => intro l w h; simpa [iterate_entries] using h
  | cons e es ih =>
    intro l w h
    have hc := hI.collect e l w h
    unfold iterate_entries
    by_cases h0 : (collect_thread env e l w).1 ≠ 0
    · rw [if_pos h0]; exact hc
    · rw [if_neg h0]; exact ih _ _ hc

theorem process_collect_threads_inv {env : Env} {I : List thread_s → World → Prop}
    (hI : ThreadInv env I) (ctx : process_ctx_s) (w : World) (h : I ctx.threads w) :
    I (process_collect_threads env ctx w).2.1.threads (process_collect_threads env ctx w).2.2 := by
  unfold process_collect_threads iterate_dir_name
  exact iterate_entries_inv hI _ _ _ _ (hI.enumerate _ _ _ _ h)

theorem process_cure_threads_walk_inv {env : Env} {I : List thread_s → World → Prop}
    (hI : ThreadInv env I) (l : List thread_s) :
    ∀ (w : World), I l w →
      I (process_cure_threads_walk env l w).2.1 (process_cure_threads_walk env l w).2.2 := by
  induction l with
  | nil => intro w h; simpa [process_cure_threads_walk] using h
  | cons t rest ih =>
    intro w h
    have hc := hI.cure t rest w h
    unfold process_cure_threads_walk
    by_cases h0 : (task_cure env t w).1 ≠ 0
    · rw [if_pos h0] at hc ⊢; exact hc
    · rw [if_neg h0] at hc ⊢; exact ih _ hc

theorem process_cure_threads_inv {env : Env} {I : List thread_s → World → Prop}
    (hI : ThreadInv env I) (ctx : process_ctx_s) (w : World) (h : I ctx.threads w) :
    I (process_cure_threads env ctx w).2.1.threads (process_cure_threads env ctx w).2.2 :=
  process_cure_threads_walk_inv hI _ _ h

theorem process_infect_threads_walk_inv {env : Env} {I : List thread_s → World → Prop}
    (hI : ThreadInv env I) (todo : List thread_s) :
    ∀ (done : List thread_s) (w : World), I (done ++ todo) w →
      I (process_infect_threads_walk env done todo w).2.1
        (process_infect_threads_walk env done todo w).2.2 := by
  induction todo with
  | nil => intro done w h; simpa [process_infect_threads_walk] using h
  | cons t rest ih =>
    intro done w h
    have hc := hI.infect done t rest w h
    unfold process_infect_threads_walk
    by_cases h0 : (task_infect env t w).1 ≠ 0
    · rw [if_pos h0]; exact hc
    · rw [if_neg h0]; exact ih _ _ hc

theorem process_infect_threads_inv {env : Env} {I : List thread_s → World → Prop}
    (hI : ThreadInv env I) (ctx : process_ctx_s) (w : World) (h : I ctx.threads w) :
    I (process_infect_threads env ctx w).2.1.threads (process_infect_threads env ctx w).2.2 :=
  process_infect_threads_walk_inv hI _ _ _ (by simpa using h)

theorem process_check_stack_walk_inv {env : Env} {I : List thread_s → World → Prop}
    (hI : ThreadInv env I) (l : List thread_s) (rest : List thread_s) :
    ∀ (w : World), (∀ t ∈ rest, t ∈ l) → I l w →
      I l (process_check_stack_walk env rest w).2 := by
  induction rest with
  | nil => intro w _ h; simpa [process_check_stack_walk] using h
  | cons t rest ih =>
    intro w hsub h
    have hc := hI.check t l w (hsub t (List.mem_cons_self _ _)) h
    unfold process_check_stack_walk
    by_cases h0 : (task_check_stack env t w).1 ≠ 0
    · rw [if_pos h0]; exact hc
    · rw [if_neg h0]
      exact ih _ (fun u hu => hsub u (List.mem_cons_of_mem _ hu)) hc

theorem process_check_stack_inv {env : Env} {I : List thread_s → World → Prop}
    (hI : ThreadInv env I) (ctx : process_ctx_s) (w : World) (h : I ctx.threads w) :
    I ctx.threads (process_check_stack env ctx w).2 :=
  process_check_stack_walk_inv hI _ _ _ (fun _ ht => ht) h

theorem process_infect_loop_inv {env : Env} {I : List thread_s → World → Prop}
    (hI : ThreadInv env I) (fuel : Nat) :
    ∀ (ctx : process_ctx_s) (w : World) (r : Int × process_ctx_s × World),
      I ctx.threads w → process_infect_loop env fuel ctx w = some r →
      I r.2.1.threads r.2.2 := by
  induction fuel with
  | zero => intro ctx w r _ hr; simp [process_infect_loop] at hr
  | succ n ih =>
    intro ctx w r h hr
    have hc := process_collect_threads_inv hI ctx w h
    unfold process_infect_loop at hr
    simp only at hr
    split_ifs at hr with h1 h2 h3 h4
    · cases hr; exact process_cure_threads_inv hI _ _ hc
    · cases hr; exact hc
    · cases hr; exact hc
    · cases hr
      exact process_cure_threads_inv hI _ _ (process_infect_threads_inv hI _ _ hc)
    · exact ih _ _ _ (process_infect_threads_inv hI _ _ hc) hr

theorem process_catch_inv {env : Env} {I : List thread_s → World → Prop}
    (hI : ThreadInv env I) (fuel : Nat) (ctx : process_ctx_s) (w : World)
    (r : Int × process_ctx_s × World) (h : I ctx.threads (w.emit .infecting))
    (hr : process_catch env fuel ctx w = some r) : I r.2.1.threads r.2.2 := by
  unfold process_catch at hr
  cases hi : process_infect env fuel ctx w with
  | none => simp [hi] at hr
  | some q =>
    obtain ⟨err, ctx1, w1⟩ := q
    have h1 : I ctx1.threads w1 := process_infect_loop_inv hI fuel _ _ _ h hi
    simp only [hi] at hr
    split_ifs at hr with h2 h3
    · cases hr; exact h1
    · cases hr
      exact process_cure_threads_inv hI _ _ (process_check_stack_inv hI _ _ h1)
    · cases hr
      exact process_check_stack_inv hI _ _ h1

theorem process_suspend_loop_inv {env : Env} {I : List thread_s → World → Prop}
    (hI : ThreadInv env I)
    (hinf : ∀ l w, I l w → I l (w.emit .infecting))
    (hsl : ∀ l w u, I l w → I l (w.emit (.usleep u)))
    (fuel : Nat) (n : Nat) :
    ∀ (try_ timeout_msec : Nat) (ctx : process_ctx_s) (w : World)
      (r : Int × process_ctx_s × World),
      I ctx.threads w → process_suspend_loop env fuel n try_ timeout_msec ctx w = some r →
      I r.2.1.threads r.2.2 := by
  induction n with
  | zero => intro _ _ _ _ r _ hr; simp [process_suspend_loop] at hr
  | succ n ih =>
    intro try_ timeout_msec ctx w r h hr
    rw [process_suspend_loop] at hr
    have hw : I ctx.threads
        (if try_ ≠ 0 then w.emit (.usleep ((timeout_msec * 1000) % 2 ^ 32)) else w) := by
      split_ifs
      · exact hsl _ _ _ h
      · exact h
    cases hc : process_catch env fuel ctx
        (if try_ ≠ 0 then w.emit (.usleep ((timeout_msec * 1000) % 2 ^ 32)) else w) with
    | none => rw [hc] at hr; cases hr
    | some q =>
      obtain ⟨err, ctx1, w1⟩ := q
      have h1 : I ctx1.threads w1 := process_catch_inv hI fuel _ _ _ (hinf _ _ hw) hc
      rw [hc] at hr
      dsimp only at hr
      by_cases h2 : err ≠ -EAGAIN
      · rw [if_pos h2] at hr; cases hr; exact h1
      · rw [if_neg h2] at hr
        by_cases h3 : try_ + 1 < tries
        · rw [if_pos h3] at hr; exact ih _ _ _ _ _ h1 hr
        · rw [if_neg h3] at hr; cases hr; exact h1

theorem process_suspend_inv {env : Env} {I : List thread_s → World → Prop}
    (hI : ThreadInv env I)
    (hinf : ∀ l w, I l w → I l (w.emit .infecting))
    (hsl : ∀ l w u, I l w → I l (w.emit (.usleep u)))
    (fuel : Nat) (ctx : process_ctx_s) (w : World) (r : Int × process_ctx_s × World)
    (h : I ctx.threads w) (hr : process_suspend env fuel ctx w = some r) :
    I r.2.1.threads r.2.2 := by
  unfold process_suspend at hr
  cases hl : process_suspend_loop env fuel tries 0 1 ctx w with
  | none => rw [hl] at hr; cases hr
  | some q =>
    obtain ⟨err, ctx1, w1⟩ := q
    rw [hl] at hr
    cases hr
    exact process_suspend_loop_inv hI hinf hsl fuel _ _ _ _ _ (err, ctx1, w1) h hl

/-! ### Frame: the seize, inspection and cure steps neither sleep nor start an attempt -/

theorem sleeps_append (a b : List Event) : sleeps (a ++ b) = sleeps a ++ sleeps b := by
  induction a with
  | nil => rfl
  | cons e a ih => cases e <;> simp [sleeps, ih]

theorem attempts_append (a b : List Event) : attempts (a ++ b) = attempts a + attempts b := by
  simp [attempts]

theorem frame_threadInv (env : Env) (k : Nat) (s : List Nat) : ThreadInv env (frame k s) where
  enumerate := by
    intro l w es ret h
    simpa [frame, World.emit, sleeps_append, attempts_append, sleeps, attempts] using h
  collect := by
    intro pid l w h
    unfold collect_thread
    dsimp only
    split_ifs <;>
      simpa [frame, World.emit, sleeps_append, attempts_append, sleeps, attempts] using h
  infect := by
    intro a t b w h
    unfold task_infect
    dsimp only
    cases env.compel_stop_task w.trace t.pid <;> dsimp only <;> try split_ifs
    all_goals
      simpa [frame, World.emit, sleeps_append, attempts_append, sleeps, attempts] using h
  cure := by
    intro t b w h
    unfold task_cure
    dsimp only
    split_ifs <;>
      simpa [frame, World.emit, sleeps_append, attempts_append, sleeps, attempts] using h
  check := by
    intro t l w _ h
    unfold task_check_stack
    dsimp only
    split_ifs <;>
      simpa [frame, World.emit, sleeps_append, attempts_append, sleeps, attempts] using h

/-! ## The cooperative target -/

theorem process_infect_threads_walk_alive {env : Env}
    (hs : ∀ h pid, env.compel_stop_task h pid = .COMPEL_TASK_ALIVE) (todo : List thread_s) :
    ∀ (done : List thread_s) (w : World),
      (process_infect_threads_walk env done todo w).1 = 0 ∧
      (process_infect_threads_walk env done todo w).2.1 =
        done ++ todo.map (fun t => { t with seized := true }) := by
  induction todo with
  | nil => intro done w; simp [process_infect_threads_walk]
  | cons t rest ih =>
    intro done w
    have ht : task_infect env t w =
        (0, some { t with seized := true },
          w.emit (.stop t.pid t.seized .COMPEL_TASK_ALIVE)) := by
      simp only [task_infect, hs]
    rw [process_infect_threads_walk]
    rw [ht]
    simp only [ne_eq, not_true_eq_false, if_false]
    obtain ⟨h1, h2⟩ := ih (done ++ [{ t with seized := true }])
      (w.emit (.stop t.pid t.seized .COMPEL_TASK_ALIVE))
    simp only [Option.toList] at h1 h2 ⊢
    exact ⟨h1, by rw [h2]; simp⟩

theorem process_cure_threads_walk_ok {env : Env}
    (hr : ∀ h pid, env.compel_resume_task h pid = 0) (l : List thread_s) :
    ∀ (w : World),
      (process_cure_threads_walk env l w).1 = 0 ∧
      (process_cure_threads_walk env l w).2.1 = [] := by
  induction l with
  | nil => intro w; simp [process_cure_threads_walk]
  | cons t rest ih =>
    intro w
    have h0 : (task_cure env t w).1 = 0 := by
      unfold task_cure
      split_ifs <;> simp_all
    rw [process_cure_threads_walk]
    rw [if_neg (by simpa using h0)]
    exact ih _

theorem process_needs_seize_of_all_seized (ctx : process_ctx_s) (hne : ctx.threads ≠ [])
    (hall : ∀ t ∈ ctx.threads, t.seized = true) : process_needs_seize ctx = false := by
  unfold process_needs_seize
  cases hl : ctx.threads.getLast? with
  | none => exact absurd (List.getLast?_eq_none_iff.1 hl) hne
  | some t => simp [hall t (List.mem_of_getLast?_eq_some hl)]

theorem process_needs_seize_of_new (ctx : process_ctx_s) (old new : List thread_s)
    (hl : ctx.threads = old ++ new) (hne : new ≠ [])
    (hnew : ∀ t ∈ new, t.seized = false) : process_needs_seize ctx = true := by
  unfold process_needs_seize
  cases hn : new.getLast? with
  | none => exact absurd (List.getLast?_eq_none_iff.1 hn) hne
  | some t =>
    have : ctx.threads.getLast? = some t := by
      rw [hl, List.getLast?_append, hn]; rfl
    rw [this]
    simp [hnew t (List.mem_of_getLast?_eq_some hn)]

theorem iterate_entries_nodup {env : Env} (hm : ∀ h, env.malloc h = true) (ret : Int)
    (es : List Int) :
    ∀ (l : List thread_s) (w : World), (l.map (fun t => t.pid)).Nodup →
      (iterate_entries env ret es l w).1 = ret ∧
      ∃ new, (iterate_entries env ret es l w).2.1 = l ++ new ∧
        (∀ t ∈ new, t.seized = false ∧ t.pid ∈ es) ∧
        ((l ++ new).map (fun t => t.pid)).Nodup ∧
        (∀ pid ∈ es, ∃ t ∈ l ++ new, t.pid = pid) := by
  induction es with
  | nil => intro l w hl; exact ⟨by simp [iterate_entries], [], by simp [iterate_entries], by simp,
      by simpa using hl, by simp⟩
  | cons e es ih =>
    intro l w hl
    rw [iterate_entries]
    by_cases hmem : l.any (fun t => t.pid == e) = true
    · have hc : collect_thread env e l w = (0, l, w) := by
        simp only [collect_thread, hmem, if_true]
      rw [hc]
      simp only [ne_eq, not_true_eq_false, if_false]
      obtain ⟨h1, new, h2, h3, h4, h5⟩ := ih l w hl
      refine ⟨h1, new, h2, fun t ht => ⟨(h3 t ht).1, List.mem_cons_of_mem _ (h3 t ht).2⟩, h4, ?_⟩
      intro pid hp
      rcases List.mem_cons.1 hp with rfl | hp
      · obtain ⟨t, ht, hpid⟩ := List.any_eq_true.1 hmem
        exact ⟨t, List.mem_append_left _ ht, by simpa using hpid⟩
      · exact h5 pid hp
    · have hc : collect_thread env e l w =
          (0, l ++ [{ pid := e, seized := false }], w.emit (.malloc true)) := by
        simp only [collect_thread, hmem, hm]
        simp
      rw [hc]
      simp only [ne_eq, not_true_eq_false, if_false]
      have hnot : e ∉ l.map (fun t => t.pid) := by
        intro he
        obtain ⟨t, ht, hpid⟩ := List.mem_map.1 he
        exact hmem (List.any_eq_true.2 ⟨t, ht, by simpa using hpid⟩)
      have hl' : ((l ++ [({ pid := e, seized := false } : thread_s)]).map
          (fun t => t.pid)).Nodup := by
        rw [List.map_append, List.nodup_append]
        refine ⟨hl, by simp, ?_⟩
        intro a ha hb
        simp at hb
        exact hnot (hb ▸ ha)
      obtain ⟨h1, new, h2, h3, h4, h5⟩ :=
        ih (l ++ [{ pid := e, seized := false }]) (w.emit (.malloc true)) hl'
      refine ⟨h1, ({ pid := e, seized := false } : thread_s) :: new, by rw [h2]; simp, ?_,
        by simpa using h4, ?_⟩
      · intro t ht
        rcases List.mem_cons.1 ht with rfl | ht
        · exact ⟨rfl, List.mem_cons_self _ _⟩
        · exact ⟨(h3 t ht).1, List.mem_cons_of_mem _ (h3 t ht).2⟩
      · intro pid hp
        rcases List.mem_cons.1 hp with rfl | hp
        · exact ⟨{ pid := pid, seized := false }, by simp, rfl⟩
        · obtain ⟨t, ht, hpid⟩ := h5 pid hp
          exact ⟨t, by simpa using ht, hpid⟩

/-- Against a cooperative target the seize loop converges: from a list of
seized entries with distinct ids of `U` it returns 0 within
`U.length - l.length + 1` iterations, with a non-empty list of seized
entries. -/
theorem process_infect_loop_cooperative {env : Env} {U : List Int} (hC : Cooperative env U) (k : Nat) :
    ∀ (ctx : process_ctx_s) (w : World),
      (∀ t ∈ ctx.threads, t.seized = true) →
      (ctx.threads.map (fun t => t.pid)).Nodup →
      (∀ t ∈ ctx.threads, t.pid ∈ U) →
      U.length < ctx.threads.length + k →
      ∃ T w', process_infect_loop env k ctx w = some (0, { ctx with threads := T }, w') ∧
        T ≠ [] ∧ ∀ t ∈ T, t.seized = true := by
  induction k with
  | zero =>
    intro ctx w _ hnd hsub hk
    exfalso
    have : (ctx.threads.map (fun t => t.pid)).length ≤ U.length :=
      (hnd.subperm (fun a ha => by
        obtain ⟨t, ht, rfl⟩ := List.mem_map.1 ha
        exact hsub t ht)).length_le
    simp at this
    omega
  | succ k ih =>
    intro ctx w hall hnd hsub hk
    obtain ⟨e1, new, e2, e3, e4, e5⟩ := iterate_entries_nodup hC.malloc
      0 (env.readdir w.trace).1 ctx.threads
      (w.emit (.iterate_dir (env.readdir w.trace).1 0)) hnd
    have c1 : process_collect_threads env ctx w =
        (0, { ctx with threads := ctx.threads ++ new },
          (iterate_entries env 0 (env.readdir w.trace).1 ctx.threads
            (w.emit (.iterate_dir (env.readdir w.trace).1 0))).2.2) := by
      simp only [process_collect_threads, iterate_dir_name]
      rw [hC.readdir_ok]
      simp only [e1, e2]
    have hne : ctx.threads ++ new ≠ [] := by
      obtain ⟨a, L', hL⟩ := List.exists_cons_of_ne_nil (hC.readdir_ne w.trace)
      obtain ⟨t, ht, -⟩ := e5 a (by rw [hL]; exact List.mem_cons_self _ _)
      exact List.ne_nil_of_mem ht
    rw [process_infect_loop, c1]
    simp only [ne_eq, not_true_eq_false, if_false]
    by_cases hnew : new = []
    · subst hnew
      rw [List.append_nil] at hne ⊢
      have ns : process_needs_seize { ctx with threads := ctx.threads } = false :=
        process_needs_seize_of_all_seized _ hne hall
      simp only [ns, Bool.not_false, if_true]
      rw [if_neg (by simpa using hne)]
      exact ⟨ctx.threads, _, rfl, hne, hall⟩
    · have ns : process_needs_seize { ctx with threads := ctx.threads ++ new } = true :=
        process_needs_seize_of_new _ ctx.threads new rfl hnew (fun t ht => (e3 t ht).1)
      simp only [ns, Bool.not_true, Bool.false_eq_true, if_false]
      obtain ⟨i1, i2⟩ := process_infect_threads_walk_alive hC.stop (ctx.threads ++ new) []
        (iterate_entries env 0 (env.readdir w.trace).1 ctx.threads
          (w.emit (.iterate_dir (env.readdir w.trace).1 0))).2.2
      rw [List.nil_append] at i2
      have p1 : process_infect_threads env { ctx with threads := ctx.threads ++ new }
          (iterate_entries env 0 (env.readdir w.trace).1 ctx.threads
            (w.emit (.iterate_dir (env.readdir w.trace).1 0))).2.2 =
          (0, { ctx with threads :=
              (ctx.threads ++ new).map (fun t => { t with seized := true }) },
            (process_infect_threads_walk env [] (ctx.threads ++ new)
              (iterate_entries env 0 (env.readdir w.trace).1
                ctx.threads (w.emit (.iterate_dir (env.readdir w.trace).1 0))).2.2).2.2) := by
        simp only [process_infect_threads, i1, i2]
      rw [p1]
      simp only [ne_eq, not_true_eq_false, if_false]
      have hlen : 1 ≤ new.length := by
        cases new with
        | nil => exact absurd rfl hnew
        | cons a b => simp
      obtain ⟨T, w', hT, hTne, hTall⟩ := ih
        { ctx with threads := (ctx.threads ++ new).map (fun t => { t with seized := true }) }
        ((process_infect_threads_walk env [] (ctx.threads ++ new)
          (iterate_entries env 0 (env.readdir w.trace).1
            ctx.threads (w.emit (.iterate_dir (env.readdir w.trace).1 0))).2.2).2.2)
        (by
          intro t ht
          obtain ⟨u, -, rfl⟩ := List.mem_map.1 ht
          rfl)
        (by
          have : ((ctx.threads ++ new).map (fun t => ({ t with seized := true } : thread_s))).map
              (fun t => t.pid) = (ctx.threads ++ new).map (fun t => t.pid) := by
            rw [List.map_map]; rfl
          rw [this]; exact e4)
        (by
          intro t ht
          obtain ⟨u, hu, rfl⟩ := List.mem_map.1 ht
          rcases List.mem_append.1 hu with h | h
          · exact hsub u h
          · exact hC.readdir_sub _ _ (e3 u h).2)
        (by simp only [List.length_map, List.length_append]; omega)
      exact ⟨T, w', hT, hTne, hTall⟩

theorem process_infect_cooperative {env : Env} {U : List Int} (hC : Cooperative env U)
    (fuel : Nat) (hfuel : U.length + 1 ≤ fuel) (ctx : process_ctx_s) (w : World)
    (h0 : ctx.threads = []) :
    ∃ T w', process_infect env fuel ctx w = some (0, { ctx with threads := T }, w') ∧
      T ≠ [] ∧ ∀ t ∈ T, t.seized = true :=
  process_infect_loop_cooperative hC fuel ctx (w.emit .infecting) (by simp [h0])
    (by simp [h0]) (by simp [h0]) (by simp only [h0, List.length_nil]; omega)

theorem process_check_stack_walk_again {env : Env}
    (hu : ∀ h pid, env.pid_backtrace h pid = 0)
    (hP : ∀ h pid, env.check_backtrace h pid = -EAGAIN)
    (l : List thread_s) (hne : l ≠ []) (w : World) :
    (process_check_stack_walk env l w).1 = -EAGAIN := by
  obtain ⟨t, rest, rfl⟩ := List.exists_cons_of_ne_nil hne
  have h1 : (task_check_stack env t w).1 = -EAGAIN := by
    simp [task_check_stack, hu, hP]
  rw [process_check_stack_walk]
  rw [if_pos (by rw [h1]; decide)]
  exact h1

theorem process_catch_again {env : Env} {U : List Int} (hC : Cooperative env U)
    (hP : ∀ h pid, env.check_backtrace h pid = -EAGAIN)
    (fuel : Nat) (hfuel : U.length + 1 ≤ fuel) (ctx : process_ctx_s) (w : World)
    (h0 : ctx.threads = []) :
    ∃ w', process_catch env fuel ctx w = some (-EAGAIN, ctx, w') ∧
      attempts w'.trace = attempts w.trace + 1 ∧ sleeps w'.trace = sleeps w.trace := by
  obtain ⟨T, w1, hi, hTne, -⟩ := process_infect_cooperative hC fuel hfuel ctx w h0
  have hk := process_check_stack_walk_again hC.unwind hP T hTne w1
  have hcure := process_cure_threads_walk_ok hC.resume T
    (process_check_stack_walk env T w1).2
  have hctx : ({ ctx with threads := [] } : process_ctx_s) = ctx := by
    cases ctx; simp only at h0; subst h0; rfl
  have hval : process_catch env fuel ctx w = some (-EAGAIN, ctx,
      (process_cure_threads_walk env T (process_check_stack_walk env T w1).2).2.2) := by
    simp only [process_catch, hi, process_check_stack, process_cure, process_cure_threads, hk,
      hcure.2]
    rw [hctx]
    rfl
  refine ⟨_, hval, ?_⟩
  have hf : frame (attempts w.trace + 1) (sleeps w.trace) ctx.threads (w.emit .infecting) := by
    simp [frame, World.emit, sleeps_append, attempts_append, sleeps, attempts]
  exact process_catch_inv (frame_threadInv env _ _) fuel ctx w _ hf hval

theorem process_suspend_loop_again {env : Env} {U : List Int} (hC : Cooperative env U)
    (hP : ∀ h pid, env.check_backtrace h pid = -EAGAIN)
    (fuel : Nat) (hfuel : U.length + 1 ≤ fuel) (ctx : process_ctx_s)
    (h0 : ctx.threads = []) (k : Nat) :
    ∀ (try_ timeout_msec : Nat) (w : World), try_ + k = tries → 1 ≤ k →
      ∃ w', process_suspend_loop env fuel k try_ timeout_msec ctx w =
          some (-EAGAIN, ctx, w') ∧
        attempts w'.trace = attempts w.trace + k ∧
        sleeps w'.trace = sleeps w.trace ++ backoff k try_ timeout_msec := by
  induction k with
  | zero => intro _ _ _ _ hk; omega
  | succ k ih =>
    intro try_ timeout_msec w htk _
    obtain ⟨w2, hc, ha, hs⟩ := process_catch_again hC hP fuel hfuel ctx
      (if try_ ≠ 0 then w.emit (.usleep ((timeout_msec * 1000) % 2 ^ 32)) else w) h0
    have ha1 : attempts w2.trace = attempts w.trace + 1 := by
      rw [ha]; split_ifs <;> simp [World.emit, attempts_append, attempts]
    have hs1 : sleeps w2.trace = sleeps w.trace ++
        (if try_ ≠ 0 then [(timeout_msec * 1000) % 2 ^ 32] else []) := by
      rw [hs]; split_ifs <;> simp [World.emit, sleeps_append, sleeps]
    rw [process_suspend_loop, hc]
    dsimp only
    rw [if_neg (by simp)]
    by_cases hk0 : k = 0
    · subst hk0
      rw [if_neg (by omega)]
      exact ⟨w2, rfl, ha1, by rw [hs1]; simp [backoff]⟩
    · rw [if_pos (by omega)]
      obtain ⟨w3, hl, ha3, hs3⟩ := ih (try_ + 1)
        (if try_ ≠ 0 then increase_timeout timeout_msec else timeout_msec) w2
        (by omega) (by omega)
      refine ⟨w3, hl, by rw [ha3, ha1]; omega, ?_⟩
      rw [hs3, hs1, List.append_assoc]
      rfl

theorem backoff_tries : backoff tries 0 1 =
    [1000, 2000, 4000, 8000, 16000, 32000, 64000, 128000, 256000, 512000] ++
      List.replicate 14 1000000 := by
  decide

/-- Against a cooperative target whose predicate always answers `-EAGAIN`,
`process_suspend` gives up with `-ETIME` after 25 attempts and the sleeps of
the retry schedule. -/
theorem process_suspend_again {env : Env} {U : List Int} (hC : Cooperative env U)
    (hP : ∀ h pid, env.check_backtrace h pid = -EAGAIN)
    (fuel : Nat) (hfuel : U.length + 1 ≤ fuel) (ctx : process_ctx_s) (w : World)
    (h0 : ctx.threads = []) :
    ∃ w', process_suspend env fuel ctx w = some (-ETIME, ctx, w') ∧
      attempts w'.trace = attempts w.trace + 25 ∧
      sleeps w'.trace = sleeps w.trace ++
        ([1000, 2000, 4000, 8000, 16000, 32000, 64000, 128000, 256000, 512000] ++
          List.replicate 14 1000000) := by
  obtain ⟨w', hl, ha, hs⟩ := process_suspend_loop_again hC hP fuel hfuel ctx h0 tries 0 1 w
    (by simp) (by decide)
  refine ⟨w', ?_, ha, by rw [hs, backoff_tries]⟩
  simp [process_suspend, hl]

/-! ## Cure and seize in general -/

/-- The resume events of a successful cure of the list `l`. -/
theorem process_cure_threads_walk_ok_eq {env : Env}
    (hr : ∀ h pid, env.compel_resume_task h pid = 0) (l : List thread_s) :
    ∀ (w : World), process_cure_threads_walk env l w =
      (0, [], { w with trace := w.trace ++
        (l.filter (fun t => t.seized)).map (fun t => Event.resume t.pid 0) }) := by
  induction l with
  | nil => intro w; simp [process_cure_threads_walk]
  | cons t rest ih =>
    intro w
    rw [process_cure_threads_walk]
    by_cases hs : t.seized = true
    · have h1 : task_cure env t w = (0, w.emit (.resume t.pid 0)) := by
        simp [task_cure, hs, hr]
      rw [h1, if_neg (by simp), ih]
      simp [World.emit, hs]
    · have h1 : task_cure env t w = (0, w) := by
        simp [task_cure, hs]
      rw [h1, if_neg (by simp), ih]
      simp [hs]

theorem process_cure_threads_walk_cases (env : Env) (l : List thread_s) :
    ∀ (w : World), ∃ pre post, l = pre ++ post ∧
      (process_cure_threads_walk env l w).2.1 = post ∧
      (((process_cure_threads_walk env l w).1 = 0 ∧ post = [] ∧
          (process_cure_threads_walk env l w).2.2.trace = w.trace ++
            (pre.filter (fun t => t.seized)).map (fun t => Event.resume t.pid 0)) ∨
        ((process_cure_threads_walk env l w).1 = -1 ∧
          ∃ t rest ret, post = t :: rest ∧ t.seized = true ∧ ret ≠ 0 ∧
            (process_cure_threads_walk env l w).2.2.trace = w.trace ++
              (pre.filter (fun t => t.seized)).map (fun t => Event.resume t.pid 0) ++
              [Event.resume t.pid ret])) := by
  induction l with
  | nil => intro w; exact ⟨[], [], rfl, rfl, Or.inl ⟨rfl, rfl, by simp [process_cure_threads_walk]⟩⟩
  | cons t rest ih =>
    intro w
    rw [process_cure_threads_walk]
    by_cases hs : t.seized = true
    · by_cases hret : env.compel_resume_task w.trace t.pid = 0
      · have h1 : task_cure env t w = (0, w.emit (.resume t.pid 0)) := by
          simp [task_cure, hs, hret]
        rw [h1, if_neg (by simp)]
        obtain ⟨pre, post, e1, e2, e3⟩ := ih (w.emit (.resume t.pid 0))
        refine ⟨t :: pre, post, by rw [e1]; rfl, e2, ?_⟩
        rcases e3 with ⟨a, b, c⟩ | ⟨a, u, r, ret, b, c, d, e⟩
        · exact Or.inl ⟨a, b, by rw [c]; simp [World.emit, hs]⟩
        · exact Or.inr ⟨a, u, r, ret, b, c, d, by rw [e]; simp [World.emit, hs]⟩
      · have h1 : task_cure env t w =
            (-1, w.emit (.resume t.pid (env.compel_resume_task w.trace t.pid))) := by
          simp [task_cure, hs, hret]
        rw [h1, if_pos (by simp)]
        exact ⟨[], t :: rest, rfl, rfl,
          Or.inr ⟨rfl, t, rest, _, rfl, hs, hret, by simp [World.emit]⟩⟩
    · have h1 : task_cure env t w = (0, w) := by
        simp [task_cure, hs]
      rw [h1, if_neg (by simp)]
      obtain ⟨pre, post, e1, e2, e3⟩ := ih w
      refine ⟨t :: pre, post, by rw [e1]; rfl, e2, ?_⟩
      rcases e3 with ⟨a, b, c⟩ | ⟨a, u, r, ret, b, c, d, e⟩
      · exact Or.inl ⟨a, b, by rw [c]; simp [hs]⟩
      · exact Or.inr ⟨a, u, r, ret, b, c, d, by rw [e]; simp [hs]⟩

/-- What `process_suspend` does when the first attempt seizes the target and
the stack inspection then fails with an error other than `-EAGAIN`. -/
theorem process_suspend_first_attempt_fatal (env : Env) (fuel : Nat)
    (ctx ctx1 : process_ctx_s) (w w1 : World) (e : Int)
    (hi : process_infect env fuel ctx w = some (0, ctx1, w1))
    (hk : (process_check_stack env ctx1 w1).1 = e) (he0 : e ≠ 0) (he : e ≠ -EAGAIN) :
    process_suspend env fuel ctx w =
      some (e, (process_cure env ctx1 (process_check_stack env ctx1 w1).2).2.1,
        (process_cure env ctx1 (process_check_stack env ctx1 w1).2).2.2) := by
  have hc : process_catch env fuel ctx w =
      some (e, (process_cure env ctx1 (process_check_stack env ctx1 w1).2).2.1,
        (process_cure env ctx1 (process_check_stack env ctx1 w1).2).2.2) := by
    simp only [process_catch, hi, hk]
    simp [he0]
  have hl : process_suspend_loop env fuel tries 0 1 ctx w =
      some (e, (process_cure env ctx1 (process_check_stack env ctx1 w1).2).2.1,
        (process_cure env ctx1 (process_check_stack env ctx1 w1).2).2.2) := by
    show process_suspend_loop env fuel (24 + 1) 0 1 ctx w = _
    rw [process_suspend_loop]
    simp only [ne_eq, not_true_eq_false, if_false, hc]
    simp [he]
  simp [process_suspend, hl, he]

/-- Enumeration only appends unseized entries, whatever the environment does. -/
theorem iterate_entries_append (env : Env) (ret : Int) (es : List Int) :
    ∀ (l : List thread_s) (w : World),
      ∃ new, (iterate_entries env ret es l w).2.1 = l ++ new ∧
        ∀ t ∈ new, t.seized = false := by
  induction es with
  | nil => intro l w; exact ⟨[], by simp [iterate_entries]⟩
  | cons e es ih =>
    intro l w
    rw [iterate_entries]
    by_cases h0 : (collect_thread env e l w).1 ≠ 0
    · rw [if_pos h0]
      unfold collect_thread
      dsimp only
      split_ifs
      · exact ⟨[], by simp⟩
      · exact ⟨[], by simp⟩
      · exact ⟨[{ pid := e, seized := false }], by simp⟩
    · rw [if_neg h0]
      have hc : ∃ new, (collect_thread env e l w).2.1 = l ++ new ∧
          ∀ t ∈ new, t.seized = false := by
        unfold collect_thread
        dsimp only
        split_ifs
        · exact ⟨[], by simp⟩
        · exact ⟨[], by simp⟩
        · exact ⟨[{ pid := e, seized := false }], by simp⟩
      obtain ⟨n1, e1, s1⟩ := hc
      obtain ⟨n2, e2, s2⟩ := ih (collect_thread env e l w).2.1 (collect_thread env e l w).2.2
      refine ⟨n1 ++ n2, by rw [e2, e1, List.append_assoc], ?_⟩
      intro t ht
      rcases List.mem_append.1 ht with h | h
      · exact s1 t h
      · exact s2 t h

/-- A seize pass that reports success leaves only seized entries, provided a
stop that returns an unknown value leaves `errno` non-zero. -/
theorem process_infect_threads_walk_all_seized {env : Env}
    (herr : ∀ h pid e, env.compel_stop_task h pid = .other e → e ≠ 0)
    (todo : List thread_s) :
    ∀ (done : List thread_s) (w : World), (∀ t ∈ done, t.seized = true) →
      (process_infect_threads_walk env done todo w).1 = 0 →
      ∀ t ∈ (process_infect_threads_walk env done todo w).2.1, t.seized = true := by
  induction todo with
  | nil => intro done w hd _; simpa [process_infect_threads_walk] using hd
  | cons t rest ih =>
    intro done w hd h0
    rw [process_infect_threads_walk] at h0 ⊢
    by_cases h1 : (task_infect env t w).1 ≠ 0
    · rw [if_pos h1] at h0
      exact absurd h0 h1
    · rw [if_neg h1] at h0 ⊢
      refine ih _ _ ?_ h0
      intro u hu
      rcases List.mem_append.1 hu with hu | hu
      · exact hd u hu
      · revert hu h1
        unfold task_infect
        dsimp only
        cases hs : env.compel_stop_task w.trace t.pid with
        | COMPEL_TASK_ALIVE => intro _ hu; simp at hu; rw [hu]
        | COMPEL_TASK_STOPPED => intro h1; simp [EBUSY] at h1
        | COMPEL_TASK_ZOMBIE => intro _ hu; simp at hu
        | COMPEL_TASK_DEAD => intro _ hu; simp at hu
        | other e =>
          dsimp only
          have he := herr _ _ _ hs
          split_ifs
          · intro h1; simp [he] at h1
          · intro _ hu; simp at hu

theorem process_infect_loop_all_seized {env : Env}
    (herr : ∀ h pid e, env.compel_stop_task h pid = .other e → e ≠ 0) (fuel : Nat) :
    ∀ (ctx : process_ctx_s) (w : World) (r : Int × process_ctx_s × World),
      (∀ t, ctx.threads.getLast? = some t → t.seized = true →
        ∀ u ∈ ctx.threads, u.seized = true) →
      process_infect_loop env fuel ctx w = some r → r.1 = 0 →
      r.2.1.threads ≠ [] ∧ ∀ t ∈ r.2.1.threads, t.seized = true := by
  induction fuel with
  | zero => intro _ _ r _ hr; simp [process_infect_loop] at hr
  | succ n ih =>
    intro ctx w r hP hr h0
    rw [process_infect_loop] at hr
    obtain ⟨new, e1, s1⟩ := iterate_entries_append env (env.readdir w.trace).2
      (env.readdir w.trace).1 ctx.threads
      (w.emit (.iterate_dir (env.readdir w.trace).1 (env.readdir w.trace).2))
    have hth : (process_collect_threads env ctx w).2.1.threads = ctx.threads ++ new := e1
    by_cases h1 : (process_collect_threads env ctx w).1 ≠ 0
    · rw [if_pos h1] at hr
      cases hr
      exact absurd h0 h1
    · rw [if_neg h1] at hr
      by_cases h2 : (!process_needs_seize (process_collect_threads env ctx w).2.1) = true
      · rw [if_pos h2] at hr
        by_cases h3 : (process_collect_threads env ctx w).2.1.threads.isEmpty = true
        · rw [if_pos h3] at hr
          cases hr
          simp [ESRCH] at h0
        · rw [if_neg h3] at hr
          cases hr
          refine ⟨by simpa using h3, ?_⟩
          -- the tail is seized
          simp only [process_needs_seize, Bool.not_eq_true'] at h2
          cases hl : (process_collect_threads env ctx w).2.1.threads.getLast? with
          | none => rw [hl] at h2; simp at h2
          | some t =>
            rw [hl] at h2
            have hts : t.seized = true := by simpa using h2
            rw [hth] at hl ⊢
            by_cases hn : new = []
            · subst hn
              rw [List.append_nil] at hl ⊢
              exact hP t hl hts
            · exfalso
              cases hnl : new.getLast? with
              | none => exact hn (List.getLast?_eq_none_iff.1 hnl)
              | some u =>
                rw [List.getLast?_append, hnl] at hl
                simp at hl
                subst hl
                have := s1 u (List.mem_of_getLast?_eq_some hnl)
                rw [this] at hts
                cases hts
      · rw [if_neg h2] at hr
        by_cases h4 : (process_infect_threads env (process_collect_threads env ctx w).2.1
            (process_collect_threads env ctx w).2.2).1 ≠ 0
        · rw [if_pos h4] at hr
          cases hr
          exact absurd h0 h4
        · rw [if_neg h4] at hr
          refine ih _ _ r ?_ hr h0
          intro _ _ _
          exact process_infect_threads_walk_all_seized herr _ [] _ (by simp)
            (by simpa using h4)

/-! ## Pair balance -/

theorem balanced_emit_neutral {l : List thread_s} {w : World} (e : Event)
    (ha : ∀ id, e.alive_stop_of id = false) (hr : ∀ id, e.resume_of id = false)
    (h : balanced l w) : balanced l (w.emit e) := by
  intro hg id
  have hg' : ∀ e ∈ w.trace, e.regular = true :=
    fun x hx => hg x (by simp [World.emit, hx])
  have := h hg' id
  simp [World.emit, alive_stops, resumes, List.countP_append, ha, hr] at this ⊢
  exact this

theorem balanced_threadInv (env : Env) : ThreadInv env balanced where
  enumerate := by
    intro l w es ret h
    exact balanced_emit_neutral _ (fun _ => rfl) (fun _ => rfl) h
  collect := by
    intro pid l w h
    unfold collect_thread
    dsimp only
    split_ifs
    · exact h
    · exact balanced_emit_neutral _ (fun _ => rfl) (fun _ => rfl) h
    · have := balanced_emit_neutral (.malloc (env.malloc w.trace))
        (fun _ => rfl) (fun _ => rfl) h
      intro hg id
      have := this hg id
      simpa [held, List.countP_append] using this
  infect := by
    intro a t b w h hg id
    have hg' : ∀ e ∈ w.trace, e.regular = true := by
      intro x hx
      refine hg x ?_
      unfold task_infect
      dsimp only
      cases env.compel_stop_task w.trace t.pid <;> dsimp only <;> try split_ifs
      all_goals simp [World.emit, hx]
    have hreg : t.seized = false := by
      have : (Event.stop t.pid t.seized (env.compel_stop_task w.trace t.pid)).regular = true := by
        refine hg _ ?_
        unfold task_infect
        dsimp only
        cases env.compel_stop_task w.trace t.pid <;> dsimp only <;> try split_ifs
        all_goals simp [World.emit]
      simpa [Event.regular] using this
    have h1 := h hg' id
    revert h1
    unfold task_infect
    dsimp only
    cases env.compel_stop_task w.trace t.pid <;> dsimp only <;> try split_ifs
    all_goals
      simp [World.emit, alive_stops, resumes, held, List.countP_append, List.countP_cons,
        Event.alive_stop_of, Event.resume_of, hreg]
    all_goals intro h1; rw [h1]
    by_cases hp : t.pid = id
    · simp [hp]; omega
    · simp [hp]
  cure := by
    intro t b w h
    unfold task_cure
    dsimp only
    by_cases hs : t.seized = true
    · intro hg id
      simp only [hs, Bool.not_true, Bool.false_eq_true, if_false] at hg ⊢
      have hret : env.compel_resume_task w.trace t.pid = 0 := by
        have : (Event.resume t.pid (env.compel_resume_task w.trace t.pid)).regular = true := by
          refine hg _ ?_
          split_ifs <;> simp [World.emit]
        simpa [Event.regular] using this
      have hg' : ∀ e ∈ w.trace, e.regular = true := by
        intro x hx
        refine hg x ?_
        split_ifs <;> simp [World.emit, hx]
      have h1 := h hg' id
      simp [hret, World.emit, alive_stops, resumes, held, List.countP_append,
        List.countP_cons, Event.alive_stop_of, Event.resume_of, hs] at h1 ⊢
      rw [h1]
      by_cases hp : t.pid = id
      · simp [hp]; omega
      · simp [hp]
    · intro hg id
      simp only [hs, Bool.not_false, if_true] at hg ⊢
      have h1 := h hg id
      simpa [held, List.countP_cons, hs] using h1
  check := by
    intro t l w _ h
    unfold task_check_stack
    dsimp only
    split_ifs
    · exact balanced_emit_neutral _ (fun _ => rfl) (fun _ => rfl) h
    · exact balanced_emit_neutral _ (fun _ => rfl) (fun _ => rfl)
        (balanced_emit_neutral _ (fun _ => rfl) (fun _ => rfl)
          (balanced_emit_neutral _ (fun _ => rfl) (fun _ => rfl) h))

/-- A cure whose history stays regular empties the list. -/
theorem process_cure_threads_walk_regular (env : Env) (l : List thread_s) (w : World)
    (hg : ∀ e ∈ (process_cure_threads_walk env l w).2.2.trace, e.regular = true) :
    (process_cure_threads_walk env l w).2.1 = [] := by
  obtain ⟨pre, post, -, e2, e3⟩ := process_cure_threads_walk_cases env l w
  rcases e3 with ⟨-, b, -⟩ | ⟨-, t, rest, ret, -, -, hret, htr⟩
  · rw [e2, b]
  · exfalso
    have : (Event.resume t.pid ret).regular = true := hg _ (by rw [htr]; simp)
    simp [Event.regular, hret] at this

theorem process_infect_loop_regular (env : Env) (fuel : Nat) :
    ∀ (ctx : process_ctx_s) (w : World) (r : Int × process_ctx_s × World),
      process_infect_loop env fuel ctx w = some r → r.1 ≠ 0 →
      (∀ e ∈ r.2.2.trace, e.regular = true) → r.2.1.threads = [] := by
  induction fuel with
  | zero => intro _ _ r hr; simp [process_infect_loop] at hr
  | succ n ih =>
    intro ctx w r hr h0 hg
    rw [process_infect_loop] at hr
    by_cases h1 : (process_collect_threads env ctx w).1 ≠ 0
    · rw [if_pos h1] at hr
      cases hr
      exact process_cure_threads_walk_regular env _ _ hg
    · rw [if_neg h1] at hr
      by_cases h2 : (!process_needs_seize (process_collect_threads env ctx w).2.1) = true
      · rw [if_pos h2] at hr
        by_cases h3 : (process_collect_threads env ctx w).2.1.threads.isEmpty = true
        · rw [if_pos h3] at hr
          cases hr
          simpa using h3
        · rw [if_neg h3] at hr
          cases hr
          exact absurd rfl h0
      · rw [if_neg h2] at hr
        by_cases h4 : (process_infect_threads env (process_collect_threads env ctx w).2.1
            (process_collect_threads env ctx w).2.2).1 ≠ 0
        · rw [if_pos h4] at hr
          cases hr
          exact process_cure_threads_walk_regular env _ _ hg
        · rw [if_neg h4] at hr
          exact ih _ _ r hr h0 hg

theorem process_catch_regular (env : Env) (fuel : Nat) (ctx : process_ctx_s) (w : World)
    (r : Int × process_ctx_s × World) (hr : process_catch env fuel ctx w = some r)
    (h0 : r.1 ≠ 0) (hg : ∀ e ∈ r.2.2.trace, e.regular = true) : r.2.1.threads = [] := by
  unfold process_catch at hr
  cases hi : process_infect env fuel ctx w with
  | none => rw [hi] at hr; cases hr
  | some q =>
    obtain ⟨err, ctx1, w1⟩ := q
    rw [hi] at hr
    dsimp only at hr
    by_cases h1 : err ≠ 0
    · rw [if_pos h1] at hr
      cases hr
      exact process_infect_loop_regular env fuel _ _ _ hi h1 hg
    · rw [if_neg h1] at hr
      by_cases h2 : (process_check_stack env ctx1 w1).1 ≠ 0
      · rw [if_pos h2] at hr
        cases hr
        exact process_cure_threads_walk_regular env _ _ hg
      · rw [if_neg h2] at hr
        cases hr
        exact absurd rfl h0

theorem process_suspend_loop_regular (env : Env) (fuel : Nat) (n : Nat) :
    ∀ (try_ timeout_msec : Nat) (ctx : process_ctx_s) (w : World)
      (r : Int × process_ctx_s × World),
      process_suspend_loop env fuel n try_ timeout_msec ctx w = some r → r.1 ≠ 0 →
      (∀ e ∈ r.2.2.trace, e.regular = true) → r.2.1.threads = [] := by
  induction n with
  | zero => intro _ _ _ _ r hr; simp [process_suspend_loop] at hr
  | succ n ih =>
    intro try_ timeout_msec ctx w r hr h0 hg
    rw [process_suspend_loop] at hr
    cases hc : process_catch env fuel ctx
        (if try_ ≠ 0 then w.emit (.usleep ((timeout_msec * 1000) % 2 ^ 32)) else w) with
    | none => rw [hc] at hr; cases hr
    | some q =>
      obtain ⟨err, ctx1, w1⟩ := q
      rw [hc] at hr
      dsimp only at hr
      by_cases h2 : err ≠ -EAGAIN
      · rw [if_pos h2] at hr; cases hr
        exact process_catch_regular env fuel _ _ _ hc h0 hg
      · rw [if_neg h2] at hr
        by_cases h3 : try_ + 1 < tries
        · rw [if_pos h3] at hr; exact ih _ _ _ _ _ hr h0 hg
        · rw [if_neg h3] at hr; cases hr
          exact process_catch_regular env fuel _ _ _ hc h0 hg

theorem suspend_then_cure_balanced (env : Env) (fuel : Nat) (ctx : process_ctx_s) (w : World)
    (r : Int × process_ctx_s × World) (hb : balanced ctx.threads w)
    (hr : suspend_then_cure env fuel ctx w = some r) :
    balanced r.2.1.threads r.2.2 ∧
      ((∀ e ∈ r.2.2.trace, e.regular = true) → r.2.1.threads = []) := by
  unfold suspend_then_cure at hr
  cases hs : process_suspend env fuel ctx w with
  | none => rw [hs] at hr; cases hr
  | some q =>
    obtain ⟨err, ctx1, w1⟩ := q
    rw [hs] at hr
    dsimp only at hr
    have hb1 : balanced ctx1.threads w1 :=
      process_suspend_inv (balanced_threadInv env)
        (fun l w h => balanced_emit_neutral _ (fun _ => rfl) (fun _ => rfl) h)
        (fun l w u h => balanced_emit_neutral _ (fun _ => rfl) (fun _ => rfl) h)
        fuel ctx w _ hb hs
    by_cases h0 : err = 0
    · rw [if_pos h0] at hr
      cases hr
      exact ⟨process_cure_threads_inv (balanced_threadInv env) _ _ hb1,
        fun hg => process_cure_threads_walk_regular env _ _ hg⟩
    · rw [if_neg h0] at hr
      cases hr
      refine ⟨hb1, fun hg => ?_⟩
      unfold process_suspend at hs
      cases hl : process_suspend_loop env fuel tries 0 1 ctx w with
      | none => rw [hl] at hs; cases hs
      | some q =>
        obtain ⟨err2, ctx2, w2⟩ := q
        rw [hl] at hs
        dsimp only at hs
        cases hs
        refine process_suspend_loop_regular env fuel _ _ _ _ _ (err2, ctx1, w1) hl ?_ hg
        intro h
        apply h0
        dsimp only at h
        rw [h]
        decide

/-! ## The claims -/

theorem target_again_cooperative : Cooperative target_again [1, 2] :=
  ⟨fun _ => rfl, fun _ => List.cons_ne_nil 1 [2], fun _ _ h => h, fun _ => rfl,
    fun _ _ => rfl, fun _ _ => rfl, fun _ _ => rfl⟩

/-- C1: against a target on which enumeration, allocation, stop, unwinding and
resume always succeed, whose task directory is never empty and whose thread
ids come from a finite list `U` (the threads listed may change between
enumerations), a predicate that answers `-EAGAIN` on every call makes
`process_suspend` return `-ETIME`, after exactly 25 seize attempts (calls of
`process_catch`), hence at most 25; a bound of `U.length + 1` iterations for
the seize loop is enough for it to return. -/
theorem process_suspend_times_out (env : Env) (U : List Int) (hC : Cooperative env U)
    (hP : ∀ h pid, env.check_backtrace h pid = -EAGAIN)
    (fuel : Nat) (hfuel : U.length + 1 ≤ fuel) (ctx : process_ctx_s) (w : World)
    (h0 : ctx.threads = []) :
    ∃ w', process_suspend env fuel ctx w = some (-ETIME, ctx, w') ∧
      attempts w'.trace = attempts w.trace + 25 := by
  obtain ⟨w', h1, h2, -⟩ := process_suspend_again hC hP fuel hfuel ctx w h0
  exact ⟨w', h1, h2⟩

/-- C1, witness: the two-thread target `target_again` with loop bound 3. -/
theorem process_suspend_times_out_witness :
    Cooperative target_again [1, 2] ∧
      ∃ w', process_suspend target_again 3 ctx0 w0 = some (-ETIME, ctx0, w') ∧
        attempts w'.trace = attempts w0.trace + 25 :=
  ⟨target_again_cooperative,
    process_suspend_times_out target_again [1, 2] target_again_cooperative
      (fun _ _ => rfl) 3 (le_refl 3) ctx0 w0 rfl⟩

/-- C2, as stated, fails: against the two-thread target whose predicate always
answers `-EAGAIN`, the sleeps of one `process_suspend` call add up to
15 023 000 microseconds, more than 12 seconds. -/
theorem sleeps_exceed_twelve_seconds :
    ∃ w', process_suspend target_again 3 ctx0 w0 = some (-ETIME, ctx0, w') ∧
      (sleeps w'.trace).sum = 15023000 ∧ ¬ (sleeps w'.trace).sum ≤ 12000000 := by
  obtain ⟨w', h1, -, h3⟩ := process_suspend_again target_again_cooperative
    (fun _ _ => rfl) 3 (le_refl 3) ctx0 w0 rfl
  refine ⟨w', h1, ?_⟩
  rw [h3]
  decide

/-- C2, amended: against a cooperative target whose predicate always answers
`-EAGAIN`, the sleeps of one `process_suspend` call are, in order, 1, 2, 4, ...,
512 ms and then fourteen times 1000 ms (24 sleeps, recorded in microseconds),
so each sleep is at most 1 s and their sum is 15 023 ms. -/
theorem process_suspend_sleep_schedule (env : Env) (U : List Int) (hC : Cooperative env U)
    (hP : ∀ h pid, env.check_backtrace h pid = -EAGAIN)
    (fuel : Nat) (hfuel : U.length + 1 ≤ fuel) (ctx : process_ctx_s) (w : World)
    (h0 : ctx.threads = []) :
    ∃ w' s, process_suspend env fuel ctx w = some (-ETIME, ctx, w') ∧
      sleeps w'.trace = sleeps w.trace ++ s ∧
      s = [1000, 2000, 4000, 8000, 16000, 32000, 64000, 128000, 256000, 512000] ++
        List.replicate 14 1000000 ∧
      s.sum = 15023000 ∧ ∀ u ∈ s, u ≤ 1000000 := by
  obtain ⟨w', h1, -, h3⟩ := process_suspend_again hC hP fuel hfuel ctx w h0
  exact ⟨w', _, h1, h3, rfl, by decide, by decide⟩

/-- C2, witness: the two-thread target `target_again` with loop bound 3. -/
theorem process_suspend_sleep_schedule_witness :
    Cooperative target_again [1, 2] ∧
      ∃ w' s, process_suspend target_again 3 ctx0 w0 = some (-ETIME, ctx0, w') ∧
        sleeps w'.trace = sleeps w0.trace ++ s ∧
        s = [1000, 2000, 4000, 8000, 16000, 32000, 64000, 128000, 256000, 512000] ++
          List.replicate 14 1000000 ∧
        s.sum = 15023000 ∧ ∀ u ∈ s, u ≤ 1000000 :=
  ⟨target_again_cooperative,
    process_suspend_sleep_schedule target_again [1, 2] target_again_cooperative
      (fun _ _ => rfl) 3 (le_refl 3) ctx0 w0 rfl⟩

/-- C3, as stated, fails: when the predicate rejects with `-EINVAL` and the
resume of thread 1 fails, `process_suspend` returns `-EINVAL` with both threads
still seized and in the list, and no resume was attempted on thread 2. -/
theorem fatal_predicate_strands_threads :
    process_suspend target_stuck 2 ctx0 w0 =
      some (-EINVAL, { ctx0 with threads := [⟨1, true⟩, ⟨2, true⟩] },
        ⟨0, [.infecting, .iterate_dir [1, 2] 0, .malloc true, .malloc true,
          .stop 1 false .COMPEL_TASK_ALIVE, .stop 2 false .COMPEL_TASK_ALIVE,
          .iterate_dir [1, 2] 0, .backtrace 1 0, .check 1 (-22), .destroy_backtrace 1,
          .resume 1 (-1)]⟩) := by
  decide

/-- C3, amended: if the first attempt seizes the target and its stack
inspection yields `e`, non-zero and not `-EAGAIN`, then `process_suspend`
returns exactly `e` after that single attempt and without sleeping; and if
every resume call succeeds, on return the thread list is empty and the cure
has called resume once on every seized thread, in list order. -/
theorem process_suspend_fatal_predicate (env : Env) (fuel : Nat)
    (ctx ctx1 : process_ctx_s) (w w1 : World) (e : Int)
    (hi : process_infect env fuel ctx w = some (0, ctx1, w1))
    (hk : (process_check_stack env ctx1 w1).1 = e) (he0 : e ≠ 0) (he : e ≠ -EAGAIN) :
    ∃ ctx' w', process_suspend env fuel ctx w = some (e, ctx', w') ∧
      attempts w'.trace = attempts w.trace + 1 ∧ sleeps w'.trace = sleeps w.trace ∧
      ((∀ h pid, env.compel_resume_task h pid = 0) →
        ctx'.threads = [] ∧
        w'.trace = (process_check_stack env ctx1 w1).2.trace ++
          (ctx1.threads.filter (fun t => t.seized)).map (fun t => Event.resume t.pid 0)) := by
  have hs := process_suspend_first_attempt_fatal env fuel ctx ctx1 w w1 e hi hk he0 he
  refine ⟨_, _, hs, ?_, ?_, ?_⟩
  · have hf : frame (attempts w.trace + 1) (sleeps w.trace) ctx.threads
        (w.emit .infecting) := by
      simp [frame, World.emit, sleeps_append, attempts_append, sleeps, attempts]
    have h1 := process_infect_loop_inv (frame_threadInv env _ _) fuel _ _ _ hf hi
    have h2 := process_check_stack_inv (frame_threadInv env _ _) ctx1 w1 h1
    exact (process_cure_threads_inv (frame_threadInv env _ _) ctx1 _ h2).1
  · have hf : frame (attempts w.trace + 1) (sleeps w.trace) ctx.threads
        (w.emit .infecting) := by
      simp [frame, World.emit, sleeps_append, attempts_append, sleeps, attempts]
    have h1 := process_infect_loop_inv (frame_threadInv env _ _) fuel _ _ _ hf hi
    have h2 := process_check_stack_inv (frame_threadInv env _ _) ctx1 w1 h1
    exact (process_cure_threads_inv (frame_threadInv env _ _) ctx1 _ h2).2
  · intro hres
    simp [process_cure, process_cure_threads, process_cure_threads_walk_ok_eq hres]

/-- C3, witness: the two-thread target `target_fatal`, whose predicate rejects
the stack of thread 1 with `-EINVAL` and whose resumes succeed. -/
theorem process_suspend_fatal_predicate_witness :
    ∃ ctx' w', process_suspend target_fatal 2 ctx0 w0 = some (-EINVAL, ctx', w') ∧
      attempts w'.trace = attempts w0.trace + 1 ∧ sleeps w'.trace = sleeps w0.trace ∧
      ((∀ h pid, target_fatal.compel_resume_task h pid = 0) →
        ctx'.threads = [] ∧
        w'.trace = (process_check_stack target_fatal
            { ctx0 with threads := [⟨1, true⟩, ⟨2, true⟩] }
            ⟨0, [.infecting, .iterate_dir [1, 2] 0, .malloc true, .malloc true,
              .stop 1 false .COMPEL_TASK_ALIVE, .stop 2 false .COMPEL_TASK_ALIVE,
              .iterate_dir [1, 2] 0]⟩).2.trace ++
          [Event.resume 1 0, Event.resume 2 0]) :=
  process_suspend_fatal_predicate target_fatal 2 ctx0
    { ctx0 with threads := [⟨1, true⟩, ⟨2, true⟩] } w0
    ⟨0, [.infecting, .iterate_dir [1, 2] 0, .malloc true, .malloc true,
      .stop 1 false .COMPEL_TASK_ALIVE, .stop 2 false .COMPEL_TASK_ALIVE,
      .iterate_dir [1, 2] 0]⟩ (-EINVAL) (by decide) (by decide) (by decide) (by decide)

/-- C4, as stated, fails: when stopping thread 1 returns an unknown value
while `errno` is 0, `task_infect` returns `-errno = 0` without seizing the
entry, and `process_infect` returns 0 with thread 1 in the list and not
seized. -/
theorem process_infect_success_with_unseized :
    process_infect target_errno0 2 ctx0 w0 =
      some (0, { ctx0 with threads := [⟨1, false⟩, ⟨2, true⟩] },
        ⟨0, [.infecting, .iterate_dir [1, 2] 0, .malloc true, .malloc true,
          .stop 1 false (.other 0), .stop 2 false .COMPEL_TASK_ALIVE,
          .iterate_dir [1, 2] 0]⟩) := by
  decide

/-- C4, amended: whenever `process_infect`, entered with a thread list whose
seized entries all precede its unseized ones (the empty list included),
returns 0, the thread list is non-empty and every thread in it is seized, for
every sequence of task listings and stop outcomes in which a stop that returns
none of the four task states leaves `errno` non-zero. -/
theorem process_infect_success_all_seized (env : Env) (fuel : Nat) (ctx : process_ctx_s)
    (w : World) (r : Int × process_ctx_s × World)
    (herr : ∀ h pid e, env.compel_stop_task h pid = .other e → e ≠ 0)
    (hl : ctx.threads.Pairwise (fun a b => b.seized = true → a.seized = true))
    (hr : process_infect env fuel ctx w = some r) (h0 : r.1 = 0) :
    r.2.1.threads ≠ [] ∧ ∀ t ∈ r.2.1.threads, t.seized = true := by
  refine process_infect_loop_all_seized herr fuel ctx _ r ?_ hr h0
  intro t ht hts u hu
  obtain ⟨ys, hys⟩ := List.getLast?_eq_some_iff.1 ht
  rw [hys] at hl hu
  rcases List.mem_append.1 hu with h | h
  · exact (List.pairwise_append.1 hl).2.2 u h t (by simp) hts
  · simp at h
    rw [h]
    exact hts

/-- C4, witness: the two-thread target `target_quiet` from a fresh context. -/
theorem process_infect_success_all_seized_witness :
    ∃ r, process_infect target_quiet 2 ctx0 w0 = some r ∧ r.1 = 0 ∧
      r.2.1.threads ≠ [] ∧ ∀ t ∈ r.2.1.threads, t.seized = true :=
  have hr : process_infect target_quiet 2 ctx0 w0 =
      some (0, { ctx0 with threads := [⟨1, true⟩, ⟨2, true⟩] },
        ⟨0, [.infecting, .iterate_dir [1, 2] 0, .malloc true, .malloc true,
          .stop 1 false .COMPEL_TASK_ALIVE, .stop 2 false .COMPEL_TASK_ALIVE,
          .iterate_dir [1, 2] 0]⟩) := by decide
  ⟨_, hr, rfl,
    process_infect_success_all_seized target_quiet 2 ctx0 w0 _
      (fun _ _ _ h => by cases h) List.Pairwise.nil hr rfl⟩

/-- C5, code at the failing input: a target shows thread 1 at the first
enumeration and threads 1 and 2 afterwards.  In the second pass
`process_infect` calls `compel_stop_task` again on thread 1, whose entry is
already seized (the event `stop 1 true`, the seventh of the history). -/
theorem process_infect_stops_seized_entry :
    process_infect target_grow 3 ctx0 w0 =
      some (0, { ctx0 with threads := [⟨1, true⟩, ⟨2, true⟩] },
        ⟨0, [.infecting, .iterate_dir [1] 0, .malloc true,
          .stop 1 false .COMPEL_TASK_ALIVE,
          .iterate_dir [1, 2] 0, .malloc true,
          .stop 1 true .COMPEL_TASK_ALIVE, .stop 2 false .COMPEL_TASK_ALIVE,
          .iterate_dir [1, 2] 0]⟩) := by
  decide

/-- C6, code at the failing input: when stopping thread 1 fails with
`errno = ESRCH`, `task_infect` keeps the entry and returns `-ESRCH`, and
`process_infect` aborts with `-ESRCH` instead of going on with thread 2. -/
theorem task_infect_vanished_aborts :
    task_infect target_vanish ⟨1, false⟩ w0 =
        (-ESRCH, some ⟨1, false⟩, ⟨3, [.stop 1 false (.other 3)]⟩) ∧
      process_infect target_vanish 2 ctx0 w0 =
        some (-ESRCH, ctx0,
          ⟨3, [.infecting, .iterate_dir [1, 2] 0, .malloc true, .malloc true,
            .stop 1 false (.other 3)]⟩) := by
  decide

theorem process_infect_loop_empty (fuel : Nat) :
    ∀ w, process_infect_loop target_empty fuel ctx0 w = none := by
  induction fuel with
  | zero => intro w; rfl
  | succ n ih =>
    intro w
    rw [process_infect_loop]
    have hc : process_collect_threads target_empty ctx0 w =
        (0, ctx0, w.emit (.iterate_dir [] 0)) := rfl
    have hi : ∀ w1, process_infect_threads target_empty ctx0 w1 = (0, ctx0, w1) :=
      fun _ => rfl
    rw [hc]
    dsimp only
    rw [hi]
    simpa [process_needs_seize, ctx0] using ih _

/-- C7, code at the failing input: against a target whose task directory is
empty, the thread set is empty after every pass, yet `process_infect` never
returns: `process_needs_seize` answers true for an empty list, so the loop is
never left and the `-ESRCH` exit behind it is not reached, whatever the loop
bound. -/
theorem process_infect_empty_never_returns :
    ¬ ∃ fuel r, process_infect target_empty fuel ctx0 w0 = some r := by
  rintro ⟨fuel, r, h⟩
  rw [process_infect, process_infect_loop_empty] at h
  cases h

/-- C8, as stated, fails: with threads 1 and 2 seized and the resume of
thread 1 failing, `process_cure` returns `-1` at once; both entries stay in
the list and no resume is attempted on thread 2. -/
theorem process_cure_stops_early :
    process_cure target_stuck { ctx0 with threads := [⟨1, true⟩, ⟨2, true⟩] } w0 =
      (-1, { ctx0 with threads := [⟨1, true⟩, ⟨2, true⟩] }, ⟨0, [.resume 1 (-1)]⟩) := by
  decide

/-- C8, amended: `process_cure` walks the thread list from the head.  The
list splits into the entries visited without error, `pre`, and the rest,
`post`, which is what remains in the list.  Every entry of `pre` was destroyed,
after one successful resume when it was seized.  Either the walk reached the
end (`post` is empty, the result is 0), or it stopped at the first failing
resume: the result is `-1`, the seized entry whose resume failed and all
entries behind it are still in the list, and nothing was attempted on the
entries behind it. -/
theorem process_cure_stops_at_first_failure (env : Env) (ctx : process_ctx_s) (w : World) :
    ∃ pre post, ctx.threads = pre ++ post ∧
      (process_cure env ctx w).2.1.threads = post ∧
      (((process_cure env ctx w).1 = 0 ∧ post = [] ∧
          (process_cure env ctx w).2.2.trace = w.trace ++
            (pre.filter (fun t => t.seized)).map (fun t => Event.resume t.pid 0)) ∨
        ((process_cure env ctx w).1 = -1 ∧
          ∃ t rest ret, post = t :: rest ∧ t.seized = true ∧ ret ≠ 0 ∧
            (process_cure env ctx w).2.2.trace = w.trace ++
              (pre.filter (fun t => t.seized)).map (fun t => Event.resume t.pid 0) ++
              [Event.resume t.pid ret])) :=
  process_cure_threads_walk_cases env ctx.threads w

/-- C9, as stated, fails, in two ways.  Against `target_grow` thread 1 is
stopped twice (the second time while seized) and resumed once.  Against
`target_stuck` the failing resume of thread 1 ends the cure, so thread 2 was
stopped once and is never resumed. -/
theorem pair_balance_broken :
    (∃ r, suspend_then_cure target_grow 3 ctx0 w0 = some r ∧ r.1 = 0 ∧
        alive_stops 1 r.2.2.trace = 2 ∧ resumes 1 r.2.2.trace = 1) ∧
      (∃ r, suspend_then_cure target_stuck 2 ctx0 w0 = some r ∧ r.1 = -EINVAL ∧
        alive_stops 2 r.2.2.trace = 1 ∧ resumes 2 r.2.2.trace = 0) := by
  constructor
  · refine ⟨(0, ctx0, ⟨0, [.infecting, .iterate_dir [1] 0, .malloc true,
      .stop 1 false .COMPEL_TASK_ALIVE, .iterate_dir [1, 2] 0, .malloc true,
      .stop 1 true .COMPEL_TASK_ALIVE, .stop 2 false .COMPEL_TASK_ALIVE,
      .iterate_dir [1, 2] 0, .backtrace 1 0, .check 1 0, .destroy_backtrace 1,
      .backtrace 2 0, .check 2 0, .destroy_backtrace 2, .resume 1 0, .resume 2 0]⟩),
      by decide, rfl, by decide, by decide⟩
  · refine ⟨(-EINVAL, { ctx0 with threads := [⟨1, true⟩, ⟨2, true⟩] },
      ⟨0, [.infecting, .iterate_dir [1, 2] 0, .malloc true, .malloc true,
        .stop 1 false .COMPEL_TASK_ALIVE, .stop 2 false .COMPEL_TASK_ALIVE,
        .iterate_dir [1, 2] 0, .backtrace 1 0, .check 1 (-22), .destroy_backtrace 1,
        .resume 1 (-1)]⟩), by decide, rfl, by decide, by decide⟩

/-- C9, amended: over a complete `process_suspend` call from a fresh context
and an empty history, followed on success by `process_cure`, if every resume
call succeeded and no stop was issued on an entry that was already seized,
then for every thread id the number of stop calls that returned Alive equals
the number of resume calls (and the thread list is empty at the end). -/
theorem pair_balance_regular (env : Env) (fuel : Nat) (ctx : process_ctx_s) (w : World)
    (r : Int × process_ctx_s × World) (h0 : ctx.threads = []) (hw : w.trace = [])
    (hr : suspend_then_cure env fuel ctx w = some r)
    (hreg : ∀ e ∈ r.2.2.trace, e.regular = true) :
    r.2.1.threads = [] ∧ ∀ id, alive_stops id r.2.2.trace = resumes id r.2.2.trace := by
  have hb : balanced ctx.threads w := by
    intro _ id
    simp [h0, hw, alive_stops, resumes, held]
  obtain ⟨h1, h2⟩ := suspend_then_cure_balanced env fuel ctx w r hb hr
  refine ⟨h2 hreg, fun id => ?_⟩
  have := h1 hreg id
  rw [h2 hreg] at this
  simpa [held] using this

/-- C9, witness: the two-thread target `target_quiet`: one seize pass, the
predicate accepts, the caller cures. -/
theorem pair_balance_regular_witness :
    ∃ r, suspend_then_cure target_quiet 2 ctx0 w0 = some r ∧
      r.2.1.threads = [] ∧ ∀ id, alive_stops id r.2.2.trace = resumes id r.2.2.trace :=
  have hr : suspend_then_cure target_quiet 2 ctx0 w0 =
      some (0, ctx0, ⟨0, [.infecting, .iterate_dir [1, 2] 0, .malloc true, .malloc true,
        .stop 1 false .COMPEL_TASK_ALIVE, .stop 2 false .COMPEL_TASK_ALIVE,
        .iterate_dir [1, 2] 0, .backtrace 1 0, .check 1 0, .destroy_backtrace 1,
        .backtrace 2 0, .check 2 0, .destroy_backtrace 2, .resume 1 0, .resume 2 0]⟩) := by
    decide
  ⟨_, hr, pair_balance_regular target_quiet 2 ctx0 w0 _ rfl rfl hr (by decide)⟩

/-- C10, code at the failing input: the injected `mmap` fails in the target's
kernel with `ENOMEM`.  `process_map` returns `-ENOMEM`, which is not
`MAP_FAILED`, so `process_link` returns 0, keeps the handle, issues no cure
and records the pattern of `-12` as the address of the scratch page. -/
theorem process_link_records_failed_mapping :
    process_link target_again ctx0 w0 =
      (0, { ctx0 with ctl := some 7, remote_map_size := 4096,
                      remote_map := 2 ^ 64 - 12 },
        ⟨12, [.prepare 100 (some 7),
          .syscall .mmap [0, 4096, 7, 34, 2 ^ 64 - 1, 0] 0 (-12)]⟩) := by
  decide

/-- What a wrapper gets from `process_syscall` when the injection was
transported and the target's kernel failed the call with an errno in the range
of `int`: `-1`, with `errno` set to that errno. -/
theorem process_syscall_kernel_error (env : Env) (ctx : process_ctx_s) (nr : Sysno)
    (args : List Nat) (w : World)
    (ht : 0 ≤ (env.compel_syscall w.trace nr args).1)
    (hneg : (env.compel_syscall w.trace nr args).2 < 0)
    (hrange : -(2 : Int) ^ 31 < (env.compel_syscall w.trace nr args).2) :
    (process_syscall env ctx nr args w).1 = -1 ∧
      (process_syscall env ctx nr args w).2.errno = -(env.compel_syscall w.trace nr args).2 := by
  unfold process_syscall
  dsimp only
  rw [if_neg (by omega), if_pos hneg]
  refine ⟨rfl, ?_⟩
  show toI32 _ = _
  unfold toI32
  omega

/-- What a wrapper gets from `process_syscall` when the injection was
transported and the target's kernel returned a non-negative result: that
result. -/
theorem process_syscall_result (env : Env) (ctx : process_ctx_s) (nr : Sysno)
    (args : List Nat) (w : World)
    (ht : 0 ≤ (env.compel_syscall w.trace nr args).1)
    (hpos : 0 ≤ (env.compel_syscall w.trace nr args).2) :
    (process_syscall env ctx nr args w).1 = (env.compel_syscall w.trace nr args).2 := by
  unfold process_syscall
  dsimp only
  rw [if_neg (by omega), if_neg (by omega)]

/-- C12, code at the failing input: a session against `target_session`.
`process_link` succeeds and sets the handle 7; `process_unlink` unmaps and
cures but leaves the handle 7 in the context; a second `process_unlink`
therefore injects `munmap` and calls `compel_cure` again. -/
theorem process_unlink_keeps_handle :
    process_link target_session ctx0 w0 =
        (0, ctx_linked,
          ⟨0, [.prepare 100 (some 7),
            .syscall .mmap [0, 4096, 7, 34, 2 ^ 64 - 1, 0] 0 0x7f0000000000]⟩) ∧
      process_unlink target_session ctx_linked w0 =
        (0, ctx_linked,
          ⟨0, [.syscall .munmap [0x7f0000000000, 4096, 0, 0, 0, 0] 0 0, .cure 7 0]⟩) ∧
      process_unlink target_session ctx_linked
          ⟨0, [.syscall .munmap [0x7f0000000000, 4096, 0, 0, 0, 0] 0 0, .cure 7 0]⟩ =
        (0, ctx_linked,
          ⟨0, [.syscall .munmap [0x7f0000000000, 4096, 0, 0, 0, 0] 0 0, .cure 7 0,
            .syscall .munmap [0x7f0000000000, 4096, 0, 0, 0, 0] 0 0, .cure 7 0]⟩) := by
  decide

/-- No path of `process_unlink` writes the context: the handle it was given is
the handle it leaves. -/
theorem process_unlink_context (env : Env) (ctx : process_ctx_s) (w : World) :
    (process_unlink env ctx w).2.1 = ctx := by
  unfold process_unlink
  cases ctx.ctl with
  | none => rfl
  | some h =>
    dsimp only
    split_ifs <;> rfl

/-- C13, code at the failing input: the transport of the injection fails
(`compel_syscall` returns `-1`).  `process_map` and `process_unmap` return
`-errno` of the `errno` left by some earlier call: `-5` when it was 5, and 0,
which reads as success, when it was 0. -/
theorem gateway_returns_stale_errno :
    (process_map target_transport ctx_linked (-1) 0 0 4096 34 7 ⟨5, []⟩).1 = -5 ∧
      (process_map target_transport ctx_linked (-1) 0 0 4096 34 7 ⟨0, []⟩).1 = 0 ∧
      (process_unmap target_transport ctx_linked 0x7f0000000000 4096 ⟨5, []⟩).1 = -5 ∧
      (process_unmap target_transport ctx_linked 0x7f0000000000 4096 ⟨0, []⟩).1 = 0 := by
  decide

/-- The other outcomes of an injection: when it is transported, `process_map`
returns a negative kernel result in the range of `int` as it is and a
non-negative one as it is. -/
theorem process_map_transported (env : Env) (ctx : process_ctx_s) (fd offset : Int)
    (addr size flags prot : Nat) (w : World)
    (ht : 0 ≤ (env.compel_syscall w.trace .mmap
      [addr, size, prot, flags, toU64 fd, toU64 offset]).1) :
    ((env.compel_syscall w.trace .mmap [addr, size, prot, flags, toU64 fd, toU64 offset]).2 < 0 →
        -(2 : Int) ^ 31 < (env.compel_syscall w.trace .mmap
          [addr, size, prot, flags, toU64 fd, toU64 offset]).2 →
        (process_map env ctx fd offset addr size flags prot w).1 =
          (env.compel_syscall w.trace .mmap
            [addr, size, prot, flags, toU64 fd, toU64 offset]).2) ∧
      (0 ≤ (env.compel_syscall w.trace .mmap
          [addr, size, prot, flags, toU64 fd, toU64 offset]).2 →
        (process_map env ctx fd offset addr size flags prot w).1 =
          (env.compel_syscall w.trace .mmap
            [addr, size, prot, flags, toU64 fd, toU64 offset]).2) := by
  constructor
  · intro hn hrange
    obtain ⟨h1, h2⟩ := process_syscall_kernel_error env ctx .mmap
      [addr, size, prot, flags, toU64 fd, toU64 offset] w ht hn hrange
    unfold process_map
    dsimp only
    rw [h1, if_pos (by decide), h2]
    omega
  · intro hp
    have h1 := process_syscall_result env ctx .mmap
      [addr, size, prot, flags, toU64 fd, toU64 offset] w ht hp
    unfold process_map
    dsimp only
    rw [h1, if_neg (by omega)]

/-- When the injection is transported and the kernel result is 0, the only
non-negative result of `munmap`, `process_unmap` returns 0. -/
theorem process_unmap_transported (env : Env) (ctx : process_ctx_s) (addr size : Nat)
    (w : World)
    (ht : 0 ≤ (env.compel_syscall w.trace .munmap [addr, size, 0, 0, 0, 0]).1)
    (h0 : (env.compel_syscall w.trace .munmap [addr, size, 0, 0, 0, 0]).2 = 0) :
    (process_unmap env ctx addr size w).1 = 0 := by
  have h1 := process_syscall_result env ctx .munmap [addr, size, 0, 0, 0, 0] w ht
    (by omega)
  unfold process_unmap
  dsimp only
  rw [h1, h0, if_neg (by decide)]

/-- C17: when `compel_prepare` fails, `process_link` returns `-1`, non-zero,
with the handle null and nothing but the `compel_prepare` call added to the
history (no system call is injected); a following `process_unlink` returns 0
and adds nothing to the history (no `munmap`, no cure). -/
theorem process_link_prepare_fails (env : Env) (ctx : process_ctx_s) (w : World)
    (hp : env.compel_prepare w.trace ctx.pid = none) :
    process_link env ctx w =
        (-1, { ctx with ctl := none }, w.emit (.prepare ctx.pid none)) ∧
      process_unlink env { ctx with ctl := none } (w.emit (.prepare ctx.pid none)) =
        (0, { ctx with ctl := none }, w.emit (.prepare ctx.pid none)) := by
  constructor
  · simp only [process_link, hp]
  · rfl

/-- C17, witness: the fresh context against `target_noprep`. -/
theorem process_link_prepare_fails_witness :
    process_link target_noprep ctx0 w0 =
        (-1, { ctx0 with ctl := none }, w0.emit (.prepare ctx0.pid none)) ∧
      process_unlink target_noprep { ctx0 with ctl := none }
          (w0.emit (.prepare ctx0.pid none)) =
        (0, { ctx0 with ctl := none }, w0.emit (.prepare ctx0.pid none)) :=
  process_link_prepare_fails target_noprep ctx0 w0 rfl

/-! ## Stack inspection in general -/

/-- The shape of a stack inspection walk: the threads are inspected in list
order; the walk either passes every thread and returns 0, or stops at the
first thread whose unwinding or predicate yields a non-zero value and returns
that value. -/
theorem process_check_stack_walk_cases (env : Env) (l : List thread_s) :
    ∀ (w : World), ∃ pre post, l = pre ++ post ∧
      (((process_check_stack_walk env l w).1 = 0 ∧ post = [] ∧
          (process_check_stack_walk env l w).2.trace = w.trace ++ pre.flatMap passed) ∨
        (∃ t rest, post = t :: rest ∧ (process_check_stack_walk env l w).1 ≠ 0 ∧
          ((process_check_stack_walk env l w).2.trace = w.trace ++ pre.flatMap passed ++
              [.backtrace t.pid (process_check_stack_walk env l w).1] ∨
            (process_check_stack_walk env l w).2.trace = w.trace ++ pre.flatMap passed ++
              [.backtrace t.pid 0, .check t.pid (process_check_stack_walk env l w).1,
                .destroy_backtrace t.pid]))) := by
  induction l with
  | nil =>
    intro w
    exact ⟨[], [], rfl, Or.inl ⟨rfl, rfl, by simp [process_check_stack_walk]⟩⟩
  | cons t rest ih =>
    intro w
    rw [process_check_stack_walk]
    by_cases hb : env.pid_backtrace w.trace t.pid = 0
    · by_cases hc : env.check_backtrace (w.trace ++ [.backtrace t.pid 0]) t.pid = 0
      · have h1 : task_check_stack env t w = (0, { w with trace := w.trace ++ passed t }) := by
          simp [task_check_stack, hb, hc, World.emit, passed]
        rw [h1, if_neg (by simp)]
        obtain ⟨pre, post, e1, e2⟩ := ih { w with trace := w.trace ++ passed t }
        refine ⟨t :: pre, post, by rw [e1]; rfl, ?_⟩
        rcases e2 with ⟨a, b, c⟩ | ⟨u, r, a, b, c⟩
        · exact Or.inl ⟨a, b, by rw [c]; simp [List.flatMap_cons]⟩
        · refine Or.inr ⟨u, r, a, b, ?_⟩
          rcases c with c | c
          · exact Or.inl (by rw [c]; simp [List.flatMap_cons])
          · exact Or.inr (by rw [c]; simp [List.flatMap_cons])
      · have h1 : task_check_stack env t w =
            (env.check_backtrace (w.trace ++ [.backtrace t.pid 0]) t.pid,
              { w with trace := w.trace ++ [.backtrace t.pid 0,
                .check t.pid (env.check_backtrace (w.trace ++ [.backtrace t.pid 0]) t.pid),
                .destroy_backtrace t.pid] }) := by
          simp [task_check_stack, hb, World.emit]
        rw [h1, if_pos hc]
        exact ⟨[], t :: rest, rfl, Or.inr ⟨t, rest, rfl, hc, Or.inr (by simp)⟩⟩
    · have h1 : task_check_stack env t w =
          (env.pid_backtrace w.trace t.pid,
            w.emit (.backtrace t.pid (env.pid_backtrace w.trace t.pid))) := by
        simp [task_check_stack, hb]
      rw [h1, if_pos hb]
      exact ⟨[], t :: rest, rfl, Or.inr ⟨t, rest, rfl, hb, Or.inl (by simp [World.emit])⟩⟩

/-- A stack inspection that returns 0 has inspected every thread of the list,
in order, with the predicate returning 0 each time. -/
theorem process_check_stack_walk_zero (env : Env) (l : List thread_s) (w : World)
    (h0 : (process_check_stack_walk env l w).1 = 0) :
    (process_check_stack_walk env l w).2.trace = w.trace ++ l.flatMap passed := by
  obtain ⟨pre, post, e1, e2⟩ := process_check_stack_walk_cases env l w
  rcases e2 with ⟨-, b, c⟩ | ⟨u, r, -, b, -⟩
  · rw [c, e1, b, List.append_nil]
  · exact absurd h0 b

theorem process_catch_zero (env : Env) (fuel : Nat) (ctx : process_ctx_s) (w : World)
    (r : Int × process_ctx_s × World) (hr : process_catch env fuel ctx w = some r)
    (h0 : r.1 = 0) : ∃ pre, r.2.2.trace = pre ++ r.2.1.threads.flatMap passed := by
  unfold process_catch at hr
  cases hi : process_infect env fuel ctx w with
  | none => rw [hi] at hr; cases hr
  | some q =>
    obtain ⟨err, ctx1, w1⟩ := q
    rw [hi] at hr
    dsimp only at hr
    by_cases h1 : err ≠ 0
    · rw [if_pos h1] at hr
      cases hr
      exact absurd h0 h1
    · rw [if_neg h1] at hr
      by_cases h2 : (process_check_stack env ctx1 w1).1 ≠ 0
      · rw [if_pos h2] at hr
        cases hr
        dsimp only at h0
        rw [if_pos h2] at h0
        exact absurd h0 h2
      · rw [if_neg h2] at hr
        cases hr
        exact ⟨w1.trace, process_check_stack_walk_zero env _ _ (by simpa using h2)⟩

theorem process_suspend_loop_zero (env : Env) (fuel : Nat) (n : Nat) :
    ∀ (try_ timeout_msec : Nat) (ctx : process_ctx_s) (w : World)
      (r : Int × process_ctx_s × World),
      process_suspend_loop env fuel n try_ timeout_msec ctx w = some r → r.1 = 0 →
      ∃ pre, r.2.2.trace = pre ++ r.2.1.threads.flatMap passed := by
  induction n with
  | zero => intro _ _ _ _ r hr; simp [process_suspend_loop] at hr
  | succ n ih =>
    intro try_ timeout_msec ctx w r hr h0
    rw [process_suspend_loop] at hr
    cases hc : process_catch env fuel ctx
        (if try_ ≠ 0 then w.emit (.usleep ((timeout_msec * 1000) % 2 ^ 32)) else w) with
    | none => rw [hc] at hr; cases hr
    | some q =>
      obtain ⟨err, ctx1, w1⟩ := q
      rw [hc] at hr
      dsimp only at hr
      by_cases h2 : err ≠ -EAGAIN
      · rw [if_pos h2] at hr; cases hr
        exact process_catch_zero env fuel _ _ _ hc h0
      · rw [if_neg h2] at hr
        by_cases h3 : try_ + 1 < tries
        · rw [if_pos h3] at hr; exact ih _ _ _ _ _ hr h0
        · rw [if_neg h3] at hr; cases hr
          exact process_catch_zero env fuel _ _ _ hc h0

/-- C16: whenever `process_suspend` returns 0, its history ends with the
inspection of every thread that is in the thread set at return, in list order:
for each of them the stack was unwound, the predicate was evaluated and
returned 0, and the backtrace was destroyed.  Nothing follows, so this is the
inspection of the final attempt. -/
theorem process_suspend_success_all_checked (env : Env) (fuel : Nat) (ctx : process_ctx_s)
    (w : World) (r : Int × process_ctx_s × World)
    (hr : process_suspend env fuel ctx w = some r) (h0 : r.1 = 0) :
    ∃ pre, r.2.2.trace = pre ++ r.2.1.threads.flatMap passed := by
  unfold process_suspend at hr
  cases hl : process_suspend_loop env fuel tries 0 1 ctx w with
  | none => rw [hl] at hr; cases hr
  | some q =>
    obtain ⟨err, ctx1, w1⟩ := q
    rw [hl] at hr
    cases hr
    refine process_suspend_loop_zero env fuel _ _ _ _ _ (err, ctx1, w1) hl ?_
    dsimp only at h0 ⊢
    by_cases he : err = -EAGAIN
    · rw [if_pos he] at h0
      exact absurd h0 (by decide)
    · rw [if_neg he] at h0
      exact h0

/-- C16, witness: the two-thread target `target_quiet`; both threads are
inspected and accepted. -/
theorem process_suspend_success_all_checked_witness :
    ∃ r, process_suspend target_quiet 2 ctx0 w0 = some r ∧ r.1 = 0 ∧
      r.2.1.threads = [⟨1, true⟩, ⟨2, true⟩] ∧
      ∃ pre, r.2.2.trace = pre ++ r.2.1.threads.flatMap passed :=
  have hr : process_suspend target_quiet 2 ctx0 w0 =
      some (0, { ctx0 with threads := [⟨1, true⟩, ⟨2, true⟩] },
        ⟨0, [.infecting, .iterate_dir [1, 2] 0, .malloc true, .malloc true,
          .stop 1 false .COMPEL_TASK_ALIVE, .stop 2 false .COMPEL_TASK_ALIVE,
          .iterate_dir [1, 2] 0, .backtrace 1 0, .check 1 0, .destroy_backtrace 1,
          .backtrace 2 0, .check 2 0, .destroy_backtrace 2]⟩) := by decide
  ⟨_, hr, rfl, rfl, process_suspend_success_all_checked target_quiet 2 ctx0 w0 _ hr rfl⟩

/-- C19: `process_check_stack` inspects the threads in list order.  The list
splits into the threads that passed, `pre`, and the rest, `post`.  Either every
thread passed (`post` is empty) and the result is 0, or the result is the
non-zero value that the unwinding, or else the predicate, produced for the
first thread of `post`, and that is the last thing the inspection did: no
later thread is inspected.  Every backtrace obtained (every unwinding that
returned 0) is followed by the predicate call and by the destruction of the
backtrace.  The function has no access to change the thread list. -/
theorem process_check_stack_first_nonzero (env : Env) (ctx : process_ctx_s) (w : World) :
    ∃ pre post, ctx.threads = pre ++ post ∧
      (((process_check_stack env ctx w).1 = 0 ∧ post = [] ∧
          (process_check_stack env ctx w).2.trace = w.trace ++ pre.flatMap passed) ∨
        (∃ t rest, post = t :: rest ∧ (process_check_stack env ctx w).1 ≠ 0 ∧
          ((process_check_stack env ctx w).2.trace = w.trace ++ pre.flatMap passed ++
              [.backtrace t.pid (process_check_stack env ctx w).1] ∨
            (process_check_stack env ctx w).2.trace = w.trace ++ pre.flatMap passed ++
              [.backtrace t.pid 0, .check t.pid (process_check_stack env ctx w).1,
                .destroy_backtrace t.pid]))) :=
  process_check_stack_walk_cases env ctx.threads w

/-! ## Enumeration in general -/

/-- Distinct thread ids are kept by every primitive step. -/
theorem nodup_threadInv (env : Env) :
    ThreadInv env (fun l _ => (l.map (fun t => t.pid)).Nodup) where
  enumerate := by
    intro l w es ret h
    exact h
  collect := by
    intro pid l w h
    unfold collect_thread
    dsimp only
    by_cases hmem : l.any (fun t => t.pid == pid) = true
    · rw [if_pos hmem]; exact h
    · rw [if_neg hmem]
      split_ifs
      · exact h
      · have hnot : pid ∉ l.map (fun t => t.pid) := by
          intro he
          obtain ⟨t, ht, hpid⟩ := List.mem_map.1 he
          exact hmem (List.any_eq_true.2 ⟨t, ht, by simpa using hpid⟩)
        show ((l ++ [({ pid := pid, seized := false } : thread_s)]).map
          (fun t => t.pid)).Nodup
        rw [List.map_append, List.nodup_append]
        refine ⟨h, by simp, ?_⟩
        intro a ha hb
        simp at hb
        exact hnot (hb ▸ ha)
  infect := by
    intro a t b w h
    have hsub : ∀ o : Option thread_s, (∀ u ∈ o, u.pid = t.pid) →
        ((a ++ o.toList ++ b).map (fun t => t.pid)).Nodup := by
      intro o ho
      cases o with
      | none =>
        simp only [Option.toList, List.append_nil]
        rw [List.map_append] at h ⊢
        rw [List.map_cons] at h
        exact (List.nodup_cons.1 (List.nodup_middle.1 h)).2
      | some u =>
        have : u.pid = t.pid := ho u rfl
        simpa [Option.toList, this] using h
    apply hsub
    unfold task_infect
    dsimp only
    cases env.compel_stop_task w.trace t.pid <;> dsimp only <;> try split_ifs
    all_goals simp
  cure := by
    intro t b w h
    split_ifs
    · exact h
    · rw [List.map_cons] at h
      exact (List.nodup_cons.1 h).2
  check := by
    intro t l w _ h
    exact h

/-- C18, as stated, fails: when the allocation of the entry fails, an id that
is not in the list is not appended; `collect_thread` returns `-ENOMEM` and
leaves the list as it was, with `errno = ENOMEM` from the failed `malloc`. -/
theorem collect_thread_allocation_fails :
    collect_thread target_nomem 5 [⟨1, true⟩] w0 =
      (-ENOMEM, [⟨1, true⟩], ⟨ENOMEM, [.malloc false]⟩) := by
  decide

/-- C18, amended: `collect_thread` leaves the list unchanged for an id that is
already present; for an id that is not present it appends the entry
`(id, seized = false)` at the tail when the allocation succeeds, and returns
`-ENOMEM` with the list unchanged and `errno = ENOMEM` when it fails.  Over a
whole listing the existing entries stay where and as they are (the list is a
prefix of the result), everything appended is unseized, and distinct ids stay
distinct. -/
theorem enumeration_keeps_ids_distinct (env : Env) (pid : Int) (threads : List thread_s)
    (w : World) (es : List Int) (ret : Int) :
    ((∃ t ∈ threads, t.pid = pid) → collect_thread env pid threads w = (0, threads, w)) ∧
      ((∀ t ∈ threads, t.pid ≠ pid) → env.malloc w.trace = true →
        collect_thread env pid threads w =
          (0, threads ++ [{ pid := pid, seized := false }], w.emit (.malloc true))) ∧
      ((∀ t ∈ threads, t.pid ≠ pid) → env.malloc w.trace = false →
        collect_thread env pid threads w =
          (-ENOMEM, threads, { errno := ENOMEM, trace := w.trace ++ [.malloc false] })) ∧
      (∃ new, (iterate_entries env ret es threads w).2.1 = threads ++ new ∧
        ∀ t ∈ new, t.seized = false) ∧
      ((threads.map (fun t => t.pid)).Nodup →
        ((iterate_entries env ret es threads w).2.1.map (fun t => t.pid)).Nodup) := by
  refine ⟨?_, ?_, ?_, iterate_entries_append env ret es threads w,
    fun h => iterate_entries_inv (nodup_threadInv env) ret es threads w h⟩
  · rintro ⟨t, ht, hp⟩
    have hmem : threads.any (fun t => t.pid == pid) = true :=
      List.any_eq_true.2 ⟨t, ht, by simpa using hp⟩
    simp only [collect_thread, hmem, if_true]
  · intro hn hm
    have hmem : ¬ threads.any (fun t => t.pid == pid) = true := by
      intro h
      obtain ⟨t, ht, hp⟩ := List.any_eq_true.1 h
      exact hn t ht (by simpa using hp)
    simp only [collect_thread, hmem, hm]
    simp
  · intro hn hm
    have hmem : ¬ threads.any (fun t => t.pid == pid) = true := by
      intro h
      obtain ⟨t, ht, hp⟩ := List.any_eq_true.1 h
      exact hn t ht (by simpa using hp)
    simp only [collect_thread, hmem, hm]
    simp [World.emit]

/-! ## Staging a path for `open` -/

theorem process_syscall_trace (env : Env) (ctx : process_ctx_s) (nr : Sysno)
    (args : List Nat) (w : World) :
    (process_syscall env ctx nr args w).2.trace = w.trace ++
      [.syscall nr args (env.compel_syscall w.trace nr args).1
        (env.compel_syscall w.trace nr args).2] := by
  unfold process_syscall
  dsimp only
  split_ifs <;> rfl

/-- A write of an aligned size reaches the transfer: the recorded result of
`ptrace_poke_area` is not the alignment rejection `-1`. -/
theorem process_write_data_aligned (env : Env) (pid : Int) (addr : Nat) (data : List Nat)
    (size : Nat) (w : World) (ha : size % 8 = 0) :
    ∃ ret, ret ≠ -1 ∧
      (process_write_data env pid addr data size w).2.trace =
        w.trace ++ [.poke pid addr size ret] := by
  have hp : ptrace_poke_area env pid addr size w =
      (match env.ptrace_poke w.trace pid addr size with
        | none => (0, w.emit (.poke pid addr size 0))
        | some e => (-2, { errno := e, trace := w.trace ++ [.poke pid addr size (-2)] })) := by
    unfold ptrace_poke_area
    rw [if_neg (show ¬ size % 8 ≠ 0 by omega)]
  unfold process_write_data
  rw [hp]
  cases env.ptrace_poke w.trace pid addr size with
  | none => exact ⟨0, by decide, by simp [World.emit]⟩
  | some e => exact ⟨-2, by decide, by simp⟩

/-- A write of a size that is not a multiple of 8 is rejected with `-EINVAL`. -/
theorem process_write_data_misaligned (env : Env) (pid : Int) (addr : Nat)
    (data : List Nat) (size : Nat) (w : World) (ha : size % 8 ≠ 0) :
    (process_write_data env pid addr data size w).1 = -EINVAL := by
  have hp : ptrace_poke_area env pid addr size w =
      (-1, w.emit (.poke pid addr size (-1))) := by
    unfold ptrace_poke_area
    rw [if_pos ha]
  unfold process_write_data
  rw [hp]
  simp

/-- C20: for a path of `n` bytes (`n + 8` below `2 ^ 64`, as for every string
that fits in memory) the open wrapper stages `s = round_up(n + 1, 8)` bytes:
`s` is a multiple of 8, at least `n + 1` (the terminating NUL is covered) and
less than `n + 9`; it is at most one page when `n + 1` is; and the first thing
`process_do_open_file` does is the write of `s` bytes to the scratch region,
which is not rejected for its alignment. -/
theorem open_stages_padded_path (env : Env) (ctx : process_ctx_s) (path : List Nat)
    (flags mode : Nat) (w : World) (hn : path.length + 8 < 2 ^ 64) :
    ∃ s, s = round_up (path.length + 1) 8 ∧
      8 ∣ s ∧ path.length + 1 ≤ s ∧ s < path.length + 9 ∧
      (path.length + 1 ≤ PAGE_SIZE → s ≤ PAGE_SIZE) ∧
      ∃ ret rest, ret ≠ -1 ∧
        (process_do_open_file env ctx path flags mode w).2.trace =
          w.trace ++ .poke ctx.pid ctx.remote_map s ret :: rest := by
  have hs : round_up ((path.length + 1) % 2 ^ 64) 8 % 2 ^ 64 = round_up (path.length + 1) 8 := by
    unfold round_up
    omega
  refine ⟨round_up (path.length + 1) 8, rfl, ?_, ?_, ?_, ?_, ?_⟩
  · unfold round_up; omega
  · unfold round_up; omega
  · unfold round_up; omega
  · unfold round_up PAGE_SIZE; omega
  · obtain ⟨ret, hret, htr⟩ := process_write_data_aligned env ctx.pid ctx.remote_map path
      (round_up (path.length + 1) 8) w (by unfold round_up; omega)
    unfold process_do_open_file
    dsimp only
    rw [hs]
    by_cases h0 : (process_write_data env ctx.pid ctx.remote_map path
        (round_up (path.length + 1) 8) w).1 ≠ 0
    · rw [if_pos h0]
      exact ⟨ret, [], hret, htr⟩
    · rw [if_neg h0]
      refine ⟨ret, [.syscall .open_ [ctx.remote_map, flags, mode, 0, 0, 0]
        (env.compel_syscall (process_write_data env ctx.pid ctx.remote_map path
          (round_up (path.length + 1) 8) w).2.trace .open_
            [ctx.remote_map, flags, mode, 0, 0, 0]).1
        (env.compel_syscall (process_write_data env ctx.pid ctx.remote_map path
          (round_up (path.length + 1) 8) w).2.trace .open_
            [ctx.remote_map, flags, mode, 0, 0, 0]).2], hret, ?_⟩
      split_ifs <;> simp [process_syscall_trace, htr]

/-- C20, witness: the five-byte path `/proc` stages 8 bytes. -/
theorem open_stages_padded_path_witness :
    ∃ s, s = round_up ([47, 112, 114, 111, 99].length + 1) 8 ∧
      8 ∣ s ∧ [47, 112, 114, 111, 99].length + 1 ≤ s ∧ s < [47, 112, 114, 111, 99].length + 9 ∧
      ([47, 112, 114, 111, 99].length + 1 ≤ PAGE_SIZE → s ≤ PAGE_SIZE) ∧
      ∃ ret rest, ret ≠ -1 ∧
        (process_do_open_file target_session ctx_linked [47, 112, 114, 111, 99] 0 0 w0).2.trace =
          w0.trace ++ .poke ctx_linked.pid ctx_linked.remote_map s ret :: rest :=
  open_stages_padded_path target_session ctx_linked [47, 112, 114, 111, 99] 0 0 w0
    (by decide)

theorem under_seize_emit (id : Int) (tr : List Event) (e : Event) :
    under_seize id (tr ++ [e]) = seize_step id (under_seize id tr) e := by
  simp [under_seize, List.foldl_append]

theorem holds_append (id : Int) (a b : List thread_s) :
    holds id (a ++ b) = (holds id a || holds id b) := by
  simp [holds, List.any_append]

theorem holds_cons (id : Int) (t : thread_s) (b : List thread_s) :
    holds id (t :: b) = ((t.seized && t.pid == id) || holds id b) := by
  simp [holds]

/-- With distinct ids, no entry other than `t` is an entry for the id of `t`. -/
theorem holds_of_nodup (a b : List thread_s) (t : thread_s)
    (h : ((a ++ t :: b).map (fun t => t.pid)).Nodup) :
    holds t.pid a = false ∧ holds t.pid b = false := by
  rw [List.map_append, List.map_cons] at h
  have h1 := List.nodup_cons.1 (List.nodup_middle.1 h)
  have hnot : ∀ u, u ∈ a ∨ u ∈ b → u.pid ≠ t.pid := by
    intro u hu hp
    apply h1.1
    rw [List.mem_append]
    rcases hu with hu | hu
    · exact Or.inl (List.mem_map.2 ⟨u, hu, hp⟩)
    · exact Or.inr (List.mem_map.2 ⟨u, hu, hp⟩)
  constructor
  · simp only [holds, List.any_eq_false]
    intro u hu
    simp [hnot u (Or.inl hu)]
  · simp only [holds, List.any_eq_false]
    intro u hu
    simp [hnot u (Or.inr hu)]

theorem tracks_emit_neutral {l : List thread_s} {w : World} (e : Event)
    (he : ∀ id b, seize_step id b e = b) (h : tracks l w) : tracks l (w.emit e) := by
  refine ⟨h.1, fun id => ?_⟩
  show under_seize id (w.trace ++ [e]) = _
  rw [under_seize_emit, he, h.2]

/-- The thread list and the history stay in agreement through every primitive
step, whatever the environment answers. -/
theorem tracks_threadInv (env : Env) : ThreadInv env tracks where
  enumerate := by
    intro l w es ret h
    exact tracks_emit_neutral _ (fun _ _ => rfl) h
  collect := by
    intro pid l w h
    refine ⟨(nodup_threadInv env).collect pid l w h.1, ?_⟩
    unfold collect_thread
    dsimp only
    split_ifs
    · exact h.2
    · exact (tracks_emit_neutral (.malloc (env.malloc w.trace)) (fun _ _ => rfl) h).2
    · intro id
      have := (tracks_emit_neutral (.malloc (env.malloc w.trace)) (fun _ _ => rfl) h).2 id
      simpa [holds_append, holds] using this
  infect := by
    intro a t b w h
    refine ⟨(nodup_threadInv env).infect a t b w h.1, fun id => ?_⟩
    have h2 := h.2 id
    obtain ⟨na, nb⟩ := holds_of_nodup a b t h.1
    rw [holds_append, holds_cons] at h2
    unfold task_infect
    dsimp only
    cases env.compel_stop_task w.trace t.pid with
    | COMPEL_TASK_ALIVE =>
      dsimp only
      show under_seize id (w.trace ++ [_]) = _
      rw [under_seize_emit, h2]
      by_cases hp : t.pid = id
      · simp [seize_step, hp, holds_append, holds_cons, Option.toList]
      · have hb : (t.pid == id) = false := by simpa using hp
        simp [seize_step, hp, hb, holds_append, holds_cons, Option.toList]
    | COMPEL_TASK_STOPPED =>
      dsimp only
      show under_seize id (w.trace ++ [_]) = _
      rw [under_seize_emit, h2]
      simp [seize_step, holds_append, holds_cons, Option.toList]
    | COMPEL_TASK_ZOMBIE =>
      dsimp only
      show under_seize id (w.trace ++ [_]) = _
      rw [under_seize_emit, h2]
      by_cases hp : t.pid = id
      · subst hp
        simp [seize_step, holds_append, Option.toList, na, nb]
      · have hb : (t.pid == id) = false := by simpa using hp
        simp [seize_step, hp, hb, holds_append, Option.toList]
    | COMPEL_TASK_DEAD =>
      dsimp only
      show under_seize id (w.trace ++ [_]) = _
      rw [under_seize_emit, h2]
      by_cases hp : t.pid = id
      · subst hp
        simp [seize_step, holds_append, Option.toList, na, nb]
      · have hb : (t.pid == id) = false := by simpa using hp
        simp [seize_step, hp, hb, holds_append, Option.toList]
    | other e =>
      dsimp only
      by_cases he : e ≠ -ESRCH
      · rw [if_pos he]
        show under_seize id (w.trace ++ [_]) = _
        rw [under_seize_emit, h2]
        simp [seize_step, he, holds_append, holds_cons, Option.toList]
      · rw [if_neg he]
        show under_seize id (w.trace ++ [_]) = _
        rw [under_seize_emit, h2]
        have he' : e = -ESRCH := by simpa using he
        by_cases hp : t.pid = id
        · subst hp
          simp [seize_step, he', holds_append, Option.toList, na, nb]
        · have hb : (t.pid == id) = false := by simpa using hp
          simp [seize_step, hp, hb, holds_append, Option.toList]
  cure := by
    intro t b w h
    refine ⟨(nodup_threadInv env).cure t b w h.1, fun id => ?_⟩
    have h2 := h.2 id
    obtain ⟨-, nb⟩ := holds_of_nodup [] b t (by simpa using h.1)
    rw [holds_cons] at h2
    unfold task_cure
    dsimp only
    by_cases hs : t.seized = true
    · simp only [hs, Bool.not_true, Bool.false_eq_true, if_false]
      by_cases hret : env.compel_resume_task w.trace t.pid = 0
      · simp only [hret, ne_eq, not_true_eq_false, if_false]
        show under_seize id (w.trace ++ [_]) = _
        rw [under_seize_emit, h2]
        by_cases hp : t.pid = id
        · subst hp
          simp [seize_step, nb]
        · have hb : (t.pid == id) = false := by simpa using hp
          simp [seize_step, hp, hb]
      · simp only [ne_eq, hret, not_false_eq_true, if_true]
        show under_seize id (w.trace ++ [_]) = _
        rw [under_seize_emit, h2]
        simp [seize_step, hret, holds_cons]
    · simp only [hs, Bool.not_false, if_true]
      simp only [ne_eq, not_true_eq_false, if_false]
      rw [h2]
      simp [hs]
  check := by
    intro t l w _ h
    unfold task_check_stack
    dsimp only
    split_ifs
    · exact tracks_emit_neutral _ (fun _ _ => rfl) h
    · exact tracks_emit_neutral _ (fun _ _ => rfl)
        (tracks_emit_neutral _ (fun _ _ => rfl)
          (tracks_emit_neutral _ (fun _ _ => rfl) h))

/-! ## Retries: the predicate asks for a retry, then accepts -/

/-- The inspection of a non-empty list whose first thread unwinds and whose
predicate asks for a retry at the current number of attempts returns
`-EAGAIN`. -/
theorem process_check_stack_walk_again_at {env : Env}
    (hu : ∀ h pid, env.pid_backtrace h pid = 0) (l : List thread_s) (hne : l ≠ [])
    (w : World)
    (hP : ∀ h pid, attempts h = attempts w.trace → env.check_backtrace h pid = -EAGAIN) :
    (process_check_stack_walk env l w).1 = -EAGAIN := by
  obtain ⟨t, rest, rfl⟩ := List.exists_cons_of_ne_nil hne
  have h1 : (task_check_stack env t w).1 = -EAGAIN := by
    have := hP (w.trace ++ [.backtrace t.pid 0]) t.pid (by simp [attempts_append, attempts])
    simp [task_check_stack, hu, World.emit, this]
  rw [process_check_stack_walk]
  rw [if_pos (by rw [h1]; decide)]
  exact h1

/-- The inspection returns 0 when every thread unwinds and the predicate
accepts at the current number of attempts. -/
theorem process_check_stack_walk_accept {env : Env}
    (hu : ∀ h pid, env.pid_backtrace h pid = 0) (l : List thread_s) :
    ∀ (w : World),
      (∀ h pid, attempts h = attempts w.trace → env.check_backtrace h pid = 0) →
      (process_check_stack_walk env l w).1 = 0 := by
  induction l with
  | nil => intro w _; rfl
  | cons t rest ih =>
    intro w hP
    have hc := hP (w.trace ++ [.backtrace t.pid 0]) t.pid (by simp [attempts_append, attempts])
    have h1 : task_check_stack env t w = (0, { w with trace := w.trace ++ passed t }) := by
      simp [task_check_stack, hu, hc, World.emit, passed]
    rw [process_check_stack_walk, h1, if_neg (by simp)]
    refine ih _ ?_
    intro h pid hh
    refine hP h pid ?_
    rw [hh]
    simp [attempts_append, attempts, passed]

theorem backoff_retries : ∀ n : Fin 25, backoff (n.val + 1) 0 1 =
    (List.range n.val).map (fun k => min (2 ^ k) 1000 * 1000) := by
  decide

/-- C14, as stated, fails: the predicate asks for a retry in the first attempt
and accepts in the second, and the resume of thread 1 fails.  `process_suspend`
returns 0 on the second attempt after one sleep of 1 ms, but at that sleep
(the twelfth event) threads 1 and 2 are still under seize: the resume of
thread 1 failed and no resume was attempted on thread 2. -/
theorem retry_sleeps_with_threads_seized :
    process_suspend target_retry_stuck 2 ctx0 w0 =
        some (0, { ctx0 with threads := [⟨1, true⟩, ⟨2, true⟩] },
          ⟨0, [.infecting, .iterate_dir [1, 2] 0, .malloc true, .malloc true,
            .stop 1 false .COMPEL_TASK_ALIVE, .stop 2 false .COMPEL_TASK_ALIVE,
            .iterate_dir [1, 2] 0, .backtrace 1 0, .check 1 (-11), .destroy_backtrace 1,
            .resume 1 (-1), .usleep 1000, .infecting, .iterate_dir [1, 2] 0,
            .backtrace 1 0, .check 1 0, .destroy_backtrace 1,
            .backtrace 2 0, .check 2 0, .destroy_backtrace 2]⟩) ∧
      under_seize 2 [.infecting, .iterate_dir [1, 2] 0, .malloc true, .malloc true,
          .stop 1 false .COMPEL_TASK_ALIVE, .stop 2 false .COMPEL_TASK_ALIVE,
          .iterate_dir [1, 2] 0, .backtrace 1 0, .check 1 (-11), .destroy_backtrace 1,
          .resume 1 (-1)] = true := by
  decide

/-! ### Retries when a resume may fail -/

/-- The trailing resumes of a history that ends with an event other than a
resume followed by resumes only are those resumes. -/
theorem last_cure_append (pre : List Event) (x : Event) (ext : List Event)
    (hx : x.is_resume = false) (hext : ∀ e ∈ ext, e.is_resume = true) :
    last_cure (pre ++ x :: ext) = ext := by
  unfold last_cure
  rw [List.reverse_append, List.reverse_cons, List.append_assoc,
    List.takeWhile_append_of_pos (fun a ha => hext a (List.mem_reverse.1 ha))]
  simp [hx]

theorem cured_emit {tr : List Event} (e : Event) (he : ∀ u, e ≠ .usleep u)
    (h : released_when_cured tr) : released_when_cured (tr ++ [e]) := by
  intro i u hi hok id
  by_cases hlt : i < tr.length
  · rw [List.getElem?_append_left hlt] at hi
    rw [List.take_append_of_le_length (Nat.le_of_lt hlt)] at hok ⊢
    exact h i u hi hok id
  · exfalso
    by_cases heq : i = tr.length
    · subst heq
      rw [List.getElem?_append_right (Nat.le_refl _)] at hi
      simp at hi
      exact he u hi
    · have : (tr ++ [e]).length ≤ i := by simp; omega
      rw [List.getElem?_eq_none this] at hi
      cases hi

theorem cured_sleep {tr : List Event} (u : Nat) (h : released_when_cured tr)
    (hfree : (∀ e ∈ last_cure tr, e.resume_ok = true) → ∀ id, under_seize id tr = false) :
    released_when_cured (tr ++ [.usleep u]) := by
  intro i v hi hok id
  by_cases hlt : i < tr.length
  · rw [List.getElem?_append_left hlt] at hi
    rw [List.take_append_of_le_length (Nat.le_of_lt hlt)] at hok ⊢
    exact h i v hi hok id
  · by_cases heq : i = tr.length
    · subst heq
      rw [List.take_append_of_le_length (Nat.le_refl _), List.take_length] at hok ⊢
      exact hfree hok id
    · exfalso
      have : (tr ++ [Event.usleep u]).length ≤ i := by simp; omega
      rw [List.getElem?_eq_none this] at hi
      cases hi

/-- No primitive step of the seize, inspection and cure code sleeps. -/
theorem cured_threadInv (env : Env) :
    ThreadInv env (fun _ w => released_when_cured w.trace) where
  enumerate := by
    intro l w es ret h
    exact cured_emit _ (fun _ => by simp) h
  collect := by
    intro pid l w h
    unfold collect_thread
    dsimp only
    split_ifs
    · exact h
    · exact cured_emit _ (fun _ => by simp) h
    · exact cured_emit _ (fun _ => by simp) h
  infect := by
    intro a t b w h
    unfold task_infect
    dsimp only
    cases env.compel_stop_task w.trace t.pid <;> dsimp only <;> try split_ifs
    all_goals exact cured_emit _ (fun _ => by simp) h
  cure := by
    intro t b w h
    unfold task_cure
    dsimp only
    split_ifs
    · exact h
    · exact cured_emit _ (fun _ => by simp) h
    · exact cured_emit _ (fun _ => by simp) h
  check := by
    intro t l w _ h
    unfold task_check_stack
    dsimp only
    split_ifs
    · exact cured_emit _ (fun _ => by simp) h
    · exact cured_emit _ (fun _ => by simp)
        (cured_emit _ (fun _ => by simp) (cured_emit _ (fun _ => by simp) h))

/-- Against a seizable target the seize loop converges: from a list of seized
entries with distinct ids of `U` it returns 0 within
`U.length - l.length + 1` iterations, with a non-empty list of the same kind.
No resume is called. -/
theorem process_infect_loop_seizable {env : Env} {U : List Int} (hS : Seizable env U)
    (k : Nat) :
    ∀ (ctx : process_ctx_s) (w : World), seized_within U ctx.threads →
      U.length < ctx.threads.length + k →
      ∃ T w', process_infect_loop env k ctx w = some (0, { ctx with threads := T }, w') ∧
        T ≠ [] ∧ seized_within U T := by
  induction k with
  | zero =>
    intro ctx w ⟨_, hnd, hsub⟩ hk
    exfalso
    have : (ctx.threads.map (fun t => t.pid)).length ≤ U.length :=
      (hnd.subperm (fun a ha => by
        obtain ⟨t, ht, rfl⟩ := List.mem_map.1 ha
        exact hsub t ht)).length_le
    simp at this
    omega
  | succ k ih =>
    intro ctx w ⟨hall, hnd, hsub⟩ hk
    obtain ⟨e1, new, e2, e3, e4, e5⟩ := iterate_entries_nodup hS.malloc
      0 (env.readdir w.trace).1 ctx.threads
      (w.emit (.iterate_dir (env.readdir w.trace).1 0)) hnd
    have c1 : process_collect_threads env ctx w =
        (0, { ctx with threads := ctx.threads ++ new },
          (iterate_entries env 0 (env.readdir w.trace).1 ctx.threads
            (w.emit (.iterate_dir (env.readdir w.trace).1 0))).2.2) := by
      simp only [process_collect_threads, iterate_dir_name]
      rw [hS.readdir_ok]
      simp only [e1, e2]
    have hne : ctx.threads ++ new ≠ [] := by
      obtain ⟨a, L', hL⟩ := List.exists_cons_of_ne_nil (hS.readdir_ne w.trace)
      obtain ⟨t, ht, -⟩ := e5 a (by rw [hL]; exact List.mem_cons_self _ _)
      exact List.ne_nil_of_mem ht
    rw [process_infect_loop, c1]
    simp only [ne_eq, not_true_eq_false, if_false]
    by_cases hnew : new = []
    · subst hnew
      rw [List.append_nil] at hne ⊢
      have ns : process_needs_seize { ctx with threads := ctx.threads } = false :=
        process_needs_seize_of_all_seized _ hne hall
      simp only [ns, Bool.not_false, if_true]
      rw [if_neg (by simpa using hne)]
      exact ⟨ctx.threads, _, rfl, hne, hall, hnd, hsub⟩
    · have ns : process_needs_seize { ctx with threads := ctx.threads ++ new } = true :=
        process_needs_seize_of_new _ ctx.threads new rfl hnew (fun t ht => (e3 t ht).1)
      simp only [ns, Bool.not_true, Bool.false_eq_true, if_false]
      obtain ⟨i1, i2⟩ := process_infect_threads_walk_alive hS.stop (ctx.threads ++ new) []
        (iterate_entries env 0 (env.readdir w.trace).1 ctx.threads
          (w.emit (.iterate_dir (env.readdir w.trace).1 0))).2.2
      rw [List.nil_append] at i2
      have p1 : process_infect_threads env { ctx with threads := ctx.threads ++ new }
          (iterate_entries env 0 (env.readdir w.trace).1 ctx.threads
            (w.emit (.iterate_dir (env.readdir w.trace).1 0))).2.2 =
          (0, { ctx with threads :=
              (ctx.threads ++ new).map (fun t => { t with seized := true }) },
            (process_infect_threads_walk env [] (ctx.threads ++ new)
              (iterate_entries env 0 (env.readdir w.trace).1
                ctx.threads (w.emit (.iterate_dir (env.readdir w.trace).1 0))).2.2).2.2) := by
        simp only [process_infect_threads, i1, i2]
      rw [p1]
      simp only [ne_eq, not_true_eq_false, if_false]
      have hlen : 1 ≤ new.length := by
        cases new with
        | nil => exact absurd rfl hnew
        | cons a b => simp
      obtain ⟨T, w', hT, hTne, hTall⟩ := ih
        { ctx with threads := (ctx.threads ++ new).map (fun t => { t with seized := true }) }
        ((process_infect_threads_walk env [] (ctx.threads ++ new)
          (iterate_entries env 0 (env.readdir w.trace).1
            ctx.threads (w.emit (.iterate_dir (env.readdir w.trace).1 0))).2.2).2.2)
        ⟨by
          intro t ht
          obtain ⟨u, -, rfl⟩ := List.mem_map.1 ht
          rfl,
        by
          have : ((ctx.threads ++ new).map (fun t => ({ t with seized := true } : thread_s))).map
              (fun t => t.pid) = (ctx.threads ++ new).map (fun t => t.pid) := by
            rw [List.map_map]; rfl
          rw [this]; exact e4,
        by
          intro t ht
          obtain ⟨u, hu, rfl⟩ := List.mem_map.1 ht
          rcases List.mem_append.1 hu with h | h
          · exact hsub u h
          · exact hS.readdir_sub _ _ (e3 u h).2⟩
        (by simp only [List.length_map, List.length_append]; omega)
      exact ⟨T, w', hT, hTne, hTall⟩

/-- A stack inspection that fails ends the history with an unwinding or the
release of a backtrace, not with a resume. -/
theorem process_check_stack_walk_ends (env : Env) (l : List thread_s) (w : World)
    (h : (process_check_stack_walk env l w).1 ≠ 0) :
    ∃ pre x, (process_check_stack_walk env l w).2.trace = pre ++ [x] ∧
      x.is_resume = false := by
  obtain ⟨pre, post, -, e2⟩ := process_check_stack_walk_cases env l w
  rcases e2 with ⟨a, -, -⟩ | ⟨t, rest, -, -, c | c⟩
  · exact absurd a h
  · exact ⟨_, _, c, rfl⟩
  · refine ⟨w.trace ++ pre.flatMap passed ++ [.backtrace t.pid 0,
      .check t.pid (process_check_stack_walk env l w).1], .destroy_backtrace t.pid, ?_, rfl⟩
    rw [c]
    simp

/-- The cure of a list of seized entries after an event that is not a resume:
what is left is a list of the same kind, and it is empty if no resume of the
cure failed. -/
theorem process_cure_threads_walk_left (env : Env) (U : List Int) (l : List thread_s)
    (w : World) (hl : seized_within U l) (pre : List Event) (x : Event)
    (hw : w.trace = pre ++ [x]) (hx : x.is_resume = false) :
    seized_within U (process_cure_threads_walk env l w).2.1 ∧
      ((∀ e ∈ last_cure (process_cure_threads_walk env l w).2.2.trace, e.resume_ok = true) →
        (process_cure_threads_walk env l w).2.1 = []) := by
  obtain ⟨a, b, hab, hres, hc⟩ := process_cure_threads_walk_cases env l w
  constructor
  · rw [hres]
    obtain ⟨h1, h2, h3⟩ := hl
    rw [hab] at h1 h2 h3
    refine ⟨fun t ht => h1 t (List.mem_append_right _ ht), ?_,
      fun t ht => h3 t (List.mem_append_right _ ht)⟩
    rw [List.map_append] at h2
    exact h2.of_append_right
  · rcases hc with ⟨-, hb, -⟩ | ⟨-, t, rest, ret, -, -, hret, htr⟩
    · intro _
      rw [hres, hb]
    · intro hall
      exfalso
      have hext : ∀ e ∈ (a.filter (fun t => t.seized)).map (fun t => Event.resume t.pid 0) ++
          [Event.resume t.pid ret], e.is_resume = true := by
        intro e he
        rcases List.mem_append.1 he with he | he
        · obtain ⟨u, -, rfl⟩ := List.mem_map.1 he
          rfl
        · simp at he; rw [he]; rfl
      have hlc := last_cure_append pre x _ hx hext
      rw [htr, hw, List.append_assoc, List.append_assoc, List.singleton_append, hlc] at hall
      have := hall (Event.resume t.pid ret) (by simp)
      simp [Event.resume_ok, hret] at this

theorem process_catch_again_seizable {env : Env} {U : List Int} (hS : Seizable env U)
    (fuel : Nat) (hfuel : U.length + 1 ≤ fuel) (ctx : process_ctx_s) (w : World)
    (hl : seized_within U ctx.threads)
    (hP : ∀ h pid, attempts h = attempts w.trace + 1 →
      env.check_backtrace h pid = -EAGAIN) :
    ∃ r, process_catch env fuel ctx w = some r ∧ r.1 = -EAGAIN ∧
      seized_within U r.2.1.threads ∧
      attempts r.2.2.trace = attempts w.trace + 1 ∧ sleeps r.2.2.trace = sleeps w.trace ∧
      ((∀ e ∈ last_cure r.2.2.trace, e.resume_ok = true) → r.2.1.threads = []) := by
  obtain ⟨T, w1, hi, hTne, hT⟩ := process_infect_loop_seizable hS fuel ctx
    (w.emit .infecting) hl (by omega)
  have hi' : process_infect env fuel ctx w = some (0, { ctx with threads := T }, w1) := hi
  have hf : frame (attempts w.trace + 1) (sleeps w.trace) ctx.threads (w.emit .infecting) := by
    simp [frame, World.emit, sleeps_append, attempts_append, sleeps, attempts]
  have hf1 := process_infect_loop_inv (frame_threadInv env _ _) fuel _ _ _ hf hi
  have hk := process_check_stack_walk_again_at hS.unwind T hTne w1
    (fun h pid hh => hP h pid (by rw [hh]; exact hf1.1))
  obtain ⟨pre, x, hpre, hx⟩ := process_check_stack_walk_ends env T w1
    (by rw [hk]; decide)
  have hleft := process_cure_threads_walk_left env U T
    (process_check_stack_walk env T w1).2 hT pre x hpre hx
  have hval : process_catch env fuel ctx w = some (-EAGAIN,
      { ctx with threads :=
        (process_cure_threads_walk env T (process_check_stack_walk env T w1).2).2.1 },
      (process_cure_threads_walk env T (process_check_stack_walk env T w1).2).2.2) := by
    simp only [process_catch, hi', process_check_stack, process_cure, process_cure_threads, hk]
    rfl
  have hfr := process_catch_inv (frame_threadInv env _ _) fuel ctx w _ hf hval
  exact ⟨_, hval, rfl, hleft.1, hfr.1, hfr.2, hleft.2⟩

theorem process_catch_accept_seizable {env : Env} {U : List Int} (hS : Seizable env U)
    (fuel : Nat) (hfuel : U.length + 1 ≤ fuel) (ctx : process_ctx_s) (w : World)
    (hl : seized_within U ctx.threads)
    (hP : ∀ h pid, attempts h = attempts w.trace + 1 → env.check_backtrace h pid = 0) :
    ∃ T w', process_catch env fuel ctx w = some (0, { ctx with threads := T }, w') ∧
      T ≠ [] ∧ (∀ t ∈ T, t.seized = true) ∧
      attempts w'.trace = attempts w.trace + 1 ∧ sleeps w'.trace = sleeps w.trace := by
  obtain ⟨T, w1, hi, hTne, hT⟩ := process_infect_loop_seizable hS fuel ctx
    (w.emit .infecting) hl (by omega)
  have hi' : process_infect env fuel ctx w = some (0, { ctx with threads := T }, w1) := hi
  have hf : frame (attempts w.trace + 1) (sleeps w.trace) ctx.threads (w.emit .infecting) := by
    simp [frame, World.emit, sleeps_append, attempts_append, sleeps, attempts]
  have hf1 := process_infect_loop_inv (frame_threadInv env _ _) fuel _ _ _ hf hi
  have hk := process_check_stack_walk_accept hS.unwind T w1
    (fun h pid hh => hP h pid (by rw [hh]; exact hf1.1))
  have hval : process_catch env fuel ctx w =
      some (0, { ctx with threads := T }, (process_check_stack_walk env T w1).2) := by
    simp only [process_catch, hi', process_check_stack, hk]
    rfl
  exact ⟨T, _, hval, hTne, hT.1, process_catch_inv (frame_threadInv env _ _) fuel ctx w _ hf hval⟩

theorem process_suspend_loop_retry_seizable {env : Env} {U : List Int}
    (hS : Seizable env U) (n : Nat) (hn : n < tries)
    (hP : ∀ h pid, env.check_backtrace h pid = if attempts h ≤ n then -EAGAIN else 0)
    (fuel : Nat) (hfuel : U.length + 1 ≤ fuel) (j : Nat) :
    ∀ (k try_ timeout_msec : Nat) (ctx : process_ctx_s) (w : World),
      attempts w.trace = try_ → try_ + j = n → j + 1 ≤ k →
      seized_within U ctx.threads → tracks ctx.threads w → released_when_cured w.trace →
      ((∀ e ∈ last_cure w.trace, e.resume_ok = true) → ctx.threads = []) →
      ∃ ctx' w', process_suspend_loop env fuel k try_ timeout_msec ctx w =
          some (0, ctx', w') ∧
        ctx'.threads ≠ [] ∧ (∀ t ∈ ctx'.threads, t.seized = true) ∧
        attempts w'.trace = n + 1 ∧
        sleeps w'.trace = sleeps w.trace ++ backoff (j + 1) try_ timeout_msec ∧
        released_when_cured w'.trace := by
  induction j with
  | zero =>
    intro k try_ timeout_msec ctx w ha htn hk hinv htr hrel hemp
    obtain ⟨k, rfl⟩ : ∃ k', k = k' + 1 := ⟨k - 1, by omega⟩
    have ha1 : attempts (if try_ ≠ 0 then w.emit (.usleep ((timeout_msec * 1000) % 2 ^ 32))
        else w).trace = try_ := by
      split_ifs <;> simp [World.emit, attempts_append, attempts] <;> exact ha
    have hs1 : sleeps (if try_ ≠ 0 then w.emit (.usleep ((timeout_msec * 1000) % 2 ^ 32))
        else w).trace = sleeps w.trace ++
        (if try_ ≠ 0 then [(timeout_msec * 1000) % 2 ^ 32] else []) := by
      split_ifs <;> simp [World.emit, sleeps_append, sleeps]
    have hr1 : released_when_cured (if try_ ≠ 0 then
        w.emit (.usleep ((timeout_msec * 1000) % 2 ^ 32)) else w).trace := by
      split_ifs
      · exact cured_sleep _ hrel (fun hok id => by rw [htr.2 id, hemp hok]; rfl)
      · exact hrel
    obtain ⟨T, w2, hc, hTne, hT, ha2, hs2⟩ := process_catch_accept_seizable hS fuel hfuel ctx
      (if try_ ≠ 0 then w.emit (.usleep ((timeout_msec * 1000) % 2 ^ 32)) else w) hinv
      (by
        intro h pid hh
        rw [hP, if_neg]
        rw [hh, ha1]
        omega)
    have hrel2 := process_catch_inv (cured_threadInv env) fuel ctx _ _
      (@cured_emit (if try_ ≠ 0 then
        w.emit (.usleep ((timeout_msec * 1000) % 2 ^ 32)) else w).trace .infecting
        (fun _ => by simp) hr1) hc
    rw [process_suspend_loop, hc]
    dsimp only
    rw [if_pos (by decide)]
    refine ⟨_, w2, rfl, hTne, hT, by rw [ha2, ha1]; omega, ?_, hrel2⟩
    rw [hs2, hs1]
    simp [backoff]
  | succ j ih =>
    intro k try_ timeout_msec ctx w ha htn hk hinv htr hrel hemp
    obtain ⟨k, rfl⟩ : ∃ k', k = k' + 1 := ⟨k - 1, by omega⟩
    have ha1 : attempts (if try_ ≠ 0 then w.emit (.usleep ((timeout_msec * 1000) % 2 ^ 32))
        else w).trace = try_ := by
      split_ifs <;> simp [World.emit, attempts_append, attempts] <;> exact ha
    have hs1 : sleeps (if try_ ≠ 0 then w.emit (.usleep ((timeout_msec * 1000) % 2 ^ 32))
        else w).trace = sleeps w.trace ++
        (if try_ ≠ 0 then [(timeout_msec * 1000) % 2 ^ 32] else []) := by
      split_ifs <;> simp [World.emit, sleeps_append, sleeps]
    have hr1 : released_when_cured (if try_ ≠ 0 then
        w.emit (.usleep ((timeout_msec * 1000) % 2 ^ 32)) else w).trace := by
      split_ifs
      · exact cured_sleep _ hrel (fun hok id => by rw [htr.2 id, hemp hok]; rfl)
      · exact hrel
    have htr1 : tracks ctx.threads (if try_ ≠ 0 then
        w.emit (.usleep ((timeout_msec * 1000) % 2 ^ 32)) else w) := by
      split_ifs
      · exact tracks_emit_neutral _ (fun _ _ => rfl) htr
      · exact htr
    obtain ⟨r, hc, he, hinv2, ha2, hs2, hemp2⟩ := process_catch_again_seizable hS fuel hfuel
      ctx (if try_ ≠ 0 then w.emit (.usleep ((timeout_msec * 1000) % 2 ^ 32)) else w) hinv
      (by
        intro h pid hh
        rw [hP, if_pos]
        rw [hh, ha1]
        omega)
    have hrel2 := process_catch_inv (cured_threadInv env) fuel ctx _ _
      (@cured_emit (if try_ ≠ 0 then
        w.emit (.usleep ((timeout_msec * 1000) % 2 ^ 32)) else w).trace .infecting
        (fun _ => by simp) hr1) hc
    have htr2 := process_catch_inv (tracks_threadInv env) fuel ctx _ _
      (tracks_emit_neutral .infecting (fun _ _ => rfl) htr1) hc
    obtain ⟨err, ctx2, w2⟩ := r
    dsimp only at he hinv2 ha2 hs2 hemp2 hrel2 htr2
    subst he
    rw [process_suspend_loop, hc]
    dsimp only
    rw [if_neg (by simp), if_pos (by omega)]
    obtain ⟨ctx3, w3, hl, hTne, hT, ha3, hs3, hrel3⟩ := ih k (try_ + 1)
      (if try_ ≠ 0 then increase_timeout timeout_msec else timeout_msec) ctx2 w2
      (by rw [ha2, ha1]) (by omega) (by omega) hinv2 htr2 hrel2 hemp2
    refine ⟨ctx3, w3, hl, hTne, hT, ha3, ?_, hrel3⟩
    rw [hs3, hs2, hs1, List.append_assoc]
    rfl

/-- The retrying target is seizable whatever its resume answers. -/
theorem target_retry_seizable (n : Nat) (f : List Event → Int → Int) :
    Seizable { target_retry n with compel_resume_task := f } [1, 2] :=
  ⟨fun _ => rfl, fun _ => List.cons_ne_nil 1 [2], fun _ _ h => h, fun _ => rfl,
    fun _ _ => rfl, fun _ _ => rfl⟩

/-- C14, amended: on a target where enumeration, allocation, stop and unwinding
always succeed (nothing is assumed of the resume), from a fresh context and an
empty history, if the predicate returns `-EAGAIN` during the first `n`
attempts (`n < 25`) and 0 from attempt `n + 1` on, then `process_suspend`
returns 0 on attempt `n + 1` with a non-empty list of seized threads, and the
sleeps are exactly `min(2^k, 1000)` ms for `k = 0 .. n-1` (recorded in
microseconds).  At every sleep that follows a cure in which no resume failed,
no thread is under seize; and each failed attempt, from any list of seized
threads, returns `-EAGAIN` and leaves the thread list empty if no resume of its
cure failed. -/
theorem process_suspend_retries_then_succeeds (env : Env) (U : List Int)
    (hS : Seizable env U) (n : Nat) (hn : n < 25)
    (hP : ∀ h pid, env.check_backtrace h pid = if attempts h ≤ n then -EAGAIN else 0)
    (fuel : Nat) (hfuel : U.length + 1 ≤ fuel) (ctx : process_ctx_s) (w : World)
    (h0 : ctx.threads = []) (hw : w.trace = []) :
    ∃ ctx' w', process_suspend env fuel ctx w = some (0, ctx', w') ∧
      ctx'.threads ≠ [] ∧ (∀ t ∈ ctx'.threads, t.seized = true) ∧
      attempts w'.trace = n + 1 ∧
      sleeps w'.trace = (List.range n).map (fun k => min (2 ^ k) 1000 * 1000) ∧
      released_when_cured w'.trace ∧
      (∀ ctx1 w1, seized_within U ctx1.threads → attempts w1.trace < n →
        ∃ r, process_catch env fuel ctx1 w1 = some r ∧ r.1 = -EAGAIN ∧
          ((∀ e ∈ last_cure r.2.2.trace, e.resume_ok = true) → r.2.1.threads = [])) := by
  obtain ⟨ctx', w', hl, hTne, hT, ha, hs, hrel⟩ :=
    process_suspend_loop_retry_seizable hS n hn hP fuel hfuel n tries 0 1 ctx w
      (by simp [hw, attempts]) (by omega) (by unfold tries; omega)
      (by simp [seized_within, h0])
      (by
        refine ⟨by simp [h0], fun id => ?_⟩
        simp [hw, h0, under_seize, holds])
      (by intro i u hi; simp [hw] at hi) (fun _ => h0)
  refine ⟨ctx', w', ?_, hTne, hT, ha, ?_, hrel, ?_⟩
  · simp only [process_suspend, hl]
    rfl
  · rw [hs, hw]
    exact backoff_retries ⟨n, hn⟩
  · intro ctx1 w1 h1 ha1
    obtain ⟨r, hc, he, -, -, -, hemp⟩ := process_catch_again_seizable hS fuel hfuel ctx1 w1 h1
      (by
        intro h pid hh
        rw [hP, if_pos]
        omega)
    exact ⟨r, hc, he, hemp⟩

/-- C14, witness: the two-thread target whose predicate asks for a retry three
times, first with resumes that succeed, then with resumes that all fail: in
both cases success on attempt 4 after sleeps of 1, 2 and 4 ms. -/
theorem process_suspend_retries_then_succeeds_witness :
    (∃ ctx' w', process_suspend (target_retry 3) 3 ctx0 w0 = some (0, ctx', w') ∧
      ctx'.threads ≠ [] ∧ (∀ t ∈ ctx'.threads, t.seized = true) ∧
      attempts w'.trace = 3 + 1 ∧
      sleeps w'.trace = (List.range 3).map (fun k => min (2 ^ k) 1000 * 1000) ∧
      released_when_cured w'.trace ∧
      (∀ ctx1 w1, seized_within [1, 2] ctx1.threads → attempts w1.trace < 3 →
        ∃ r, process_catch (target_retry 3) 3 ctx1 w1 = some r ∧ r.1 = -EAGAIN ∧
          ((∀ e ∈ last_cure r.2.2.trace, e.resume_ok = true) → r.2.1.threads = []))) ∧
      ∃ ctx' w', process_suspend
          { target_retry 3 with compel_resume_task := fun _ _ => -1 } 3 ctx0 w0 =
            some (0, ctx', w') ∧
        ctx'.threads ≠ [] ∧ (∀ t ∈ ctx'.threads, t.seized = true) ∧
        attempts w'.trace = 3 + 1 ∧
        sleeps w'.trace = [1000, 2000, 4000] :=
  have h1 := process_suspend_retries_then_succeeds (target_retry 3) [1, 2]
    (target_retry_seizable 3 (fun _ _ => 0)) 3 (by decide) (fun _ _ => rfl) 3 (le_refl 3)
    ctx0 w0 rfl rfl
  have h2 := process_suspend_retries_then_succeeds
    { target_retry 3 with compel_resume_task := fun _ _ => -1 } [1, 2]
    (target_retry_seizable 3 (fun _ _ => -1)) 3 (by decide) (fun _ _ => rfl) 3 (le_refl 3)
    ctx0 w0 rfl rfl
  ⟨h1, h2.elim fun ctx' h => h.elim fun w' h =>
    ⟨ctx', w', h.1, h.2.1, h.2.2.1, h.2.2.2.1, h.2.2.2.2.1⟩⟩

/-! ## A thread that is already stopped -/

/-- Enumeration only records allocations behind the listing. -/
theorem iterate_entries_events (env : Env) (ret : Int) (es : List Int) :
    ∀ (l : List thread_s) (w : World),
      ∃ ext, (iterate_entries env ret es l w).2.2.trace = w.trace ++ ext ∧
        ∀ e ∈ ext, e.is_stopped = false := by
  induction es with
  | nil => intro l w; exact ⟨[], by simp [iterate_entries]⟩
  | cons e es ih =>
    intro l w
    have hc : ∃ ext, (collect_thread env e l w).2.2.trace = w.trace ++ ext ∧
        ∀ x ∈ ext, x.is_stopped = false := by
      unfold collect_thread
      dsimp only
      split_ifs
      · exact ⟨[], by simp⟩
      · exact ⟨[.malloc (env.malloc w.trace)], rfl, by simp [Event.is_stopped]⟩
      · exact ⟨[.malloc (env.malloc w.trace)], rfl, by simp [Event.is_stopped]⟩
    rw [iterate_entries]
    by_cases h0 : (collect_thread env e l w).1 ≠ 0
    · rw [if_pos h0]; exact hc
    · rw [if_neg h0]
      obtain ⟨x1, e1, s1⟩ := hc
      obtain ⟨x2, e2, s2⟩ := ih (collect_thread env e l w).2.1 (collect_thread env e l w).2.2
      refine ⟨x1 ++ x2, by rw [e2, e1, List.append_assoc], ?_⟩
      intro x hx
      rcases List.mem_append.1 hx with h | h
      · exact s1 x h
      · exact s2 x h

theorem process_collect_threads_unstopped (env : Env) (ctx : process_ctx_s) (w : World)
    (h : ∀ e ∈ w.trace, e.is_stopped = false) :
    ∀ e ∈ (process_collect_threads env ctx w).2.2.trace, e.is_stopped = false := by
  obtain ⟨ext, e1, s1⟩ := iterate_entries_events env (env.readdir w.trace).2
    (env.readdir w.trace).1 ctx.threads
    (w.emit (.iterate_dir (env.readdir w.trace).1 (env.readdir w.trace).2))
  intro e he
  have he' : e ∈ (w.emit (.iterate_dir (env.readdir w.trace).1
      (env.readdir w.trace).2)).trace ++ ext := by
    rw [← e1]; exact he
  rcases List.mem_append.1 he' with h1 | h1
  · rcases List.mem_append.1 h1 with h2 | h2
    · exact h e h2
    · simp at h2; rw [h2]; rfl
  · exact s1 e h1

/-- The cure only adds resume calls to the history. -/
theorem process_cure_threads_walk_events (env : Env) (l : List thread_s) (w : World) :
    ∃ ext, (process_cure_threads_walk env l w).2.2.trace = w.trace ++ ext ∧
      ∀ e ∈ ext, e.is_resume = true := by
  obtain ⟨pre, post, -, -, e3⟩ := process_cure_threads_walk_cases env l w
  rcases e3 with ⟨-, -, c⟩ | ⟨-, t, rest, ret, -, -, -, c⟩
  · refine ⟨_, c, ?_⟩
    intro e he
    obtain ⟨u, -, rfl⟩ := List.mem_map.1 he
    rfl
  · refine ⟨_, by rw [c, List.append_assoc], ?_⟩
    intro e he
    rcases List.mem_append.1 he with h | h
    · obtain ⟨u, -, rfl⟩ := List.mem_map.1 h
      rfl
    · simp at h; rw [h]; rfl

theorem process_cure_threads_unstopped (env : Env) (ctx : process_ctx_s) (w : World)
    (h : ∀ e ∈ w.trace, e.is_stopped = false) :
    ∀ e ∈ (process_cure_threads env ctx w).2.2.trace, e.is_stopped = false := by
  obtain ⟨ext, e1, s1⟩ := process_cure_threads_walk_events env ctx.threads w
  intro e he
  have he' : e ∈ w.trace ++ ext := by rw [← e1]; exact he
  rcases List.mem_append.1 he' with h1 | h1
  · exact h e h1
  · have := s1 e h1
    cases e <;> simp_all [Event.is_resume, Event.is_stopped]

theorem process_check_stack_unstopped (env : Env) (ctx : process_ctx_s) (w : World)
    (h : ∀ e ∈ w.trace, e.is_stopped = false) :
    ∀ e ∈ (process_check_stack env ctx w).2.trace, e.is_stopped = false := by
  obtain ⟨pre, post, -, e2⟩ := process_check_stack_walk_cases env ctx.threads w
  have hpre : ∀ e ∈ pre.flatMap passed, e.is_stopped = false := by
    intro e he
    obtain ⟨t, -, ht⟩ := List.mem_flatMap.1 he
    simp [passed] at ht
    rcases ht with rfl | rfl | rfl <;> rfl
  intro e he
  unfold process_check_stack at he
  rcases e2 with ⟨-, -, c⟩ | ⟨t, rest, -, -, c | c⟩
  · rw [c] at he
    rcases List.mem_append.1 he with h1 | h1
    · exact h e h1
    · exact hpre e h1
  · rw [c] at he
    rcases List.mem_append.1 he with h1 | h1
    · rcases List.mem_append.1 h1 with h2 | h2
      · exact h e h2
      · exact hpre e h2
    · simp at h1; rw [h1]; rfl
  · rw [c] at he
    rcases List.mem_append.1 he with h1 | h1
    · rcases List.mem_append.1 h1 with h2 | h2
      · exact h e h2
      · exact hpre e h2
    · simp at h1
      rcases h1 with rfl | rfl | rfl <;> rfl

/-- A seize pass either meets no stopped thread or ends, with `-EBUSY`, on the
stop that returned `COMPEL_TASK_STOPPED`. -/
theorem process_infect_threads_walk_busy (env : Env) (todo : List thread_s) :
    ∀ (done : List thread_s) (w : World), (∀ e ∈ w.trace, e.is_stopped = false) →
      (∀ e ∈ (process_infect_threads_walk env done todo w).2.2.trace, e.is_stopped = false) ∨
        ((process_infect_threads_walk env done todo w).1 = -EBUSY ∧
          ∃ pre pid s, (process_infect_threads_walk env done todo w).2.2.trace =
            pre ++ [Event.stop pid s .COMPEL_TASK_STOPPED]) := by
  induction todo with
  | nil => intro done w h; exact Or.inl (by simpa [process_infect_threads_walk] using h)
  | cons t rest ih =>
    intro done w h
    rw [process_infect_threads_walk]
    cases hs : env.compel_stop_task w.trace t.pid with
    | COMPEL_TASK_STOPPED =>
      have ht : task_infect env t w =
          (-EBUSY, some t, w.emit (.stop t.pid t.seized .COMPEL_TASK_STOPPED)) := by
        simp only [task_infect, hs]
      rw [ht, if_pos (show (-EBUSY : Int) ≠ 0 by decide)]
      exact Or.inr ⟨rfl, w.trace, t.pid, t.seized, rfl⟩
    | COMPEL_TASK_ALIVE =>
      have ht : task_infect env t w =
          (0, some { t with seized := true },
            w.emit (.stop t.pid t.seized .COMPEL_TASK_ALIVE)) := by
        simp only [task_infect, hs]
      rw [ht, if_neg (by simp)]
      exact ih _ _ (by
        intro e he
        rcases List.mem_append.1 he with h1 | h1
        · exact h e h1
        · simp at h1; rw [h1]; rfl)
    | COMPEL_TASK_ZOMBIE =>
      have ht : task_infect env t w =
          (0, none, w.emit (.stop t.pid t.seized .COMPEL_TASK_ZOMBIE)) := by
        simp only [task_infect, hs]
      rw [ht, if_neg (by simp)]
      exact ih _ _ (by
        intro e he
        rcases List.mem_append.1 he with h1 | h1
        · exact h e h1
        · simp at h1; rw [h1]; rfl)
    | COMPEL_TASK_DEAD =>
      have ht : task_infect env t w =
          (0, none, w.emit (.stop t.pid t.seized .COMPEL_TASK_DEAD)) := by
        simp only [task_infect, hs]
      rw [ht, if_neg (by simp)]
      exact ih _ _ (by
        intro e he
        rcases List.mem_append.1 he with h1 | h1
        · exact h e h1
        · simp at h1; rw [h1]; rfl)
    | other e =>
      have hw' : ∀ x ∈ (task_infect env t w).2.2.trace, x.is_stopped = false := by
        simp only [task_infect, hs]
        intro x hx
        have hx' : x ∈ w.trace ++ [Event.stop t.pid t.seized (.other e)] := by
          split_ifs at hx <;> exact hx
        rcases List.mem_append.1 hx' with h1 | h1
        · exact h x h1
        · simp at h1; rw [h1]; rfl
      by_cases h0 : (task_infect env t w).1 ≠ 0
      · rw [if_pos h0]
        exact Or.inl hw'
      · rw [if_neg h0]
        exact ih _ _ hw'

theorem unstopped_emit {w : World} (e : Event) (he : e.is_stopped = false)
    (h : ∀ x ∈ w.trace, x.is_stopped = false) :
    ∀ x ∈ (w.emit e).trace, x.is_stopped = false := by
  intro x hx
  rcases List.mem_append.1 hx with h1 | h1
  · exact h x h1
  · simp at h1; rw [h1]; exact he

/-- The cure after a stop that returned `COMPEL_TASK_STOPPED`. -/
theorem process_cure_threads_busy_end (env : Env) (ctx : process_ctx_s) (w : World)
    (pre : List Event) (pid : Int) (s : Bool)
    (h : w.trace = pre ++ [Event.stop pid s .COMPEL_TASK_STOPPED]) :
    busy_end (-EBUSY) (process_cure_threads env ctx w).2.1.threads
      (process_cure_threads env ctx w).2.2.trace := by
  obtain ⟨a, b, -, hres, hc⟩ := process_cure_threads_walk_cases env ctx.threads w
  show busy_end (-EBUSY) (process_cure_threads_walk env ctx.threads w).2.1
    (process_cure_threads_walk env ctx.threads w).2.2.trace
  rcases hc with ⟨-, hb, htr⟩ | ⟨-, t, rest, ret, -, -, hret, htr⟩
  · have hext : ∀ e ∈ (a.filter (fun t => t.seized)).map (fun t => Event.resume t.pid 0),
        e.is_resume = true := by
      intro e he
      obtain ⟨u, -, rfl⟩ := List.mem_map.1 he
      rfl
    have hlc := last_cure_append pre (Event.stop pid s .COMPEL_TASK_STOPPED) _ rfl hext
    rw [htr, h, List.append_assoc, List.singleton_append]
    refine ⟨rfl, ⟨pre, pid, s, by rw [hlc]⟩, fun _ => by rw [hres, hb]⟩
  · have hext : ∀ e ∈ (a.filter (fun t => t.seized)).map (fun t => Event.resume t.pid 0) ++
        [Event.resume t.pid ret], e.is_resume = true := by
      intro e he
      rcases List.mem_append.1 he with he | he
      · obtain ⟨u, -, rfl⟩ := List.mem_map.1 he
        rfl
      · simp at he; rw [he]; rfl
    have hlc := last_cure_append pre (Event.stop pid s .COMPEL_TASK_STOPPED) _ rfl hext
    rw [htr, h, List.append_assoc, List.append_assoc, List.singleton_append]
    refine ⟨rfl, ⟨pre, pid, s, by rw [hlc]⟩, fun hall => ?_⟩
    exfalso
    rw [hlc] at hall
    have := hall (Event.resume t.pid ret) (by simp)
    simp [Event.resume_ok, hret] at this

theorem process_infect_loop_busy (env : Env) (fuel : Nat) :
    ∀ (ctx : process_ctx_s) (w : World) (r : Int × process_ctx_s × World),
      (∀ e ∈ w.trace, e.is_stopped = false) →
      process_infect_loop env fuel ctx w = some r →
      (∀ e ∈ r.2.2.trace, e.is_stopped = false) ∨
        busy_end r.1 r.2.1.threads r.2.2.trace := by
  induction fuel with
  | zero => intro _ _ r _ hr; simp [process_infect_loop] at hr
  | succ n ih =>
    intro ctx w r h hr
    have hc := process_collect_threads_unstopped env ctx w h
    rw [process_infect_loop] at hr
    by_cases h1 : (process_collect_threads env ctx w).1 ≠ 0
    · rw [if_pos h1] at hr
      cases hr
      exact Or.inl (process_cure_threads_unstopped env _ _ hc)
    · rw [if_neg h1] at hr
      by_cases h2 : (!process_needs_seize (process_collect_threads env ctx w).2.1) = true
      · rw [if_pos h2] at hr
        split_ifs at hr <;> cases hr <;> exact Or.inl hc
      · rw [if_neg h2] at hr
        have hw := process_infect_threads_walk_busy env
          (process_collect_threads env ctx w).2.1.threads []
          (process_collect_threads env ctx w).2.2 hc
        by_cases h4 : (process_infect_threads env (process_collect_threads env ctx w).2.1
            (process_collect_threads env ctx w).2.2).1 ≠ 0
        · rw [if_pos h4] at hr
          cases hr
          rcases hw with hw | ⟨hb, pre, pid, s, htr⟩
          · exact Or.inl (process_cure_threads_unstopped env _ _ hw)
          · refine Or.inr ?_
            have hb' : (process_infect_threads env (process_collect_threads env ctx w).2.1
                (process_collect_threads env ctx w).2.2).1 = -EBUSY := hb
            dsimp only
            rw [hb']
            exact process_cure_threads_busy_end env _ _ pre pid s htr
        · rw [if_neg h4] at hr
          rcases hw with hw | ⟨hb, -⟩
          · exact ih _ _ r hw hr
          · exfalso
            apply h4
            show (process_infect_threads_walk env [] _ _).1 ≠ 0
            rw [hb]
            decide

theorem process_catch_busy (env : Env) (fuel : Nat) (ctx : process_ctx_s) (w : World)
    (r : Int × process_ctx_s × World) (h : ∀ e ∈ w.trace, e.is_stopped = false)
    (hr : process_catch env fuel ctx w = some r) :
    (∀ e ∈ r.2.2.trace, e.is_stopped = false) ∨
      busy_end r.1 r.2.1.threads r.2.2.trace := by
  unfold process_catch at hr
  cases hi : process_infect env fuel ctx w with
  | none => rw [hi] at hr; cases hr
  | some q =>
    obtain ⟨err, ctx1, w1⟩ := q
    have h1 := process_infect_loop_busy env fuel ctx _ _ (unstopped_emit .infecting rfl h) hi
    rw [hi] at hr
    dsimp only at hr
    by_cases h2 : err ≠ 0
    · rw [if_pos h2] at hr
      cases hr
      exact h1
    · rw [if_neg h2] at hr
      have hclean : ∀ e ∈ w1.trace, e.is_stopped = false := by
        rcases h1 with h1 | ⟨hb, -⟩
        · exact h1
        · exfalso
          apply h2
          dsimp only at hb
          rw [hb]
          decide
      have hk := process_check_stack_unstopped env ctx1 w1 hclean
      split_ifs at hr
      · cases hr
        exact Or.inl (process_cure_threads_unstopped env _ _ hk)
      · cases hr
        exact Or.inl hk

theorem process_suspend_loop_busy (env : Env) (fuel : Nat) (n : Nat) :
    ∀ (try_ timeout_msec : Nat) (ctx : process_ctx_s) (w : World)
      (r : Int × process_ctx_s × World), (∀ e ∈ w.trace, e.is_stopped = false) →
      process_suspend_loop env fuel n try_ timeout_msec ctx w = some r →
      (∀ e ∈ r.2.2.trace, e.is_stopped = false) ∨
        busy_end r.1 r.2.1.threads r.2.2.trace := by
  induction n with
  | zero => intro _ _ _ _ r _ hr; simp [process_suspend_loop] at hr
  | succ n ih =>
    intro try_ timeout_msec ctx w r h hr
    rw [process_suspend_loop] at hr
    have hw : ∀ e ∈ (if try_ ≠ 0 then w.emit (.usleep ((timeout_msec * 1000) % 2 ^ 32))
        else w).trace, e.is_stopped = false := by
      split_ifs
      · exact unstopped_emit _ rfl h
      · exact h
    cases hc : process_catch env fuel ctx
        (if try_ ≠ 0 then w.emit (.usleep ((timeout_msec * 1000) % 2 ^ 32)) else w) with
    | none => rw [hc] at hr; cases hr
    | some q =>
      obtain ⟨err, ctx1, w1⟩ := q
      have h1 := process_catch_busy env fuel _ _ _ hw hc
      rw [hc] at hr
      dsimp only at hr
      by_cases h2 : err ≠ -EAGAIN
      · rw [if_pos h2] at hr; cases hr; exact h1
      · rw [if_neg h2] at hr
        by_cases h3 : try_ + 1 < tries
        · rw [if_pos h3] at hr
          refine ih _ _ _ _ _ ?_ hr
          rcases h1 with h1 | ⟨hb, -⟩
          · exact h1
          · exfalso
            apply h2
            dsimp only at hb
            rw [hb]
            decide
        · rw [if_neg h3] at hr; cases hr; exact h1

/-! ### The seize loop comes to an end -/

/-- What an enumeration appends, whatever the environment does: entries for
listed ids that had no entry; and when it reports 0 every listed id has an
entry. -/
theorem iterate_entries_listed (env : Env) (ret : Int) (es : List Int) :
    ∀ (l : List thread_s) (w : World),
      ∃ new, (iterate_entries env ret es l w).2.1 = l ++ new ∧
        (∀ t ∈ new, t.pid ∈ es ∧ ∀ u ∈ l, u.pid ≠ t.pid) ∧
        ((iterate_entries env ret es l w).1 = 0 →
          ∀ pid ∈ es, ∃ t ∈ l ++ new, t.pid = pid) := by
  induction es with
  | nil => intro l w; exact ⟨[], by simp [iterate_entries]⟩
  | cons e es ih =>
    intro l w
    rw [iterate_entries]
    by_cases hmem : l.any (fun t => t.pid == e) = true
    · have hc : collect_thread env e l w = (0, l, w) := by
        simp only [collect_thread, hmem, if_true]
      rw [hc, if_neg (by simp)]
      obtain ⟨new, h1, h2, h3⟩ := ih l w
      refine ⟨new, h1, fun t ht => ⟨List.mem_cons_of_mem _ (h2 t ht).1, (h2 t ht).2⟩, ?_⟩
      intro h0 pid hp
      rcases List.mem_cons.1 hp with rfl | hp
      · obtain ⟨t, ht, hpid⟩ := List.any_eq_true.1 hmem
        exact ⟨t, List.mem_append_left _ ht, by simpa using hpid⟩
      · exact h3 h0 pid hp
    · have hnot : ∀ u ∈ l, u.pid ≠ e := by
        intro u hu hp
        exact hmem (List.any_eq_true.2 ⟨u, hu, by simpa using hp⟩)
      by_cases hm : env.malloc w.trace = true
      · have hc : collect_thread env e l w =
            (0, l ++ [{ pid := e, seized := false }], w.emit (.malloc true)) := by
          simp only [collect_thread, hmem, hm]
          simp
        rw [hc, if_neg (by simp)]
        obtain ⟨new, h1, h2, h3⟩ := ih (l ++ [{ pid := e, seized := false }])
          (w.emit (.malloc true))
        refine ⟨({ pid := e, seized := false } : thread_s) :: new, by rw [h1]; simp, ?_, ?_⟩
        · intro t ht
          rcases List.mem_cons.1 ht with rfl | ht
          · exact ⟨List.mem_cons_self _ _, hnot⟩
          · exact ⟨List.mem_cons_of_mem _ (h2 t ht).1,
              fun u hu => (h2 t ht).2 u (List.mem_append_left _ hu)⟩
        · intro h0 pid hp
          rcases List.mem_cons.1 hp with rfl | hp
          · exact ⟨{ pid := pid, seized := false }, by simp, rfl⟩
          · obtain ⟨t, ht, hpid⟩ := h3 h0 pid hp
            exact ⟨t, by simpa using ht, hpid⟩
      · have hc : (collect_thread env e l w).1 = -ENOMEM ∧
            (collect_thread env e l w).2.1 = l := by
          simp only [collect_thread, hmem, hm]
          simp
        rw [if_pos (by rw [hc.1]; decide)]
        refine ⟨[], by rw [hc.2]; simp, by simp, ?_⟩
        intro h0
        rw [hc.1] at h0
        exact absurd h0 (by decide)

theorem missing_le (U : List Int) (l : List thread_s) : missing U l ≤ U.length :=
  List.countP_le_length _

theorem missing_seized (U : List Int) (l : List thread_s) :
    missing U (l.map (fun t => { t with seized := true })) = missing U l := by
  unfold missing
  congr 1
  funext u
  simp [List.any_map, Function.comp_def]

/-- An appended entry for an id of `U` that had no entry lowers the number of
missing ids. -/
theorem missing_lt (U : List Int) (l new : List thread_s) (t : thread_s) (ht : t ∈ new)
    (hU : t.pid ∈ U) (hn : ∀ u ∈ l, u.pid ≠ t.pid) : missing U (l ++ new) < missing U l := by
  unfold missing
  obtain ⟨a, b, rfl⟩ := List.append_of_mem hU
  have hmono : ∀ (c : List Int),
      c.countP (fun u => !(l ++ new).any (fun t => t.pid == u)) ≤
        c.countP (fun u => !l.any (fun t => t.pid == u)) := by
    intro c
    apply List.countP_mono_left
    intro x _ hx
    simp only [List.any_append, Bool.not_or, Bool.and_eq_true] at hx
    exact hx.1
  have h1 : (!(l ++ new).any (fun u => u.pid == t.pid)) = false := by
    simp only [Bool.not_eq_false', List.any_eq_true]
    exact ⟨t, List.mem_append_right _ ht, by simp⟩
  have h2 : (!l.any (fun u => u.pid == t.pid)) = true := by
    simp only [Bool.not_eq_true', List.any_eq_false]
    intro u hu
    simpa using hn u hu
  rw [List.countP_append, List.countP_append, List.countP_cons, List.countP_cons]
  simp only [h1, h2, if_true, Bool.false_eq_true, if_false]
  have ha := hmono a
  have hb := hmono b
  omega

/-- When every stop answers alive or stopped, a seize pass that reports
success has seized every entry and removed none. -/
theorem process_infect_threads_walk_seizes {env : Env}
    (hs : ∀ h pid, env.compel_stop_task h pid = .COMPEL_TASK_ALIVE ∨
      env.compel_stop_task h pid = .COMPEL_TASK_STOPPED) (todo : List thread_s) :
    ∀ (done : List thread_s) (w : World),
      (process_infect_threads_walk env done todo w).1 = 0 →
      (process_infect_threads_walk env done todo w).2.1 =
        done ++ todo.map (fun t => { t with seized := true }) := by
  induction todo with
  | nil => intro done w _; simp [process_infect_threads_walk]
  | cons t rest ih =>
    intro done w h0
    rw [process_infect_threads_walk] at h0 ⊢
    rcases hs w.trace t.pid with hs | hs
    · have ht : task_infect env t w =
          (0, some { t with seized := true },
            w.emit (.stop t.pid t.seized .COMPEL_TASK_ALIVE)) := by
        simp only [task_infect, hs]
      rw [ht, if_neg (by simp)] at h0 ⊢
      rw [ih _ _ h0]
      simp
    · have ht : task_infect env t w =
          (-EBUSY, some t, w.emit (.stop t.pid t.seized .COMPEL_TASK_STOPPED)) := by
        simp only [task_infect, hs]
      rw [ht, if_pos (show (-EBUSY : Int) ≠ 0 by decide)] at h0
      exact absurd h0 (show (-EBUSY : Int) ≠ 0 by decide)

/-- One iteration of the seize loop on a convergent target either ends the loop
or goes on with every entry seized and, when it started from seized entries
only, with fewer ids missing. -/
theorem process_infect_loop_step {env : Env} {U : List Int} (hA : Convergent env U)
    (k : Nat) (ctx : process_ctx_s) (w : World) :
    (∃ r, process_infect_loop env (k + 1) ctx w = some r) ∨
      ∃ ctx1 w1, process_infect_loop env (k + 1) ctx w = process_infect_loop env k ctx1 w1 ∧
        (∀ t ∈ ctx1.threads, t.seized = true) ∧
        ((∀ t ∈ ctx.threads, t.seized = true) →
          missing U ctx1.threads < missing U ctx.threads) := by
  obtain ⟨new, e1, e2, e3⟩ := iterate_entries_listed env (env.readdir w.trace).2
    (env.readdir w.trace).1 ctx.threads
    (w.emit (.iterate_dir (env.readdir w.trace).1 (env.readdir w.trace).2))
  have hth : (process_collect_threads env ctx w).2.1.threads = ctx.threads ++ new := e1
  rw [process_infect_loop]
  by_cases h1 : (process_collect_threads env ctx w).1 ≠ 0
  · rw [if_pos h1]; exact Or.inl ⟨_, rfl⟩
  · rw [if_neg h1]
    by_cases h2 : (!process_needs_seize (process_collect_threads env ctx w).2.1) = true
    · rw [if_pos h2]
      split_ifs <;> exact Or.inl ⟨_, rfl⟩
    · rw [if_neg h2]
      by_cases h4 : (process_infect_threads env (process_collect_threads env ctx w).2.1
          (process_collect_threads env ctx w).2.2).1 ≠ 0
      · rw [if_pos h4]; exact Or.inl ⟨_, rfl⟩
      · rw [if_neg h4]
        have hwalk := process_infect_threads_walk_seizes hA.stop
          (process_collect_threads env ctx w).2.1.threads []
          (process_collect_threads env ctx w).2.2 (by simpa using h4)
        have hlist : (process_infect_threads env (process_collect_threads env ctx w).2.1
            (process_collect_threads env ctx w).2.2).2.1.threads =
            (ctx.threads ++ new).map (fun t => { t with seized := true }) := by
          show (process_infect_threads_walk env [] _ _).2.1 = _
          rw [hwalk, hth, List.nil_append]
        refine Or.inr ⟨_, _, rfl, ?_, ?_⟩
        · intro t ht
          rw [hlist] at ht
          obtain ⟨u, -, rfl⟩ := List.mem_map.1 ht
          rfl
        · intro hall
          rw [hlist, missing_seized]
          have h0 : (iterate_entries env (env.readdir w.trace).2 (env.readdir w.trace).1
              ctx.threads (w.emit (.iterate_dir (env.readdir w.trace).1
                (env.readdir w.trace).2))).1 = 0 := by
            simpa using h1
          have hnew : new ≠ [] := by
            intro hn
            subst hn
            rw [List.append_nil] at hth e3
            obtain ⟨a, L', hL⟩ := List.exists_cons_of_ne_nil (hA.readdir_ne w.trace)
            obtain ⟨t, ht, -⟩ := e3 h0 a (by rw [hL]; exact List.mem_cons_self _ _)
            have hns := process_needs_seize_of_all_seized
              (process_collect_threads env ctx w).2.1
              (by rw [hth]; exact List.ne_nil_of_mem ht)
              (by rw [hth]; exact hall)
            rw [hns] at h2
            exact h2 rfl
          obtain ⟨t, rest, rfl⟩ := List.exists_cons_of_ne_nil hnew
          have ht := e2 t (List.mem_cons_self _ _)
          exact missing_lt U ctx.threads (t :: rest) t (List.mem_cons_self _ _)
            (hA.readdir_sub _ _ ht.1) ht.2

/-- On a convergent target the seize loop ends: from a list of seized entries,
within one more iteration than there are ids missing. -/
theorem process_infect_loop_converges {env : Env} {U : List Int} (hA : Convergent env U)
    (k : Nat) :
    ∀ (ctx : process_ctx_s) (w : World), (∀ t ∈ ctx.threads, t.seized = true) →
      missing U ctx.threads < k → ∃ r, process_infect_loop env k ctx w = some r := by
  induction k with
  | zero => intro _ _ _ hk; omega
  | succ k ih =>
    intro ctx w hall hk
    rcases process_infect_loop_step hA k ctx w with h | ⟨ctx1, w1, he, hs, hm⟩
    · exact h
    · rw [he]
      exact ih ctx1 w1 hs (by have := hm hall; omega)

/-- On a convergent target `process_infect` returns, from any list, when the
bound on the iterations is at least `U.length + 2`. -/
theorem process_infect_loop_total {env : Env} {U : List Int} (hA : Convergent env U)
    (k : Nat) (hk : U.length + 2 ≤ k) (ctx : process_ctx_s) (w : World) :
    ∃ r, process_infect_loop env k ctx w = some r := by
  obtain ⟨k, rfl⟩ : ∃ k', k = k' + 1 := ⟨k - 1, by omega⟩
  rcases process_infect_loop_step hA k ctx w with h | ⟨ctx1, w1, he, hs, -⟩
  · exact h
  · rw [he]
    exact process_infect_loop_converges hA k ctx1 w1 hs
      (by have := missing_le U ctx1.threads; omega)

theorem process_catch_total {env : Env} {U : List Int} (hA : Convergent env U)
    (fuel : Nat) (hfuel : U.length + 2 ≤ fuel) (ctx : process_ctx_s) (w : World) :
    ∃ r, process_catch env fuel ctx w = some r := by
  obtain ⟨r, hr⟩ := process_infect_loop_total hA fuel hfuel ctx (w.emit .infecting)
  have hi : process_infect env fuel ctx w = some r := hr
  obtain ⟨err, ctx1, w1⟩ := r
  unfold process_catch
  rw [hi]
  dsimp only
  split_ifs <;> exact ⟨_, rfl⟩

theorem process_suspend_loop_total {env : Env} {U : List Int} (hA : Convergent env U)
    (fuel : Nat) (hfuel : U.length + 2 ≤ fuel) (n : Nat) :
    ∀ (try_ timeout_msec : Nat) (ctx : process_ctx_s) (w : World),
      tries ≤ try_ + n → 1 ≤ n →
      ∃ r, process_suspend_loop env fuel n try_ timeout_msec ctx w = some r := by
  induction n with
  | zero => intro _ _ _ _ _ h; omega
  | succ n ih =>
    intro try_ timeout_msec ctx w hn _
    obtain ⟨r, hr⟩ := process_catch_total hA fuel hfuel ctx
      (if try_ ≠ 0 then w.emit (.usleep ((timeout_msec * 1000) % 2 ^ 32)) else w)
    obtain ⟨err, ctx1, w1⟩ := r
    rw [process_suspend_loop, hr]
    dsimp only
    by_cases h2 : err ≠ -EAGAIN
    · rw [if_pos h2]; exact ⟨_, rfl⟩
    · rw [if_neg h2]
      by_cases h3 : try_ + 1 < tries
      · rw [if_pos h3]
        exact ih _ _ _ _ (by omega) (by omega)
      · rw [if_neg h3]; exact ⟨_, rfl⟩

/-- On a convergent target `process_suspend` returns. -/
theorem process_suspend_total {env : Env} {U : List Int} (hA : Convergent env U)
    (fuel : Nat) (hfuel : U.length + 2 ≤ fuel) (ctx : process_ctx_s) (w : World) :
    ∃ r, process_suspend env fuel ctx w = some r := by
  obtain ⟨r, hr⟩ := process_suspend_loop_total hA fuel hfuel tries 0 1 ctx w
    (by omega) (by decide)
  obtain ⟨err, ctx1, w1⟩ := r
  unfold process_suspend
  rw [hr]
  exact ⟨_, rfl⟩

/-- C15, as stated, fails: threads 1 and 2 are seized, thread 3 is already
stopped, and the resume of thread 1 fails.  `process_suspend` returns `-EBUSY`
after the single attempt, but the cure ended at the failed resume: the entries
stay in the list and thread 2 is still under seize, with no resume attempted
on it. -/
theorem busy_abort_strands_threads :
    process_suspend target_busy_stuck 2 ctx0 w0 =
        some (-EBUSY, { ctx0 with threads := [⟨1, true⟩, ⟨2, true⟩, ⟨3, false⟩] },
          ⟨0, [.infecting, .iterate_dir [1, 2, 3] 0, .malloc true, .malloc true,
            .malloc true, .stop 1 false .COMPEL_TASK_ALIVE,
            .stop 2 false .COMPEL_TASK_ALIVE, .stop 3 false .COMPEL_TASK_STOPPED,
            .resume 1 (-1)]⟩) ∧
      under_seize 2 [.infecting, .iterate_dir [1, 2, 3] 0, .malloc true, .malloc true,
          .malloc true, .stop 1 false .COMPEL_TASK_ALIVE,
          .stop 2 false .COMPEL_TASK_ALIVE, .stop 3 false .COMPEL_TASK_STOPPED,
          .resume 1 (-1)] = true := by
  decide

/-- C15, amended: a `process_suspend` call that starts from an empty thread
list and an empty history returns whenever the target is convergent (the task
directory is never empty, its ids come from a finite list `U`, every stop
answers alive or stopped) and the bound on the seize loop is at least
`U.length + 2`.  Whatever the target, if the call returns and some stop
returned `COMPEL_TASK_STOPPED` during it, then the result is `-EBUSY`, that
stop is followed by nothing but the resumes of the cure (no retry, no sleep),
and if none of those resumes failed the thread list is empty and no thread is
under seize on return. -/
theorem stopped_thread_ends_suspend (env : Env) (fuel : Nat) (ctx : process_ctx_s)
    (w : World) (h0 : ctx.threads = []) (hw : w.trace = []) :
    (∀ U, Convergent env U → U.length + 2 ≤ fuel →
        ∃ r, process_suspend env fuel ctx w = some r) ∧
      ∀ r, process_suspend env fuel ctx w = some r →
        (∃ pid s, Event.stop pid s .COMPEL_TASK_STOPPED ∈ r.2.2.trace) →
        r.1 = -EBUSY ∧
          (∃ pre pid s, r.2.2.trace =
            pre ++ Event.stop pid s .COMPEL_TASK_STOPPED :: last_cure r.2.2.trace) ∧
          ((∀ e ∈ last_cure r.2.2.trace, e.resume_ok = true) →
            r.2.1.threads = [] ∧ ∀ id, under_seize id r.2.2.trace = false) := by
  refine ⟨fun U hA hfuel => process_suspend_total hA fuel hfuel ctx w, ?_⟩
  intro r hr hs
  have htr : tracks r.2.1.threads r.2.2 :=
    process_suspend_inv (tracks_threadInv env)
      (fun l w h => tracks_emit_neutral _ (fun _ _ => rfl) h)
      (fun l w u h => tracks_emit_neutral _ (fun _ _ => rfl) h)
      fuel ctx w r (by
        refine ⟨by simp [h0], fun id => ?_⟩
        simp [hw, h0, under_seize, holds]) hr
  unfold process_suspend at hr
  cases hl : process_suspend_loop env fuel tries 0 1 ctx w with
  | none => rw [hl] at hr; cases hr
  | some q =>
    obtain ⟨err, ctx1, w1⟩ := q
    rw [hl] at hr
    cases hr
    dsimp only at hs htr ⊢
    have hb := process_suspend_loop_busy env fuel _ _ _ _ _ (err, ctx1, w1)
      (by simp [hw]) hl
    rcases hb with hb | ⟨hb, hshape, hlist⟩
    · exfalso
      obtain ⟨pid, s, hmem⟩ := hs
      have := hb _ hmem
      simp [Event.is_stopped] at this
    · dsimp only at hb hshape hlist
      have herr : (if err = -EAGAIN then -ETIME else err) = -EBUSY := by
        rw [hb]; decide
      refine ⟨herr, hshape, fun hg => ?_⟩
      have hempty : ctx1.threads = [] := hlist hg
      refine ⟨hempty, fun id => ?_⟩
      rw [htr.2 id, hempty]
      rfl

theorem target_busy_late_convergent : Convergent target_busy_late [1, 2, 3] := by
  refine ⟨fun h => ?_, fun h pid hp => ?_, fun h pid => ?_⟩
  · show (if attempts h ≤ 1 then (([1, 2] : List Int), (0 : Int)) else ([1, 2, 3], 0)).1 ≠ []
    split_ifs <;> simp
  · have hp' : pid ∈ (if attempts h ≤ 1 then (([1, 2] : List Int), (0 : Int))
        else ([1, 2, 3], 0)).1 := hp
    split_ifs at hp' <;> simp at hp' ⊢ <;> omega
  · show (if pid = 3 then stop_result.COMPEL_TASK_STOPPED else .COMPEL_TASK_ALIVE) = _ ∨
      (if pid = 3 then stop_result.COMPEL_TASK_STOPPED else .COMPEL_TASK_ALIVE) = _
    split_ifs <;> simp

/-- C15, witness: the first attempt seizes threads 1 and 2, is asked to retry
and fails to resume thread 1; the second attempt finds the new thread 3 already
stopped.  The call returns `-EBUSY`; the resumes after that stop succeed, so the
list is empty and no thread is under seize, although an earlier resume had
failed. -/
theorem stopped_thread_ends_suspend_witness :
    (∃ r, process_suspend target_busy_late 5 ctx0 w0 = some r) ∧
      ∃ r, process_suspend target_busy_late 5 ctx0 w0 = some r ∧
        Event.resume 1 (-1) ∈ r.2.2.trace ∧
        Event.stop 3 false .COMPEL_TASK_STOPPED ∈ r.2.2.trace ∧
        r.1 = -EBUSY ∧
        (∃ pre pid s, r.2.2.trace =
          pre ++ Event.stop pid s .COMPEL_TASK_STOPPED :: last_cure r.2.2.trace) ∧
        r.2.1.threads = [] ∧ ∀ id, under_seize id r.2.2.trace = false :=
  have hr : process_suspend target_busy_late 5 ctx0 w0 =
      some (-EBUSY, ctx0,
        ⟨0, [.infecting, .iterate_dir [1, 2] 0, .malloc true, .malloc true,
          .stop 1 false .COMPEL_TASK_ALIVE, .stop 2 false .COMPEL_TASK_ALIVE,
          .iterate_dir [1, 2] 0, .backtrace 1 0, .check 1 (-11), .destroy_backtrace 1,
          .resume 1 (-1), .usleep 1000, .infecting, .iterate_dir [1, 2, 3] 0,
          .malloc true, .stop 1 true .COMPEL_TASK_ALIVE, .stop 2 true .COMPEL_TASK_ALIVE,
          .stop 3 false .COMPEL_TASK_STOPPED, .resume 1 0, .resume 2 0]⟩) := by decide
  have h := stopped_thread_ends_suspend target_busy_late 5 ctx0 w0 rfl rfl
  have hb := h.2 _ hr ⟨3, false, by decide⟩
  ⟨h.1 [1, 2, 3] target_busy_late_convergent (by decide),
    _, hr, by decide, by decide, hb.1, hb.2.1, hb.2.2 (by decide)⟩

end Nsb
